import Mathlib

/-! DataIntel: the inference engine of `backend/services/productInference.js`

A shallow embedding of the product catalog, `inferProducts`, `calculateLeadScore`
and `determineUrgency`, followed by the properties proved about them.

Conventions of the embedding:

* JavaScript numbers are exact rationals (`ℚ`): `0.6 + 0.1 * n`, `25 - 2 * d` and the
  comparisons on them are taken in exact arithmetic, not in IEEE doubles. The one place
  where the rounding to a double decides a branch is `parseFloat` on the turnover, whose
  value is compared with 100 and 1000: there the decimal read is rounded to the nearest
  double (`nearestDouble`), as the runtime does.
* An object literal is the list of its entries in insertion order, which is the order
  `Object.entries` enumerates (no key of the three tables is an integer index).
* A mutable array is passed through the passes explicitly; `push` appends at the end and
  the in-place update of an entry found by `find` rewrites the first entry that matches.
* `String.prototype.toLowerCase` is a parameter `toLowerCase` of every definition that
  calls it, so that what is proved holds for the Unicode lower-casing of the runtime;
  `asciiLowerCase` is the instance used to evaluate the code on ASCII inputs.
* `Date.now()` is a parameter `now`, in milliseconds since the epoch; a timestamp is a
  valid date, held as its millisecond value.
* `Array.prototype.sort` is stable, so with the comparator of `inferProducts` it is the
  stable sort by descending confidence, whatever algorithm the runtime uses.
* A thrown `TypeError` is the `Except.error` result.
* A collection is the list of its documents in natural order; `findOne` and `findById`
  return the first document that matches and `updateOne` rewrites it. The operations of
  the store succeed, and a field of a document holds the value the code assigns to it.
* Where one run of a function reads the clock several times, each reading is a parameter
  of its own.
* The selection of the article elements of a page by `cheerio` is a parameter `extract` of
  `scrapeNewsSource`; the request of the page is the parameter `fetch` of `scrapeUrl`.
-/

namespace DataIntel

deriving instance DecidableEq for Except

/-! ## Strings -/

/-- The call `s.includes(sub)`: `sub` occurs in `s` as a contiguous run of characters. -/
def includes (s sub : String) : Bool :=
  s.data.tails.any fun t => sub.data.isPrefixOf t

/-- Lower-casing of the letters `A` to `Z`, every other character kept: what
`toLowerCase` does on an ASCII string. -/
def asciiLowerCase (s : String) : String :=
  String.mk (s.data.map Char.toLower)

/-! ## Product catalog -/

/-- One product of the catalog: the value stored under a product code. -/
structure ProductData where
  name : String
  keywords : List String
  useCases : List String
deriving DecidableEq, Repr

/-- What `findProduct` returns: the product data spread into a new object, with the
category added. -/
structure FoundProduct where
  name : String
  keywords : List String
  useCases : List String
  category : String
deriving DecidableEq, Repr

/-- The catalog `HPCL_PRODUCTS`: category, then product code, in insertion order. -/
def HPCL_PRODUCTS : List (String × List (String × ProductData)) :=
  [ ("Industrial Fuels",
      [ ("MS", { name := "Motor Spirit",
                 keywords := ["motor spirit", "petrol", "gasoline", "ms"],
                 useCases := ["automotive", "generators", "light vehicles"] }),
        ("HSD", { name := "High Speed Diesel",
                  keywords := ["diesel", "hsd", "high speed diesel"],
                  useCases := ["trucks", "buses", "generators", "heavy vehicles", "captive power"] }),
        ("LDO", { name := "Light Diesel Oil",
                  keywords := ["ldo", "light diesel", "light diesel oil"],
                  useCases := ["furnaces", "boilers", "kilns", "industrial heating"] }),
        ("FO", { name := "Furnace Oil",
                 keywords := ["furnace oil", "fo", "fuel oil", "heavy fuel"],
                 useCases := ["boilers", "furnaces", "power generation", "industrial heating",
                              "captive power"] }),
        ("LSHS", { name := "Low Sulphur Heavy Stock",
                   keywords := ["lshs", "low sulphur", "heavy stock"],
                   useCases := ["power plants", "marine", "industrial boilers"] }),
        ("SKO", { name := "Superior Kerosene Oil",
                  keywords := ["kerosene", "sko", "superior kerosene"],
                  useCases := ["heating", "lighting", "industrial applications"] }) ]),
    ("Specialty Products",
      [ ("Hexane", { name := "Hexane",
                     keywords := ["hexane", "n-hexane"],
                     useCases := ["solvent extraction", "oil extraction", "edible oil",
                                  "vegetable oil extraction"] }),
        ("Solvent 1425", { name := "Solvent 1425",
                           keywords := ["solvent 1425", "solvent", "industrial solvent"],
                           useCases := ["paint", "coating", "printing ink", "adhesives"] }),
        ("MTO", { name := "Mineral Turpentine Oil",
                  keywords := ["turpentine", "mto", "mineral turpentine", "mto 2445"],
                  useCases := ["paint thinner", "solvent", "cleaning agent"] }),
        ("JBO", { name := "Jute Batch Oil",
                  keywords := ["jute batch oil", "jbo", "jute oil"],
                  useCases := ["jute processing", "jute mills", "textile"] }) ]),
    ("Other DS Portfolio",
      [ ("Bitumen", { name := "Bitumen",
                      keywords := ["bitumen", "asphalt", "road construction"],
                      useCases := ["road construction", "highways", "infrastructure",
                                   "waterproofing"] }),
        ("Marine Bunker Fuels", { name := "Marine Bunker Fuels",
                                  keywords := ["bunker", "marine fuel", "shipping fuel", "vessel fuel"],
                                  useCases := ["shipping", "vessels", "maritime", "ports"] }),
        ("Sulphur", { name := "Sulphur",
                      keywords := ["sulphur", "sulfur", "molten sulphur"],
                      useCases := ["fertilizer", "chemical", "pharmaceutical"] }),
        ("Propylene", { name := "Propylene",
                        keywords := ["propylene", "propene"],
                        useCases := ["petrochemical", "plastic", "chemical manufacturing"] }) ]) ]

/-- The table `INDUSTRY_PRODUCT_MAP`: industry name to product codes. -/
def INDUSTRY_PRODUCT_MAP : List (String × List String) :=
  [ ("power", ["FO", "LSHS", "HSD", "LDO"]),
    ("chemicals", ["FO", "LDO", "Hexane", "Solvent 1425", "Propylene"]),
    ("fertilizers", ["FO", "Sulphur", "HSD"]),
    ("shipping", ["Marine Bunker Fuels", "LSHS"]),
    ("mining", ["HSD", "FO", "LDO"]),
    ("textile", ["JBO", "FO", "LDO"]),
    ("jute", ["JBO"]),
    ("edible_oil", ["Hexane"]),
    ("paint", ["Solvent 1425", "MTO"]),
    ("road_construction", ["Bitumen", "HSD"]),
    ("steel", ["FO", "LDO"]),
    ("cement", ["FO", "LDO", "Bitumen"]) ]

/-- The table `EQUIPMENT_PRODUCT_MAP`: equipment phrase to product codes. -/
def EQUIPMENT_PRODUCT_MAP : List (String × List String) :=
  [ ("boiler", ["FO", "LDO", "LSHS"]),
    ("furnace", ["FO", "LDO"]),
    ("genset", ["HSD", "FO"]),
    ("generator", ["HSD", "FO"]),
    ("captive power", ["FO", "HSD", "LSHS"]),
    ("diesel generator", ["HSD"]),
    ("power plant", ["FO", "LSHS"]),
    ("extraction plant", ["Hexane"]),
    ("jute mill", ["JBO"]),
    ("solvent plant", ["Hexane", "Solvent 1425"]) ]

/-- The property names every object literal inherits from `Object.prototype`; each of
them reads as a function or an object, none of which has a `forEach`. -/
def OBJECT_PROTOTYPE_KEYS : List String :=
  [ "constructor", "__defineGetter__", "__defineSetter__", "hasOwnProperty",
    "__lookupGetter__", "__lookupSetter__", "isPrototypeOf", "propertyIsEnumerable",
    "toString", "valueOf", "__proto__", "toLocaleString" ]

/-- What `INDUSTRY_PRODUCT_MAP[key] || []` followed by `.forEach` iterates over: the own
entry of `key`; for an inherited property name the value read is not an array and the
call of its `forEach` throws; for any other key the empty list. -/
def industryProductsOf (key : String) : Except String (List String) :=
  match INDUSTRY_PRODUCT_MAP.lookup key with
  | some codes => .ok codes
  | none =>
    if OBJECT_PROTOTYPE_KEYS.contains key then
      .error "TypeError: industryProducts.forEach is not a function"
    else .ok []

/-- The function `findProduct`: scan the categories for the product code and return its
data together with the category. It is called with codes of the two mapping tables only. -/
def findProduct (productCode : String) : Option FoundProduct :=
  HPCL_PRODUCTS.findSome? fun (category, products) =>
    (products.lookup productCode).map fun productData =>
      { name := productData.name
        keywords := productData.keywords
        useCases := productData.useCases
        category := category }

/-! ## Product inference -/

/-- One entry of the `recommendations` array. -/
structure Recommendation where
  product : String
  productName : String
  category : String
  confidence : ℚ
  reasonCodes : List String
  keywords : List String
deriving DecidableEq, Repr

/-- The call `recommendations.find(r => r.product === productCode)`. -/
def findRecommendation (recommendations : List Recommendation) (productCode : String) :
    Option Recommendation :=
  recommendations.find? fun r => r.product == productCode

/-- The keywords of a product that the text mentions:
`keywords.filter(keyword => normalizedText.includes(keyword.toLowerCase()))`. -/
def matchedKeywords (toLowerCase : String → String) (normalizedText : String)
    (productData : ProductData) : List String :=
  productData.keywords.filter fun keyword => includes normalizedText (toLowerCase keyword)

/-- First pass of `inferProducts`, direct product mentions: both `forEach` loops over
the catalog, pushing one recommendation per product with a matching keyword. -/
def directMentions (toLowerCase : String → String) (normalizedText : String)
    (recommendations : List Recommendation) : List Recommendation :=
  HPCL_PRODUCTS.foldl (fun recs (category, products) =>
    products.foldl (fun recs (productCode, productData) =>
      let found := matchedKeywords toLowerCase normalizedText productData
      if found.length > 0 then
        recs ++ [{ product := productCode
                   productName := productData.name
                   category := category
                   confidence := min 0.9 (0.6 + found.length * 0.1)
                   reasonCodes := ["Direct mention: " ++ ", ".intercalate found]
                   keywords := found }]
      else recs) recs) recommendations

/-- Body of the loop of the second pass, for one product code of the industry. -/
def industryStep (industry : String) (recs : List Recommendation) (productCode : String) :
    List Recommendation :=
  match findRecommendation recs productCode with
  | some _ => recs
  | none =>
    match findProduct productCode with
    | some productData =>
      recs ++ [{ product := productCode
                 productName := productData.name
                 category := productData.category
                 confidence := 0.5
                 reasonCodes := ["Industry match: " ++ industry]
                 keywords := [] }]
    | none => recs

/-- Second pass of `inferProducts`, industry-based inference. The guard `if (industry)`
holds for a supplied, non-empty string. -/
def industryInference (toLowerCase : String → String) (industry : Option String)
    (recommendations : List Recommendation) : Except String (List Recommendation) :=
  match industry with
  | none => .ok recommendations
  | some name =>
    if name = "" then .ok recommendations
    else
      match industryProductsOf (toLowerCase name) with
      | .error e => .error e
      | .ok industryProducts => .ok (industryProducts.foldl (industryStep name) recommendations)

/-- The in-place update of `existing`: the first entry for `productCode` gets its
confidence raised by 0.15, capped at 0.95, and one more reason code. -/
def boost (equipment productCode : String) : List Recommendation → List Recommendation
  | [] => []
  | r :: rest =>
    if r.product == productCode then
      { r with confidence := min 0.95 (r.confidence + 0.15)
               reasonCodes := r.reasonCodes ++ ["Equipment match: " ++ equipment] } :: rest
    else r :: boost equipment productCode rest

/-- Body of the inner loop of the third pass, for one product code of a phrase. -/
def equipmentStep (equipment : String) (recs : List Recommendation) (productCode : String) :
    List Recommendation :=
  match findRecommendation recs productCode with
  | some _ => boost equipment productCode recs
  | none =>
    match findProduct productCode with
    | some productData =>
      recs ++ [{ product := productCode
                 productName := productData.name
                 category := productData.category
                 confidence := 0.65
                 reasonCodes := ["Equipment match: " ++ equipment]
                 keywords := [equipment] }]
    | none => recs

/-- Third pass of `inferProducts`, equipment-based inference. -/
def equipmentInference (normalizedText : String) (recommendations : List Recommendation) :
    List Recommendation :=
  EQUIPMENT_PRODUCT_MAP.foldl (fun recs (equipment, products) =>
    if includes normalizedText equipment then products.foldl (equipmentStep equipment) recs
    else recs) recommendations

/-- The `recommendations` array of `inferProducts` after its three passes, before it is
sorted and cut. -/
def gatherRecommendations (toLowerCase : String → String) (text : String)
    (industry : Option String) : Except String (List Recommendation) :=
  let normalizedText := toLowerCase text
  match industryInference toLowerCase industry (directMentions toLowerCase normalizedText []) with
  | .error e => .error e
  | .ok recs => .ok (equipmentInference normalizedText recs)

/-- The comparator `(a, b) => b.confidence - a.confidence` is not positive: `a` may stay
before `b`. -/
def byConfidence (a b : Recommendation) : Prop := b.confidence ≤ a.confidence

instance : DecidableRel byConfidence := fun a b =>
  inferInstanceAs (Decidable (b.confidence ≤ a.confidence))

instance : IsTotal Recommendation byConfidence :=
  ⟨fun a b => le_total b.confidence a.confidence⟩

instance : IsTrans Recommendation byConfidence :=
  ⟨fun _ _ _ hab hbc => le_trans hbc hab⟩

/-- The call `.sort((a, b) => b.confidence - a.confidence)`: a stable sort, descending
by confidence. -/
def sortByConfidence (recommendations : List Recommendation) : List Recommendation :=
  recommendations.insertionSort byConfidence

/-- The function `inferProducts(text, industry = null)`; an industry that is not passed,
`null` or `undefined` is `none`. -/
def inferProducts (toLowerCase : String → String) (text : String)
    (industry : Option String) : Except String (List Recommendation) :=
  match gatherRecommendations toLowerCase text industry with
  | .error e => .error e
  | .ok recommendations => .ok ((sortByConfidence recommendations).take 3)

/-! ## Lead scoring -/

/-- One signal of a lead, as the scoring functions read it. -/
structure Signal where
  source : String
  sourceUrl : String
  sourceType : String
  extractedText : String
  timestamp : ℤ
  keywords : List String
deriving DecidableEq, Repr

/-- The `companyDetails` of a lead: the two fields the inference engine reads. Each is a
string of the lead schema, or absent. -/
structure CompanyDetails where
  industry : Option String := none
  turnover : Option String := none
deriving DecidableEq, Repr

/-- The `lead` argument of `calculateLeadScore`: an object that has `companyDetails`
or not. -/
structure Lead where
  companyDetails : Option CompanyDetails := none
deriving DecidableEq, Repr

/-- The turnover `lead.companyDetails?.turnover` reads, absent when either level is. -/
def Lead.turnover (lead : Lead) : Option String :=
  lead.companyDetails.bind (·.turnover)

/-- The object `calculateLeadScore` returns. -/
structure LeadScore where
  total : ℚ
  intentStrength : ℚ
  freshness : ℚ
  companySize : ℚ
  proximity : ℚ
deriving DecidableEq, Repr

/-- A value of `parseFloat`: not a number, a finite number, or an infinity. -/
inductive ParsedNumber where
  | NaN
  | finite (value : ℚ)
  | infinity (negative : Bool)
deriving DecidableEq, Repr

/-- The comparison `x > bound` of a parsed number with a numeric literal. -/
def ParsedNumber.gt (x : ParsedNumber) (bound : ℚ) : Bool :=
  match x with
  | .NaN => false
  | .finite value => decide (bound < value)
  | .infinity negative => !negative

/-- White space and line terminators, which `parseFloat` skips at the start. -/
def isStrWhiteSpaceChar (c : Char) : Bool :=
  [0x09, 0x0A, 0x0B, 0x0C, 0x0D, 0x20, 0xA0, 0x1680, 0x2000, 0x2001, 0x2002, 0x2003, 0x2004,
   0x2005, 0x2006, 0x2007, 0x2008, 0x2009, 0x200A, 0x2028, 0x2029, 0x202F, 0x205F, 0x3000,
   0xFEFF].contains c.toNat

/-- The number written by a run of decimal digits. -/
def digitsValue (digits : List Char) : ℕ :=
  digits.foldl (fun n c => 10 * n + (c.toNat - 48)) 0

/-- The exponent part of a decimal literal: `e` or `E`, an optional sign and at least
one digit; anything else is not part of the number and counts as exponent 0. -/
def exponentValue : List Char → ℤ
  | c :: rest =>
    if c = 'e' ∨ c = 'E' then
      match rest with
      | '-' :: ds => if (ds.takeWhile Char.isDigit).isEmpty then 0
                     else - (digitsValue (ds.takeWhile Char.isDigit) : ℤ)
      | '+' :: ds => (digitsValue (ds.takeWhile Char.isDigit) : ℤ)
      | ds => (digitsValue (ds.takeWhile Char.isDigit) : ℤ)
    else 0
  | [] => 0

/-- The number of binary digits of `n`, by halving; `fuel` bounds the halvings. -/
def bitLengthAux : ℕ → ℕ → ℕ
  | 0, _ => 0
  | fuel + 1, n => if n = 0 then 0 else bitLengthAux fuel (n / 2) + 1

/-- The number of binary digits of `n`: 0 for 0, and `k + 1` when `2^k ≤ n < 2^(k+1)`. -/
def bitLength (n : ℕ) : ℕ :=
  bitLengthAux n n

/-- The binary exponent `e` of a positive rational `x`: `2^e ≤ x < 2^(e+1)`. The
difference of the bit lengths of numerator and denominator is `e` or `e + 1`. -/
def binaryExponent (x : ℚ) : ℤ :=
  let guess : ℤ := (bitLength x.num.toNat : ℤ) - (bitLength x.den : ℤ)
  if (2 : ℚ) ^ guess ≤ x then guess else guess - 1

/-- The integer nearest to `p / r`; of two integers equally near, the even one. -/
def roundHalfEven (p r : ℕ) : ℕ :=
  let floor := p / r
  let rest := p % r
  if 2 * rest < r then floor
  else if r < 2 * rest then floor + 1
  else if floor % 2 = 0 then floor else floor + 1

/-- The Number value for a non-negative mathematical value `x`: the IEEE 754 double
nearest to `x`, ties going to the even significand. A double is a multiple of
`2^(e - 52)` with `e` the binary exponent of `x`, not below -1022 (below that the doubles
are subnormal). The result is `none` when the rounded value is `2^1024` or more, which the
runtime reads as an infinity. -/
def nearestDouble (x : ℚ) : Option ℚ :=
  if x = 0 then some 0
  else
    let e : ℤ := max (binaryExponent x) (-1022)
    let quantum : ℚ := 2 ^ (e - 52)
    let scaled : ℚ := x / quantum
    let significand : ℕ := roundHalfEven scaled.num.toNat scaled.den
    let value : ℚ := significand * quantum
    if value < 2 ^ (1024 : ℕ) then some value else none

/-- The built-in `parseFloat` on a string: leading white space is skipped, the longest
prefix that is a decimal literal is read, and its value is rounded to the nearest double
(`nearestDouble`); a value too large for a double is an infinity. -/
def parseFloat (s : String) : ParsedNumber :=
  let trimmed := s.data.dropWhile isStrWhiteSpaceChar
  let (negative, unsigned) : Bool × List Char :=
    match trimmed with
    | '-' :: rest => (true, rest)
    | '+' :: rest => (false, rest)
    | _ => (false, trimmed)
  if "Infinity".data.isPrefixOf unsigned then .infinity negative
  else
    let intDigits := unsigned.takeWhile Char.isDigit
    let afterInt := unsigned.dropWhile Char.isDigit
    let (fracDigits, afterFrac) : List Char × List Char :=
      match afterInt with
      | '.' :: rest => (rest.takeWhile Char.isDigit, rest.dropWhile Char.isDigit)
      | _ => ([], afterInt)
    if intDigits.isEmpty && fracDigits.isEmpty then .NaN
    else
      let mantissa : ℚ := (digitsValue (intDigits ++ fracDigits) : ℚ) / 10 ^ fracDigits.length
      let value : ℚ := mantissa * 10 ^ exponentValue afterFrac
      match nearestDouble value with
      | some rounded => .finite (if negative then -rounded else rounded)
      | none => .infinity negative

/-- The signal `signals.reduce((latest, s) => new Date(s.timestamp) >
new Date(latest.timestamp) ? s : latest)` returns, started from the first signal. -/
def latestSignal (first : Signal) (rest : List Signal) : Signal :=
  rest.foldl (fun latest s => if s.timestamp > latest.timestamp then s else latest) first

/-- Age of a timestamp in days: `(Date.now() - new Date(timestamp)) / (1000 * 60 * 60 * 24)`. -/
def daysSince (now timestamp : ℤ) : ℚ :=
  ((now - timestamp : ℤ) : ℚ) / (1000 * 60 * 60 * 24)

/-- The function `calculateLeadScore(lead, signals)`, evaluated at time `now`. -/
def calculateLeadScore (now : ℤ) (lead : Lead) (signals : List Signal) : LeadScore :=
  let hasTender := signals.any fun s => s.sourceType == "tender"
  let hasMultipleSignals := signals.length > 1
  let intentStrength : ℚ := if hasTender then 30 else (if hasMultipleSignals then 20 else 10)
  let freshness : ℚ :=
    match signals with
    | [] => 0
    | first :: rest =>
      let daysSinceSignal := daysSince now (latestSignal first rest).timestamp
      max 0 (25 - daysSinceSignal * 2)
  let companySize : ℚ :=
    match lead.turnover with
    | some turnoverText =>
      if turnoverText ≠ "" then
        let turnover := parseFloat turnoverText
        if turnover.gt 1000 then 25 else (if turnover.gt 100 then 20 else 15)
      else 10
    | none => 10
  let proximity : ℚ := 15
  let total : ℚ := [intentStrength, freshness, companySize, proximity].foldl (fun sum val => sum + val) 0
  { total := total
    intentStrength := intentStrength
    freshness := freshness
    companySize := companySize
    proximity := proximity }

/-- The function `determineUrgency(leadScore, signals)`, evaluated at time `now`. -/
def determineUrgency (now : ℤ) (leadScore : LeadScore) (signals : List Signal) : String :=
  let hasTender := signals.any fun s => s.sourceType == "tender"
  let recentSignal := signals.any fun s => decide (daysSince now s.timestamp < 7)
  if hasTender && recentSignal then "critical"
  else if leadScore.total > 70 then "high"
  else if leadScore.total > 50 then "medium"
  else "low"

/-! ## Lead and source documents -/

/-- One entry of `contactAttempts`. -/
structure ContactAttempt where
  date : ℤ
  method : Option String
  outcome : Option String
  notes : Option String
deriving DecidableEq, Repr

/-- The `feedback` of a lead; a field the request does not carry is absent. -/
structure Feedback where
  accepted : Option Bool
  converted : Option Bool
  rejectionReason : Option String
  notes : Option String
  feedbackDate : ℤ
deriving DecidableEq, Repr

/-- The `nextAction` of a lead. -/
structure NextAction where
  action : String
  dueDate : ℤ
deriving DecidableEq, Repr

/-- The `metadata` of a lead. -/
structure LeadMetadata where
  discoveredAt : ℤ
  lastUpdated : ℤ
  notificationSent : Bool
  notificationSentAt : Option ℤ
deriving DecidableEq, Repr

/-- A document of the `Lead` collection, with its `_id`. -/
structure LeadDocument where
  id : ℕ
  companyName : String
  companyDetails : Option CompanyDetails
  facilities : List String
  productRecommendations : List Recommendation
  signals : List Signal
  leadScore : LeadScore
  urgency : String
  status : String
  assignedTo : Option ℕ
  territory : Option String
  dsro : Option String
  depot : Option String
  nextAction : Option NextAction
  feedback : Option Feedback
  contactAttempts : List ContactAttempt
  metadata : LeadMetadata
deriving DecidableEq, Repr

/-- The lead document as the `lead` argument of `calculateLeadScore`. -/
def LeadDocument.toLead (doc : LeadDocument) : Lead :=
  { companyDetails := doc.companyDetails }

/-- The `statistics` of a source. -/
structure SourceStatistics where
  totalCrawls : ℤ
  successfulCrawls : ℤ
  failedCrawls : ℤ
  leadsGenerated : ℤ
deriving DecidableEq, Repr

/-- A document of the `Source` collection, with its `_id`. -/
structure SourceDocument where
  id : ℕ
  domain : String
  category : String
  crawlFrequency : String
  crawlStatus : String
  lastCrawled : Option ℤ
  statistics : SourceStatistics
deriving DecidableEq, Repr

/-- The two collections and the lines written to the logger. -/
structure Database where
  leads : List LeadDocument
  sources : List SourceDocument
  log : List String
deriving DecidableEq, Repr

/-- An update of one document: the first document that matches the filter is rewritten,
the others are kept. -/
def updateFirst {α : Type} (filter : α → Bool) (update : α → α) : List α → List α
  | [] => []
  | a :: rest => if filter a then update a :: rest else a :: updateFirst filter update rest

/-- The hook `leadSchema.pre('save')`: every save sets `metadata.lastUpdated`. -/
def preSave (now : ℤ) (doc : LeadDocument) : LeadDocument :=
  { doc with metadata := { doc.metadata with lastUpdated := now } }

/-- The call `lead.save()` on a document loaded from the collection: the document stored
under its `_id` is replaced by the document as it is after the hook. -/
def saveLead (now : ℤ) (doc : LeadDocument) (leads : List LeadDocument) : List LeadDocument :=
  updateFirst (fun stored => stored.id == doc.id) (fun _ => preSave now doc) leads

/-- The call `array.join(' ')` on strings. -/
def joinWithSpace : List String → String
  | [] => ""
  | [a] => a
  | a :: b :: rest => a ++ " " ++ joinWithSpace (b :: rest)

/-- The text `signals.map(s => s.extractedText).join(' ')`. -/
def allSignalText (signals : List Signal) : String :=
  joinWithSpace (signals.map (·.extractedText))

/-! ## Reconciliation of a candidate with the lead store (`cronService.js`) -/

/-- The `data` of `createLeadFromSignal`: an extracted article, any field of which may be
missing. -/
structure Candidate where
  organization : Option String
  title : Option String
  description : Option String
  link : Option String
  keywords : Option (List String)
  industry : Option String
deriving DecidableEq, Repr

/-- String conversion of an operand of `+`: a missing value reads "undefined". -/
def toStringOperand : Option String → String
  | some s => s
  | none => "undefined"

/-- The operand `a || b` on strings: `a` when it is present and not empty. -/
def orElse (a : Option String) (b : Option String) : Option String :=
  match a with
  | some s => if s ≠ "" then some s else b
  | none => b

/-- The call `s.trim()`: white space and line terminators removed at both ends. -/
def trim (s : String) : String :=
  String.mk ((s.data.dropWhile isStrWhiteSpaceChar).reverse.dropWhile isStrWhiteSpaceChar).reverse

/-- The expression `data.organization || data.title?.split('-')[0].trim() ||
'Unknown Company'`. -/
def companyNameOf (data : Candidate) : String :=
  ((orElse data.organization
      (orElse (data.title.map fun title => trim (String.mk (title.data.takeWhile (· ≠ '-'))))
        (some "Unknown Company")))).getD "Unknown Company"

/-- The `signal` object built from the candidate. -/
def signalOf (signalAt : ℤ) (data : Candidate) (source : SourceDocument) (type : String) :
    Signal :=
  { source := source.domain
    sourceUrl := (orElse data.link (some ("https://" ++ source.domain))).getD
      ("https://" ++ source.domain)
    sourceType := type
    extractedText := toStringOperand data.title ++ " " ++ toStringOperand data.description
    timestamp := signalAt
    keywords := data.keywords.getD [] }

/-- The readings of the clock during one run of `createLeadFromSignal`: when the signal is
built, when the score and the urgency are computed, when a new document is constructed
and when the document is saved. -/
structure CronClock where
  signalAt : ℤ
  scoreAt : ℤ
  urgencyAt : ℤ
  constructedAt : ℤ
  saveAt : ℤ
deriving DecidableEq, Repr

/-- The function `createLeadFromSignal(data, source, type)`. Whatever is thrown inside is
caught and logged; a document changed in memory and not saved leaves the collection as
it was. `newId` is the `_id` given to a new document. -/
def createLeadFromSignal (toLowerCase : String → String) (clock : CronClock) (newId : ℕ)
    (data : Candidate) (source : SourceDocument) (type : String) (db : Database) : Database :=
  let companyName := companyNameOf data
  let existingLead := db.leads.find? fun lead => lead.companyName == companyName
  let signal := signalOf clock.signalAt data source type
  match existingLead with
  | some existingLead =>
    let signals := existingLead.signals ++ [signal]
    match inferProducts toLowerCase (allSignalText signals)
        (existingLead.companyDetails.bind (·.industry)) with
    | .error error =>
      { db with log := db.log ++ ["Error creating lead from signal: " ++ error] }
    | .ok productRecommendations =>
      let leadScore :=
        calculateLeadScore clock.scoreAt { existingLead with signals := signals }.toLead signals
      let urgency := determineUrgency clock.urgencyAt leadScore signals
      { db with
        leads := saveLead clock.saveAt
          { existingLead with
            signals := signals
            productRecommendations := productRecommendations
            leadScore := leadScore
            urgency := urgency } db.leads
        log := db.log ++ ["Updated existing lead: " ++ companyName] }
  | none =>
    match inferProducts toLowerCase signal.extractedText none with
    | .error error =>
      { db with log := db.log ++ ["Error creating lead from signal: " ++ error] }
    | .ok productRecommendations =>
      let leadScore := calculateLeadScore clock.scoreAt {} [signal]
      let urgency := determineUrgency clock.urgencyAt leadScore [signal]
      let newLead : LeadDocument :=
        { id := newId
          companyName := companyName
          companyDetails := some { industry := orElse data.industry none }
          facilities := []
          productRecommendations := productRecommendations
          signals := [signal]
          leadScore := leadScore
          urgency := urgency
          status := "new"
          assignedTo := none
          territory := none
          dsro := none
          depot := none
          nextAction := none
          feedback := none
          contactAttempts := []
          metadata := { discoveredAt := clock.constructedAt
                        lastUpdated := clock.constructedAt
                        notificationSent := false
                        notificationSentAt := none } }
      { leads := db.leads ++ [preSave clock.saveAt newLead]
        sources := updateFirst (fun stored => stored.id == source.id)
          (fun stored => { stored with statistics :=
            { stored.statistics with leadsGenerated := stored.statistics.leadsGenerated + 1 } })
          db.sources
        log := db.log ++ ["Created new lead: " ++ companyName] }

/-! ## The scheduled triggers (`cronService.js`) -/

/-- A statement running on a state: the state it leaves behind, and whether it completed
or threw. -/
abbrev Stmt (σ : Type) := σ → σ × Except String Unit

/-- The statement `try { body } catch (error) { handler }`. -/
def tryCatch {σ : Type} (body : Stmt σ) (handler : String → Stmt σ) : Stmt σ := fun w =>
  match body w with
  | (w1, .ok _) => (w1, .ok ())
  | (w1, .error error) => handler error w1

/-- The statement `for (const item of items) { body }`: a throw in the body leaves the
loop. -/
def forOf {α σ : Type} (body : α → Stmt σ) : List α → Stmt σ
  | [], w => (w, .ok ())
  | item :: rest, w =>
    match body item w with
    | (w1, .ok _) => forOf body rest w1
    | (w1, .error error) => (w1, .error error)

/-- The query `Source.find({ crawlFrequency, crawlStatus: 'active' })`. -/
def findActiveSources (crawlFrequency : String) (sources : List SourceDocument) :
    List SourceDocument :=
  sources.filter fun source =>
    source.crawlFrequency == crawlFrequency && source.crawlStatus == "active"

/-- The `try` block shared by `scrapeDailySources` and `scrapeHourlySources`: the sources
are selected, then each is handed to `scrapeSourceAndCreateLeads` inside its own `try`.
The state, the stored sources in it, the processing of one source and the logger are
parameters. -/
def scrapeSelected {σ : Type} (crawlFrequency : String) (stored : σ → List SourceDocument)
    (scrapeSourceAndCreateLeads : SourceDocument → Stmt σ) (logError : String → σ → σ) :
    Stmt σ := fun w =>
  forOf (fun source =>
      tryCatch (scrapeSourceAndCreateLeads source) fun error w1 =>
        (logError ("Error scraping source " ++ source.domain ++ ": " ++ error) w1, .ok ()))
    (findActiveSources crawlFrequency (stored w)) w

/-- The body shared by `scrapeDailySources` and `scrapeHourlySources`: the block above
inside the outer `try`. -/
def scrapeSources {σ : Type} (crawlFrequency : String) (stored : σ → List SourceDocument)
    (scrapeSourceAndCreateLeads : SourceDocument → Stmt σ) (logError : String → σ → σ) :
    Stmt σ :=
  tryCatch (scrapeSelected crawlFrequency stored scrapeSourceAndCreateLeads logError)
    (fun error w1 =>
      (logError ("Error in " ++ crawlFrequency ++ " scraping job: " ++ error) w1, .ok ()))

/-- The function `scrapeDailySources`. -/
def scrapeDailySources {σ : Type} (stored : σ → List SourceDocument)
    (scrapeSourceAndCreateLeads : SourceDocument → Stmt σ) (logError : String → σ → σ) :
    Stmt σ :=
  scrapeSources "daily" stored scrapeSourceAndCreateLeads logError

/-- The function `scrapeHourlySources`. -/
def scrapeHourlySources {σ : Type} (stored : σ → List SourceDocument)
    (scrapeSourceAndCreateLeads : SourceDocument → Stmt σ) (logError : String → σ → σ) :
    Stmt σ :=
  scrapeSources "hourly" stored scrapeSourceAndCreateLeads logError

/-! ## Fetching a source (`webScraper.js`) -/

/-- What `scrapeUrl` returns; the parsed document `$` is the page itself. -/
structure Scraped where
  url : String
  html : String
  timestamp : ℤ
  source : String
deriving DecidableEq, Repr

/-- The `$inc` of the success path and its `$set` of `lastCrawled`. -/
def recordSuccess (crawledAt : ℤ) (source : SourceDocument) : SourceDocument :=
  { source with
    statistics := { source.statistics with
      totalCrawls := source.statistics.totalCrawls + 1
      successfulCrawls := source.statistics.successfulCrawls + 1 }
    lastCrawled := some crawledAt }

/-- The `$inc` of the `catch` path. -/
def recordFailure (source : SourceDocument) : SourceDocument :=
  { source with
    statistics := { source.statistics with
      failedCrawls := source.statistics.failedCrawls + 1 } }

/-- The method `scrapeUrl(url, sourceConfig)` with `sourceConfig.domain = domain`. The
request `axios.get` with the parsing of its answer is the parameter `fetch`; the delay of
`respectRateLimit` changes no state. The result is the database left behind and either
the scraped page or the error thrown again by the `catch`. -/
def scrapeUrl (fetch : String → Except String String) (crawledAt returnedAt : ℤ)
    (url domain : String) (db : Database) : Database × Except String Scraped :=
  let attempt : Except String (SourceDocument × String) :=
    match db.sources.find? fun source => source.domain == domain with
    | none => .error ("Scraping not allowed for domain: " ++ domain)
    | some source =>
      if source.crawlStatus != "active" then
        .error ("Scraping not allowed for domain: " ++ domain)
      else
        match fetch url with
        | .error error => .error error
        | .ok html => .ok (source, html)
  match attempt with
  | .ok (source, html) =>
    ({ db with sources :=
        updateFirst (fun stored => stored.id == source.id) (recordSuccess crawledAt) db.sources },
      .ok { url := url, html := html, timestamp := returnedAt, source := domain })
  | .error error =>
    ({ db with
        sources := updateFirst (fun stored => stored.domain == domain) recordFailure db.sources
        log := db.log ++ ["Error scraping " ++ url ++ ": " ++ error] },
      .error error)

/-! ## Extraction of news articles (`webScraper.js`) -/

/-- The list `productKeywords` of `extractProductKeywords`. -/
def PRODUCT_KEYWORDS : List String :=
  [ "furnace oil", "fo", "diesel", "hsd", "ldo", "lshs",
    "bitumen", "bunker", "hexane", "solvent", "sulphur",
    "propylene", "kerosene", "jute batch oil", "turpentine",
    "boiler", "generator", "power plant", "captive power" ]

/-- The method `extractProductKeywords(text)`. -/
def extractProductKeywords (toLowerCase : String → String) (text : String) : List String :=
  let lowerText := toLowerCase text
  PRODUCT_KEYWORDS.foldl (fun keywords keyword =>
    if includes lowerText keyword then keywords ++ [keyword] else keywords) []

/-- An `article` object of `scrapeNewsSource`. -/
structure Article where
  title : String
  description : String
  link : Option String
  date : String
  keywords : List String
deriving DecidableEq, Repr

/-- The article as the `data` of `createLeadFromSignal`: the fields an article does not
have read as missing. -/
def Article.toCandidate (article : Article) : Candidate :=
  { organization := none
    title := some article.title
    description := some article.description
    link := article.link
    keywords := some article.keywords
    industry := none }

/-- The method `scrapeNewsSource(sourceUrl)`. The parsing of the URL is the parameter
`hostname`, the request is `fetch` as in `scrapeUrl`, and `extract` gives, for a page, the
elements the selector finds, each with the title, description, link and date read from
it. Whatever is thrown is logged and answered with no article. -/
def scrapeNewsSource (toLowerCase : String → String) (hostname : String → Except String String)
    (fetch : String → Except String String) (extract : String → List Article)
    (crawledAt returnedAt : ℤ) (sourceUrl : String) (db : Database) :
    Database × List Article :=
  match hostname sourceUrl with
  | .error error =>
    ({ db with log := db.log ++ ["Error scraping news source: " ++ error] }, [])
  | .ok domain =>
    match scrapeUrl fetch crawledAt returnedAt sourceUrl domain db with
    | (db1, .error error) =>
      ({ db1 with log := db1.log ++ ["Error scraping news source: " ++ error] }, [])
    | (db1, .ok scraped) =>
      (db1, (extract scraped.html).foldl (fun articles found =>
        let article : Article :=
          { found with keywords :=
              extractProductKeywords toLowerCase (found.title ++ " " ++ found.description) }
        if article.keywords.length > 0 then articles ++ [article] else articles) [])

/-! ## The lead routes (`routes/leads.js`) -/

/-- The answer of a route: a lead as JSON with its status code, or an error. -/
inductive Response where
  | json (status : ℕ) (lead : LeadDocument)
  | error (status : ℕ) (message : String)
deriving DecidableEq, Repr

/-- The body of `POST /:id/feedback`. -/
structure FeedbackRequest where
  accepted : Option Bool
  converted : Option Bool
  rejectionReason : Option String
  notes : Option String
deriving DecidableEq, Repr

/-- Truthiness of an optional boolean: present and true. -/
def truthy (value : Option Bool) : Bool :=
  value == some true

/-- What `POST /:id/feedback` does to the lead it has loaded, before saving it: the
feedback is set, then the status by `converted`, else by `accepted`. -/
def applyFeedback (now : ℤ) (body : FeedbackRequest) (lead : LeadDocument) : LeadDocument :=
  let withFeedback : LeadDocument :=
    { lead with feedback := some { accepted := body.accepted
                                   converted := body.converted
                                   rejectionReason := body.rejectionReason
                                   notes := body.notes
                                   feedbackDate := now } }
  if truthy body.converted then { withFeedback with status := "won" }
  else if !truthy body.accepted then { withFeedback with status := "rejected" }
  else withFeedback

/-- The route `POST /:id/feedback`. -/
def postFeedback (now saveAt : ℤ) (id : ℕ) (body : FeedbackRequest)
    (leads : List LeadDocument) : List LeadDocument × Response :=
  match leads.find? fun lead => lead.id == id with
  | none => (leads, .error 404 "Lead not found")
  | some lead =>
    (saveLead saveAt (applyFeedback now body lead) leads,
      .json 200 (preSave saveAt (applyFeedback now body lead)))

/-- The body of `POST /:id/contact`. -/
structure ContactRequest where
  method : Option String
  outcome : Option String
  notes : Option String
deriving DecidableEq, Repr

/-- What `POST /:id/contact` does to the lead it has loaded, before saving it: the
attempt is pushed, then the status is set for the outcome 'connected'. -/
def recordContact (now : ℤ) (body : ContactRequest) (lead : LeadDocument) : LeadDocument :=
  let pushed : LeadDocument :=
    { lead with contactAttempts := lead.contactAttempts ++
        [{ date := now, method := body.method, outcome := body.outcome, notes := body.notes }] }
  if body.outcome == some "connected" then { pushed with status := "contacted" } else pushed

/-- The route `POST /:id/contact`. -/
def postContact (now saveAt : ℤ) (id : ℕ) (body : ContactRequest)
    (leads : List LeadDocument) : List LeadDocument × Response :=
  match leads.find? fun lead => lead.id == id with
  | none => (leads, .error 404 "Lead not found")
  | some lead =>
    (saveLead saveAt (recordContact now body lead) leads,
      .json 200 (preSave saveAt (recordContact now body lead)))

/-- The body of `POST /`. -/
structure LeadRequest where
  companyName : String
  companyDetails : Option CompanyDetails
  facilities : List String
  signals : List Signal
  territory : Option String
  dsro : Option String
  depot : Option String
deriving DecidableEq, Repr

/-- The readings of the clock during one run of `POST /`. -/
structure IntakeClock where
  scoreAt : ℤ
  urgencyAt : ℤ
  dueAt : ℤ
  constructedAt : ℤ
  saveAt : ℤ
  notifiedAt : ℤ
  secondSaveAt : ℤ
deriving DecidableEq, Repr

/-- The `nextAction` object of `POST /`. -/
def suggestNextAction (dueAt : ℤ) (urgency : String) (signals : List Signal) : NextAction :=
  { action :=
      if signals.any fun s => s.sourceType == "tender" then
        "Review tender requirements and prepare proposal"
      else "Initial contact call to introduce HPCL products"
    dueDate := dueAt + (if urgency == "critical" then 1 else 3) * 24 * 60 * 60 * 1000 }

/-- The route `POST /`. The sales officer found for the territory, if any, is
`assignedUser`, and `notification` is the outcome of `sendNotification`. Whatever is
thrown is answered with status 500; a lead saved before stays saved. -/
def postLead (toLowerCase : String → String) (clock : IntakeClock) (newId : ℕ)
    (body : LeadRequest) (assignedUser : Option ℕ) (notification : Except String Unit)
    (leads : List LeadDocument) : List LeadDocument × Response :=
  match inferProducts toLowerCase (allSignalText body.signals)
      (body.companyDetails.bind (·.industry)) with
  | .error error => (leads, .error 500 error)
  | .ok productRecommendations =>
    let leadScore := calculateLeadScore clock.scoreAt { companyDetails := body.companyDetails }
      body.signals
    let urgency := determineUrgency clock.urgencyAt leadScore body.signals
    let nextAction := suggestNextAction clock.dueAt urgency body.signals
    let lead : LeadDocument :=
      { id := newId
        companyName := body.companyName
        companyDetails := body.companyDetails
        facilities := body.facilities
        productRecommendations := productRecommendations
        signals := body.signals
        leadScore := leadScore
        urgency := urgency
        status := "new"
        assignedTo := assignedUser
        territory := body.territory
        dsro := body.dsro
        depot := body.depot
        nextAction := some nextAction
        feedback := none
        contactAttempts := []
        metadata := { discoveredAt := clock.constructedAt
                      lastUpdated := clock.constructedAt
                      notificationSent := false
                      notificationSentAt := none } }
    let saved := preSave clock.saveAt lead
    match assignedUser with
    | none => (leads ++ [saved], .json 201 saved)
    | some _ =>
      match notification with
      | .error error => (leads ++ [saved], .error 500 error)
      | .ok _ =>
        let notified : LeadDocument :=
          { saved with metadata := { saved.metadata with
              notificationSent := true
              notificationSentAt := some clock.notifiedAt } }
        (saveLead clock.secondSaveAt notified (leads ++ [saved]),
          .json 201 (preSave clock.secondSaveAt notified))

/-! ## Vocabulary of the statements -/

/-- The products of the catalog in the order the two nested loops visit them, each with
its category and its code. -/
def catalogProducts : List (String × String × ProductData) :=
  HPCL_PRODUCTS.flatMap fun entry => entry.2.map fun product => (entry.1, product.1, product.2)

/-- Some keyword of the product code occurs in the text, letter case ignored. -/
def mentioned (toLowerCase : String → String) (normalizedText productCode : String) : Bool :=
  catalogProducts.any fun entry =>
    entry.2.1 == productCode &&
      decide ((matchedKeywords toLowerCase normalizedText entry.2.2).length > 0)

/-- The equipment phrases that occur in the text and map the product code, in the order
of the equipment table. -/
def equipmentHits (normalizedText productCode : String) : List String :=
  (EQUIPMENT_PRODUCT_MAP.filter fun entry =>
    includes normalizedText entry.1 && entry.2.contains productCode).map (·.1)

/-- The reason code the equipment pass records for a phrase. -/
def equipmentReason (equipment : String) : String :=
  "Equipment match: " ++ equipment

/-- The processing of one source with a record kept beside the state: every call adds
the source it is called on at the end of the record, whatever the call does. -/
def recordAttempts {σ : Type} (process : SourceDocument → Stmt σ) :
    SourceDocument → Stmt (σ × List SourceDocument) :=
  fun source w => (((process source w.1).1, w.2 ++ [source]), (process source w.1).2)

/-- A lead document for the examples: company "Acme", status as given, nothing else
recorded. -/
def exampleLead (id : ℕ) (status : String) : LeadDocument :=
  { id := id
    companyName := "Acme"
    companyDetails := none
    facilities := []
    productRecommendations := []
    signals := []
    leadScore := ⟨35, 10, 0, 10, 15⟩
    urgency := "low"
    status := status
    assignedTo := none
    territory := none
    dsro := none
    depot := none
    nextAction := none
    feedback := none
    contactAttempts := []
    metadata := ⟨0, 0, false, none⟩ }

/-- A source document for the examples: an active daily news source with 5 crawls, all
successful. -/
def exampleSource : SourceDocument :=
  { id := 3
    domain := "news.example"
    category := "news"
    crawlFrequency := "daily"
    crawlStatus := "active"
    lastCrawled := some 50
    statistics := ⟨5, 5, 0, 0⟩ }

/-- The rank of an urgency in the order low < medium < high < critical. -/
def urgencyRank (urgency : String) : ℕ :=
  if urgency = "critical" then 3
  else if urgency = "high" then 2
  else if urgency = "medium" then 1
  else 0

/-- One run of `createLeadFromSignal`: its clock readings, the `_id` a new document would
get, and its three arguments. -/
structure Reconciliation where
  clock : CronClock
  newId : ℕ
  data : Candidate
  source : SourceDocument
  type : String
deriving DecidableEq, Repr

/-- Candidates processed one after another with `createLeadFromSignal`. -/
def reconcileAll (toLowerCase : String → String) (runs : List Reconciliation) (db : Database) :
    Database :=
  runs.foldl (fun db run =>
    createLeadFromSignal toLowerCase run.clock run.newId run.data run.source run.type db) db

/-- The part of a title before the first '-', with the white space around it removed:
`title.split('-')[0].trim()`. -/
def titleCompany (title : String) : String :=
  trim (String.mk (title.data.takeWhile (· ≠ '-')))

/-- Two articles found on a page: the first mentions bitumen, the second no product. -/
def exampleArticles : List Article :=
  [⟨"Acme - Bitumen tender", "road works", none, "today", []⟩,
   ⟨"Weather", "rain", none, "today", []⟩]

/-- The article `scrapeNewsSource` pushes for an element it has found. -/
def withKeywords (toLowerCase : String → String) (found : Article) : Article :=
  { found with keywords :=
      extractProductKeywords toLowerCase (found.title ++ " " ++ found.description) }

/-- The recommendation the first pass pushes for a catalog product. -/
def directRecommendation (toLowerCase : String → String) (normalizedText : String)
    (entry : String × String × ProductData) : Recommendation :=
  { product := entry.2.1
    productName := entry.2.2.name
    category := entry.1
    confidence := min 0.9 (0.6 + (matchedKeywords toLowerCase normalizedText entry.2.2).length * 0.1)
    reasonCodes :=
      ["Direct mention: " ++ ", ".intercalate (matchedKeywords toLowerCase normalizedText entry.2.2)]
    keywords := matchedKeywords toLowerCase normalizedText entry.2.2 }

/-- The recommendation the second pass pushes for a product code of the industry. -/
def industryRecommendation (industry productCode : String) (productData : FoundProduct) :
    Recommendation :=
  { product := productCode
    productName := productData.name
    category := productData.category
    confidence := 0.5
    reasonCodes := ["Industry match: " ++ industry]
    keywords := [] }

/-- The entry of a product after the loop body of the third pass has run for it once:
an existing entry is boosted, a missing one is created when the catalog has the code. -/
def equipmentUpdate (equipment productCode : String) :
    Option Recommendation → Option Recommendation
  | some r =>
    some { r with confidence := min 0.95 (r.confidence + 0.15)
                  reasonCodes := r.reasonCodes ++ ["Equipment match: " ++ equipment] }
  | none =>
    (findProduct productCode).map fun productData =>
      { product := productCode
        productName := productData.name
        category := productData.category
        confidence := 0.65
        reasonCodes := ["Equipment match: " ++ equipment]
        keywords := [equipment] }

/-- One step of a run of `inferProducts`: the body of one of its three loops, run once:
for a product of the catalog, for a product code of the industry, or for a product code
of an equipment phrase that occurs in the text. -/
inductive InferenceStep where
  | direct (entry : String × String × ProductData)
  | industry (name productCode : String)
  | equipment (phrase productCode : String)

/-- The `recommendations` array after one step, from the array before it. -/
def applyStep (toLowerCase : String → String) (normalizedText : String)
    (recs : List Recommendation) : InferenceStep → List Recommendation
  | .direct entry =>
    if (matchedKeywords toLowerCase normalizedText entry.2.2).length > 0 then
      recs ++ [directRecommendation toLowerCase normalizedText entry]
    else recs
  | .industry name productCode => industryStep name recs productCode
  | .equipment phrase productCode => equipmentStep phrase recs productCode

/-- The steps of the second pass: none without an industry, and none when the read of the
industry table throws. -/
def industrySteps (toLowerCase : String → String) : Option String → List InferenceStep
  | none => []
  | some name =>
    if name = "" then []
    else
      match industryProductsOf (toLowerCase name) with
      | .error _ => []
      | .ok industryProducts => industryProducts.map (.industry name)

/-- The steps of the third pass: the codes of every phrase that occurs in the text. -/
def equipmentSteps (normalizedText : String) : List InferenceStep :=
  (EQUIPMENT_PRODUCT_MAP.filter fun entry => includes normalizedText entry.1).flatMap
    fun entry => entry.2.map (.equipment entry.1)

/-- The steps of one run of `inferProducts` in the order they are taken; a run that
throws at the read of the industry table stops after the first pass. -/
def inferenceSteps (toLowerCase : String → String) (text : String)
    (industry : Option String) : List InferenceStep :=
  match industryInference toLowerCase industry [] with
  | .error _ => catalogProducts.map .direct
  | .ok _ =>
    catalogProducts.map .direct ++ industrySteps toLowerCase industry
      ++ equipmentSteps (toLowerCase text)

/-- The `recommendations` array after the first `n` steps of a run. -/
def stateAfter (toLowerCase : String → String) (text : String) (industry : Option String)
    (n : ℕ) : List Recommendation :=
  ((inferenceSteps toLowerCase text industry).take n).foldl
    (applyStep toLowerCase (toLowerCase text)) []

/-- Every entry of the array has a confidence from 0.5 to 0.95. -/
def Bounded (recs : List Recommendation) : Prop :=
  ∀ r ∈ recs, 1 / 2 ≤ r.confidence ∧ r.confidence ≤ 19 / 20

/-- The array `after` holds the entries of `before` at their places, each for the same
product and with a confidence that is equal or greater, followed by new entries. -/
def Grows (before after : List Recommendation) : Prop :=
  ∃ kept added, after = kept ++ added ∧
    List.Forall₂ (fun old new => new.product = old.product ∧ old.confidence ≤ new.confidence)
      before kept

/-- Every entry of the array carries a product code of the catalog, with the category
and the name the catalog lists for that code. -/
def Listed (recs : List Recommendation) : Prop :=
  ∀ r ∈ recs, ∃ productData, (r.category, r.product, productData) ∈ catalogProducts ∧
    r.productName = productData.name

/-- The `_id` and the company name of every stored lead, in store order. -/
def leadKeys (db : Database) : List (ℕ × String) :=
  db.leads.map fun lead => (lead.id, lead.companyName)

/-- Two candidates processed one after the other: the first names the stored company
"Acme", the second a company not stored yet. -/
def exampleRuns : List Reconciliation :=
  [⟨⟨100, 101, 102, 103, 104⟩, 7,
      ⟨some "Acme", some "Acme - new boiler", some "furnace oil", none, some ["boiler"], none⟩,
      exampleSource, "news"⟩,
   ⟨⟨200, 201, 202, 203, 204⟩, 8,
      ⟨none, some "Bharat Steel - bitumen order", some "roads", none, some ["bitumen"], none⟩,
      exampleSource, "news"⟩]

/-! ## Properties of product inference -/

theorem products_foldl_eq (toLowerCase : String → String) (normalizedText category : String)
    (products : List (String × ProductData)) (recs : List Recommendation) :
    products.foldl (fun recs (x : String × ProductData) =>
        match x with
        | (productCode, productData) =>
          let found := matchedKeywords toLowerCase normalizedText productData
          if found.length > 0 then
            recs ++ [{ product := productCode
                       productName := productData.name
                       category := category
                       confidence := min 0.9 (0.6 + found.length * 0.1)
                       reasonCodes := ["Direct mention: " ++ ", ".intercalate found]
                       keywords := found }]
          else recs) recs
      = recs ++ ((products.map fun product => (category, product.1, product.2)).filter
          fun entry => decide ((matchedKeywords toLowerCase normalizedText entry.2.2).length > 0)).map
            (directRecommendation toLowerCase normalizedText) := by
  induction products generalizing recs with
  | nil => simp
  | cons product rest ih =>
    obtain ⟨productCode, productData⟩ := product
    rw [List.foldl_cons, ih]
    by_cases h : (matchedKeywords toLowerCase normalizedText productData).length > 0
    · simp [h, directRecommendation, List.filter_cons]
    · simp [h, List.filter_cons]

theorem catalog_foldl_eq (toLowerCase : String → String) (normalizedText : String)
    (catalog : List (String × List (String × ProductData))) (recs : List Recommendation) :
    catalog.foldl (fun recs (y : String × List (String × ProductData)) =>
        match y with
        | (category, products) =>
          products.foldl (fun recs (x : String × ProductData) =>
            match x with
            | (productCode, productData) =>
              let found := matchedKeywords toLowerCase normalizedText productData
              if found.length > 0 then
                recs ++ [{ product := productCode
                           productName := productData.name
                           category := category
                           confidence := min 0.9 (0.6 + found.length * 0.1)
                           reasonCodes := ["Direct mention: " ++ ", ".intercalate found]
                           keywords := found }]
              else recs) recs) recs
      = recs ++ ((catalog.flatMap fun entry =>
            entry.2.map fun product => (entry.1, product.1, product.2)).filter
          fun entry => decide ((matchedKeywords toLowerCase normalizedText entry.2.2).length > 0)).map
            (directRecommendation toLowerCase normalizedText) := by
  induction catalog generalizing recs with
  | nil => simp
  | cons entry rest ih =>
    obtain ⟨category, products⟩ := entry
    rw [List.foldl_cons, ih]
    dsimp only
    rw [products_foldl_eq]
    simp [List.flatMap_cons, List.filter_append, List.map_append, List.append_assoc]

/-- The first pass appends, in catalog order, one recommendation for each catalog
product that has a matching keyword. -/
theorem directMentions_eq (toLowerCase : String → String) (normalizedText : String)
    (recs : List Recommendation) :
    directMentions toLowerCase normalizedText recs
      = recs ++ (catalogProducts.filter fun entry =>
          decide ((matchedKeywords toLowerCase normalizedText entry.2.2).length > 0)).map
            (directRecommendation toLowerCase normalizedText) :=
  catalog_foldl_eq toLowerCase normalizedText HPCL_PRODUCTS recs

/-! ## Properties of lead scoring -/

theorem any_sourceType_iff (signals : List Signal) :
    (signals.any fun s => s.sourceType == "tender") = true ↔
      ∃ s ∈ signals, s.sourceType = "tender" := by
  simp [List.any_eq_true]

theorem any_recent_iff (now : ℤ) (signals : List Signal) :
    (signals.any fun s => decide (daysSince now s.timestamp < 7)) = true ↔
      ∃ s ∈ signals, daysSince now s.timestamp < 7 := by
  simp [List.any_eq_true]

/-- C5: `determineUrgency` is 'critical' when some signal is a tender and some signal
is less than 7 days old, otherwise 'high' for a total above 70, otherwise 'medium' for
a total above 50, otherwise 'low'; the comparisons are strict, and one tender signal
dated within a day of the scoring time gives 'critical' for every total. -/
theorem determineUrgency_cases (now : ℤ) (leadScore : LeadScore) (signals : List Signal) :
    determineUrgency now leadScore signals =
        (if (∃ s ∈ signals, s.sourceType = "tender") ∧
            (∃ s ∈ signals, daysSince now s.timestamp < 7) then "critical"
         else if 70 < leadScore.total then "high"
         else if 50 < leadScore.total then "medium"
         else "low") ∧
      (¬ ((∃ s ∈ signals, s.sourceType = "tender") ∧
            (∃ s ∈ signals, daysSince now s.timestamp < 7)) →
        (leadScore.total = 70 → determineUrgency now leadScore signals = "medium") ∧
        (leadScore.total = 50 → determineUrgency now leadScore signals = "low")) ∧
      (∀ s ∈ signals, s.sourceType = "tender" → |daysSince now s.timestamp| < 1 →
        determineUrgency now leadScore signals = "critical") := by
  have main : determineUrgency now leadScore signals =
        (if (∃ s ∈ signals, s.sourceType = "tender") ∧
            (∃ s ∈ signals, daysSince now s.timestamp < 7) then "critical"
         else if 70 < leadScore.total then "high"
         else if 50 < leadScore.total then "medium"
         else "low") := by
    unfold determineUrgency
    by_cases h1 : ∃ s ∈ signals, s.sourceType = "tender"
    · by_cases h2 : ∃ s ∈ signals, daysSince now s.timestamp < 7
      · have e1 := (any_sourceType_iff signals).2 h1
        have e2 := (any_recent_iff now signals).2 h2
        simp only [e1, e2, h1, h2, Bool.and_self, if_true, and_self]
      · have e2 : (signals.any fun s => decide (daysSince now s.timestamp < 7)) = false := by
          rw [Bool.eq_false_iff]; exact fun h => h2 ((any_recent_iff now signals).1 h)
        simp only [e2, h2, Bool.and_false, and_false, if_false, gt_iff_lt]
        rfl
    · have e1 : (signals.any fun s => s.sourceType == "tender") = false := by
        rw [Bool.eq_false_iff]; exact fun h => h1 ((any_sourceType_iff signals).1 h)
      simp only [e1, h1, Bool.false_and, false_and, if_false, gt_iff_lt]
      rfl
  refine ⟨main, ?_, ?_⟩
  · intro hn
    refine ⟨fun h => ?_, fun h => ?_⟩
    · rw [main, if_neg hn, h]; norm_num
    · rw [main, if_neg hn, h]; norm_num
  · intro s hs ht hd
    rw [main, if_pos]
    exact ⟨⟨s, hs, ht⟩, ⟨s, hs, lt_of_le_of_lt (le_abs_self _) (by linarith)⟩⟩

/-- Witness of C5: a total of exactly 70 with no signal is rated 'medium'. -/
theorem determineUrgency_cases_witness :
    determineUrgency 0 ⟨70, 20, 10, 25, 15⟩ [] = "medium" :=
  ((determineUrgency_cases 0 ⟨70, 20, 10, 25, 15⟩ []).2.1 (by simp)).1 rfl

theorem intentStrength_eq (now : ℤ) (lead : Lead) (signals : List Signal) :
    (calculateLeadScore now lead signals).intentStrength =
      (if ∃ s ∈ signals, s.sourceType = "tender" then 30
       else if 1 < signals.length then 20 else 10) := by
  show (if (signals.any fun s => s.sourceType == "tender") = true then (30 : ℚ)
        else (if signals.length > 1 then 20 else 10)) = _
  by_cases h1 : ∃ s ∈ signals, s.sourceType = "tender"
  · rw [if_pos ((any_sourceType_iff signals).2 h1), if_pos h1]
  · rw [if_neg (fun h => h1 ((any_sourceType_iff signals).1 h)), if_neg h1]

theorem freshness_cons (now : ℤ) (lead : Lead) (first : Signal) (rest : List Signal) :
    (calculateLeadScore now lead (first :: rest)).freshness
      = max 0 (25 - daysSince now (latestSignal first rest).timestamp * 2) := rfl

theorem companySize_eq (now : ℤ) (lead : Lead) (signals : List Signal) :
    (calculateLeadScore now lead signals).companySize =
      (match lead.turnover with
       | some turnoverText =>
         if turnoverText ≠ "" then
           if (parseFloat turnoverText).gt 1000 then 25
           else (if (parseFloat turnoverText).gt 100 then 20 else 15)
         else 10
       | none => 10) := rfl

theorem total_eq (now : ℤ) (lead : Lead) (signals : List Signal) :
    (calculateLeadScore now lead signals).total
      = (calculateLeadScore now lead signals).intentStrength
        + (calculateLeadScore now lead signals).freshness
        + (calculateLeadScore now lead signals).companySize
        + (calculateLeadScore now lead signals).proximity := by
  simp only [calculateLeadScore, List.foldl_cons, List.foldl_nil, zero_add]

/-- C6: `intentStrength` is 30 when some signal is a tender, otherwise 20 when there
is more than one signal, otherwise 10; no signal gives 10 and a single tender signal
gives 30. -/
theorem calculateLeadScore_intentStrength (now : ℤ) (lead : Lead) (signals : List Signal) :
    (calculateLeadScore now lead signals).intentStrength =
        (if ∃ s ∈ signals, s.sourceType = "tender" then 30
         else if 1 < signals.length then 20 else 10) ∧
      (calculateLeadScore now lead []).intentStrength = 10 ∧
      (∀ s : Signal,
        (calculateLeadScore now lead [{ s with sourceType := "tender" }]).intentStrength = 30) := by
  refine ⟨intentStrength_eq now lead signals, ?_, ?_⟩
  · simp [calculateLeadScore]
  · intro s
    simp [calculateLeadScore]

theorem latestSignal_mem (first : Signal) (rest : List Signal) :
    latestSignal first rest ∈ first :: rest := by
  unfold latestSignal
  induction rest generalizing first with
  | nil => simp
  | cons s rest ih =>
    rw [List.foldl_cons]
    split
    · have := ih s
      simp only [List.mem_cons] at this ⊢
      tauto
    · have := ih first
      simp only [List.mem_cons] at this ⊢
      tauto

theorem latestSignal_ge (first : Signal) (rest : List Signal) :
    ∀ t ∈ first :: rest, t.timestamp ≤ (latestSignal first rest).timestamp := by
  unfold latestSignal
  induction rest generalizing first with
  | nil => simp
  | cons s rest ih =>
    intro t ht
    rw [List.foldl_cons]
    split
    · next h =>
      have h1 := ih s
      simp only [List.mem_cons, forall_eq_or_imp] at h1 ht
      rcases ht with rfl | rfl | ht
      · exact le_trans (le_of_lt h) h1.1
      · exact h1.1
      · exact h1.2 t ht
    · next h =>
      have h1 := ih first
      simp only [List.mem_cons, forall_eq_or_imp] at h1 ht
      rcases ht with rfl | rfl | ht
      · exact h1.1
      · exact le_trans (not_lt.1 h) h1.1
      · exact h1.2 t ht

/-- C7: `freshness` is 0 for an empty signal list, and otherwise `max(0, 25 - 2*d)` for
the age `d` in days of any signal whose timestamp is the greatest of the list, at
whatever position of the list that signal stands. -/
theorem calculateLeadScore_freshness (now : ℤ) (lead : Lead) (signals : List Signal) :
    (calculateLeadScore now lead []).freshness = 0 ∧
      (∀ s ∈ signals, (∀ t ∈ signals, t.timestamp ≤ s.timestamp) →
        (calculateLeadScore now lead signals).freshness
          = max 0 (25 - 2 * daysSince now s.timestamp)) := by
  refine ⟨rfl, ?_⟩
  intro s hs hmax
  cases signals with
  | nil => simp at hs
  | cons first rest =>
    have e : (latestSignal first rest).timestamp = s.timestamp :=
      le_antisymm (hmax _ (latestSignal_mem first rest)) (latestSignal_ge first rest s hs)
    rw [freshness_cons, e, mul_comm]

/-- Witness of C7: the most recent of three signals stands in the middle of the list. -/
theorem calculateLeadScore_freshness_witness :
    (calculateLeadScore 86400030 {}
        [⟨"a", "", "news", "", 10, []⟩, ⟨"b", "", "news", "", 30, []⟩,
         ⟨"c", "", "news", "", 20, []⟩]).freshness
      = max 0 (25 - 2 * daysSince 86400030 30) :=
  (calculateLeadScore_freshness 86400030 {}
      [⟨"a", "", "news", "", 10, []⟩, ⟨"b", "", "news", "", 30, []⟩,
       ⟨"c", "", "news", "", 20, []⟩]).2
    ⟨"b", "", "news", "", 30, []⟩ (by simp) (by simp)

theorem parseFloat_empty : parseFloat "" = .NaN := by decide

/-- C8, counterexample: the turnover text "N/A" cannot be parsed as a number, and the
company size is 15, not 10. -/
theorem calculateLeadScore_companySize_unparsable :
    parseFloat "N/A" = .NaN ∧
      (calculateLeadScore 0 { companyDetails := some { turnover := some "N/A" } } []).companySize
        = 15 ∧
      (calculateLeadScore 0 { companyDetails := some { turnover := some "N/A" } } []).companySize
        ≠ 10 := by
  refine ⟨by decide, by decide!, by decide!⟩

/-- The value of `parseFloat` is the double nearest to the decimal read: a turnover
written as "1000.0000000000000001" is the number 1000, which is not greater than 1000, and
gives a company size of 20; "100.00000000000000001" is the number 100 and gives 15; the
next double above 1000 is reached by "1000.0000000000001", which gives 25. -/
theorem parseFloat_nearest_double :
    parseFloat "1000.0000000000000001" = .finite 1000 ∧
    (calculateLeadScore 0
      { companyDetails := some { turnover := some "1000.0000000000000001" } } []).companySize
        = 20 ∧
    parseFloat "100.00000000000000001" = .finite 100 ∧
    (calculateLeadScore 0
      { companyDetails := some { turnover := some "100.00000000000000001" } } []).companySize
        = 15 ∧
    parseFloat "1000.0000000000001" = .finite (1000 + 1 / 2 ^ 43) ∧
    (calculateLeadScore 0
      { companyDetails := some { turnover := some "1000.0000000000001" } } []).companySize
        = 25 ∧
    parseFloat "1e400" = .infinity false := by
  refine ⟨by decide!, by decide!, by decide!, by decide!, by decide!, by decide!, by decide!⟩

/-- C8, amended: `companySize` is 25 when the turnover parses to a number greater than
1000, 20 when it parses to a number greater than 100 and at most 1000, 15 when it parses
to any other number or is a non-empty text that does not parse as a number, and 10 when
the turnover is absent or the empty text. -/
theorem calculateLeadScore_companySize (now : ℤ) (lead : Lead) (signals : List Signal) :
    (∀ t q, lead.turnover = some t → parseFloat t = .finite q →
        (1000 < q → (calculateLeadScore now lead signals).companySize = 25) ∧
        (100 < q → q ≤ 1000 → (calculateLeadScore now lead signals).companySize = 20) ∧
        (q ≤ 100 → (calculateLeadScore now lead signals).companySize = 15)) ∧
      (∀ t, lead.turnover = some t → parseFloat t = .infinity false →
        (calculateLeadScore now lead signals).companySize = 25) ∧
      (∀ t, lead.turnover = some t → parseFloat t = .infinity true →
        (calculateLeadScore now lead signals).companySize = 15) ∧
      (∀ t, lead.turnover = some t → t ≠ "" → parseFloat t = .NaN →
        (calculateLeadScore now lead signals).companySize = 15) ∧
      (lead.turnover = none ∨ lead.turnover = some "" →
        (calculateLeadScore now lead signals).companySize = 10) := by
  have size_eq := companySize_eq now lead signals
  have nonempty : ∀ t, parseFloat t ≠ .NaN → t ≠ "" := by
    intro t h e
    exact h (e ▸ parseFloat_empty)
  refine ⟨?_, ?_, ?_, ?_, ?_⟩
  · intro t q ht hq
    have hne : t ≠ "" := nonempty t (by rw [hq]; simp)
    rw [size_eq, ht]
    simp only [hne, ne_eq, not_false_eq_true, if_true, hq, ParsedNumber.gt, decide_eq_true_eq]
    refine ⟨fun h => ?_, fun h1 h2 => ?_, fun h => ?_⟩
    · rw [if_pos h]
    · rw [if_neg (not_lt.2 h2), if_pos h1]
    · rw [if_neg (not_lt.2 (le_trans h (by norm_num))), if_neg (not_lt.2 h)]
  · intro t ht hq
    have hne : t ≠ "" := nonempty t (by rw [hq]; simp)
    rw [size_eq, ht]
    simp [hne, hq, ParsedNumber.gt]
  · intro t ht hq
    have hne : t ≠ "" := nonempty t (by rw [hq]; simp)
    rw [size_eq, ht]
    simp [hne, hq, ParsedNumber.gt]
  · intro t ht hne hq
    rw [size_eq, ht]
    simp [hne, hq, ParsedNumber.gt]
  · rintro (h | h)
    · rw [size_eq, h]
    · rw [size_eq, h]
      simp

/-- Witness of C8: a turnover of "1500" parses to 1500 and gives a company size of 25. -/
theorem calculateLeadScore_companySize_witness :
    (calculateLeadScore 0 { companyDetails := some { turnover := some "1500" } } []).companySize
      = 25 :=
  ((calculateLeadScore_companySize 0 { companyDetails := some { turnover := some "1500" } } []).1
    "1500" 1500 rfl (by decide!)).1 (by norm_num)

/-- C9: the proximity of every score is 15 and its total is the sum of the four
sub-scores. -/
theorem calculateLeadScore_total (now : ℤ) (lead : Lead) (signals : List Signal) :
    (calculateLeadScore now lead signals).proximity = 15 ∧
      (calculateLeadScore now lead signals).total
        = (calculateLeadScore now lead signals).intentStrength
          + (calculateLeadScore now lead signals).freshness
          + (calculateLeadScore now lead signals).companySize
          + (calculateLeadScore now lead signals).proximity := by
  exact ⟨rfl, total_eq now lead signals⟩

/-- C10, the code at a failing input: one signal dated 30 days after the scoring time,
on a lead without company details, gets a freshness of 85 and a total of 120. -/
theorem calculateLeadScore_future_signal :
    (calculateLeadScore 0 {} [⟨"manual", "", "news", "", 2592000000, []⟩]).freshness = 85 ∧
      (calculateLeadScore 0 {} [⟨"manual", "", "news", "", 2592000000, []⟩]).total = 120 := by
  refine ⟨by decide!, by decide!⟩

/-- On every input the intent strength, the company size and the proximity are in the
ranges of the scoring comments, and the freshness is not negative. -/
theorem calculateLeadScore_ranges_any (now : ℤ) (lead : Lead) (signals : List Signal) :
    (10 ≤ (calculateLeadScore now lead signals).intentStrength ∧
        (calculateLeadScore now lead signals).intentStrength ≤ 30) ∧
      0 ≤ (calculateLeadScore now lead signals).freshness ∧
      (10 ≤ (calculateLeadScore now lead signals).companySize ∧
        (calculateLeadScore now lead signals).companySize ≤ 25) ∧
      (calculateLeadScore now lead signals).proximity = 15 := by
  refine ⟨?_, ?_, ?_, rfl⟩
  · rw [intentStrength_eq now lead signals]
    split_ifs <;> norm_num
  · cases signals with
    | nil => exact le_of_eq rfl
    | cons first rest =>
      rw [freshness_cons]
      exact le_max_left _ _
  · rw [companySize_eq now lead signals]
    split
    · split_ifs <;> norm_num
    · norm_num

/-- The ranges of the scoring comments hold when no signal is dated after the scoring
time: then the freshness is at most 25, and the total lies between 35 and 95. -/
theorem calculateLeadScore_ranges_of_past (now : ℤ) (lead : Lead) (signals : List Signal)
    (hpast : ∀ s ∈ signals, s.timestamp ≤ now) :
    (calculateLeadScore now lead signals).freshness ≤ 25 ∧
      35 ≤ (calculateLeadScore now lead signals).total ∧
      (calculateLeadScore now lead signals).total ≤ 95 := by
  obtain ⟨hi, hf0, hc, hp⟩ := calculateLeadScore_ranges_any now lead signals
  have hf : (calculateLeadScore now lead signals).freshness ≤ 25 := by
    cases signals with
    | nil =>
      have e : (calculateLeadScore now lead []).freshness = 0 := rfl
      rw [e]
      norm_num
    | cons first rest =>
      rw [freshness_cons]
      have hle := hpast _ (latestSignal_mem first rest)
      have hd : 0 ≤ daysSince now (latestSignal first rest).timestamp := by
        unfold daysSince
        apply div_nonneg
        · exact_mod_cast sub_nonneg.2 hle
        · norm_num
      exact max_le (by norm_num) (by linarith)
  refine ⟨hf, ?_⟩
  rw [total_eq now lead signals, hp]
  constructor <;> linarith [hi.1, hi.2, hc.1, hc.2]

/-! ### The second pass -/

theorem findRecommendation_eq_none (recs : List Recommendation) (productCode : String) :
    findRecommendation recs productCode = none ↔ ∀ r ∈ recs, r.product ≠ productCode := by
  simp [findRecommendation, List.find?_eq_none]

theorem findRecommendation_some (recs : List Recommendation) (productCode : String)
    (r : Recommendation) (h : findRecommendation recs productCode = some r) :
    r ∈ recs ∧ r.product = productCode := by
  unfold findRecommendation at h
  exact ⟨List.mem_of_find?_eq_some h, by simpa using List.find?_some h⟩

theorem findRecommendation_append (recs more : List Recommendation) (productCode : String) :
    findRecommendation (recs ++ more) productCode
      = (findRecommendation recs productCode).or (findRecommendation more productCode) := by
  simp [findRecommendation, List.find?_append]

theorem findRecommendation_push_other (recs : List Recommendation) (r : Recommendation)
    (productCode : String) (h : r.product ≠ productCode) :
    findRecommendation (recs ++ [r]) productCode = findRecommendation recs productCode := by
  rw [findRecommendation_append]
  have : findRecommendation [r] productCode = none := by
    simp [findRecommendation, h]
  rw [this]
  cases findRecommendation recs productCode <;> rfl

theorem findRecommendation_push_same (recs : List Recommendation) (r : Recommendation)
    (h : findRecommendation recs r.product = none) :
    findRecommendation (recs ++ [r]) r.product = some r := by
  rw [findRecommendation_append, h]
  simp [findRecommendation]

theorem industry_foldl_eq (industry : String) (codes : List String)
    (recs : List Recommendation) (hnd : codes.Nodup) :
    codes.foldl (industryStep industry) recs
      = recs ++ (codes.filter fun c => (findRecommendation recs c).isNone).filterMap
          fun c => (findProduct c).map (industryRecommendation industry c) := by
  induction codes generalizing recs with
  | nil => simp
  | cons c rest ih =>
    have hc : c ∉ rest := (List.nodup_cons.1 hnd).1
    rw [List.foldl_cons, ih _ (List.nodup_cons.1 hnd).2]
    cases hfind : findRecommendation recs c with
    | some r => simp [industryStep, hfind, List.filter_cons]
    | none =>
      cases hprod : findProduct c with
      | none => simp [industryStep, hfind, hprod, List.filter_cons]
      | some productData =>
        have hstep : industryStep industry recs c
            = recs ++ [industryRecommendation industry c productData] := by
          simp [industryStep, hfind, hprod, industryRecommendation]
        have hfilter : (rest.filter fun c' =>
              (findRecommendation (recs ++ [industryRecommendation industry c productData]) c').isNone)
            = rest.filter fun c' => (findRecommendation recs c').isNone := by
          apply List.filter_congr
          intro c' hc'
          rw [findRecommendation_push_other]
          intro e
          exact hc (by rw [show c = c' from e]; exact hc')
        rw [hstep, hfilter]
        simp [hfind, hprod, List.filter_cons]

theorem catalog_codes_nodup : (catalogProducts.map fun entry => entry.2.1).Nodup := by decide

theorem industry_codes_nodup : ∀ entry ∈ INDUSTRY_PRODUCT_MAP, entry.2.Nodup := by decide

theorem industry_codes_found :
    ∀ entry ∈ INDUSTRY_PRODUCT_MAP, ∀ c ∈ entry.2, (findProduct c).isSome = true := by decide

theorem lookup_mem {α : Type} (table : List (String × α)) (key : String) (value : α)
    (h : table.lookup key = some value) : (key, value) ∈ table := by
  induction table with
  | nil => simp at h
  | cons entry rest ih =>
    obtain ⟨k, v⟩ := entry
    rw [List.lookup_cons] at h
    by_cases hk : key == k
    · simp only [hk] at h
      have e1 : key = k := by simpa using hk
      have e2 : v = value := by simpa using h
      simp [e1, e2]
    · simp only [hk] at h
      exact List.mem_cons_of_mem _ (ih h)

theorem findRecommendation_direct_isNone (toLowerCase : String → String)
    (normalizedText productCode : String) :
    (findRecommendation (directMentions toLowerCase normalizedText []) productCode).isNone
      = !mentioned toLowerCase normalizedText productCode := by
  rw [Bool.eq_iff_iff, Option.isNone_iff_eq_none, findRecommendation_eq_none, directMentions_eq]
  simp only [List.nil_append, List.mem_map, List.mem_filter, decide_eq_true_eq, mentioned,
    Bool.not_eq_true', List.any_eq_false, Bool.and_eq_true, beq_iff_eq, not_and]
  constructor
  · intro h entry hentry hcode hlen
    exact h (directRecommendation toLowerCase normalizedText entry) ⟨entry, ⟨hentry, hlen⟩, rfl⟩ hcode
  · rintro h r ⟨entry, ⟨hentry, hlen⟩, rfl⟩ hcode
    exact h entry hentry hcode hlen

/-- C4: for a supplied industry whose lower-cased name is a key of the industry table,
the second pass keeps the direct matches as they are and appends after them, in table
order and once each, the mapped product codes that have no keyword occurring in the text,
each with confidence 0.5, no keywords and the one reason code "Industry match: " followed
by the industry as supplied; no code of a direct match is among the appended ones. -/
theorem industryInference_adds (toLowerCase : String → String) (text name : String)
    (codes : List String) (hname : name ≠ "")
    (hkey : INDUSTRY_PRODUCT_MAP.lookup (toLowerCase name) = some codes) :
    ∃ added : List Recommendation,
      industryInference toLowerCase (some name)
          (directMentions toLowerCase (toLowerCase text) [])
        = .ok (directMentions toLowerCase (toLowerCase text) [] ++ added) ∧
      added.map (·.product)
        = codes.filter (fun c => !mentioned toLowerCase (toLowerCase text) c) ∧
      (added.map (·.product)).Nodup ∧
      (∀ r ∈ added, r.confidence = 0.5 ∧ r.keywords = [] ∧
        r.reasonCodes = ["Industry match: " ++ name]) ∧
      (∀ r ∈ directMentions toLowerCase (toLowerCase text) [],
        r.product ∉ added.map (·.product)) := by
  have hmem := lookup_mem _ _ _ hkey
  have hnd : codes.Nodup := industry_codes_nodup _ hmem
  have hfound : ∀ c ∈ codes, (findProduct c).isSome = true := industry_codes_found _ hmem
  have hproducts : ∀ l : List String, (∀ c ∈ l, (findProduct c).isSome = true) →
      (l.filterMap fun c => (findProduct c).map (industryRecommendation name c)).map (·.product)
        = l := by
    intro l
    induction l with
    | nil => simp
    | cons c rest ih =>
      intro hl
      obtain ⟨productData, hp⟩ := Option.isSome_iff_exists.1 (hl c (List.mem_cons_self _ _))
      rw [List.filterMap_cons, hp]
      simp only [Option.map_some', List.map_cons]
      rw [ih (fun c' hc' => hl c' (List.mem_cons_of_mem _ hc'))]
      rfl
  refine ⟨(codes.filter fun c => !mentioned toLowerCase (toLowerCase text) c).filterMap
      fun c => (findProduct c).map (industryRecommendation name c), ?_, ?_, ?_, ?_, ?_⟩
  · simp only [industryInference, hname, if_false, industryProductsOf, hkey]
    rw [industry_foldl_eq _ _ _ hnd]
    simp only [findRecommendation_direct_isNone]
  · exact hproducts _ fun c hc => hfound c (List.mem_of_mem_filter hc)
  · rw [hproducts _ fun c hc => hfound c (List.mem_of_mem_filter hc)]
    exact hnd.filter _
  · intro r hr
    obtain ⟨c, -, hc⟩ := List.mem_filterMap.1 hr
    obtain ⟨productData, -, rfl⟩ := Option.map_eq_some'.1 hc
    exact ⟨rfl, rfl, rfl⟩
  · intro r hr
    rw [hproducts _ fun c hc => hfound c (List.mem_of_mem_filter hc)]
    intro hin
    have hnot := (List.mem_filter.1 hin).2
    have hnone : (findRecommendation (directMentions toLowerCase (toLowerCase text) [])
        r.product).isNone = true := by
      rw [findRecommendation_direct_isNone]; exact hnot
    exact (findRecommendation_eq_none _ _).1 (Option.isNone_iff_eq_none.1 hnone) r hr rfl

/-- Witness of C4: the industry "Power" on a text that mentions diesel adds FO, LSHS and
LDO after the direct match HSD. -/
theorem industryInference_adds_witness :
    ∃ added : List Recommendation,
      industryInference asciiLowerCase (some "Power")
          (directMentions asciiLowerCase (asciiLowerCase "Diesel supply") [])
        = .ok (directMentions asciiLowerCase (asciiLowerCase "Diesel supply") [] ++ added) ∧
      added.map (·.product)
        = ["FO", "LSHS", "HSD", "LDO"].filter
            (fun c => !mentioned asciiLowerCase (asciiLowerCase "Diesel supply") c) ∧
      (added.map (·.product)).Nodup ∧
      (∀ r ∈ added, r.confidence = 0.5 ∧ r.keywords = [] ∧
        r.reasonCodes = ["Industry match: " ++ "Power"]) ∧
      (∀ r ∈ directMentions asciiLowerCase (asciiLowerCase "Diesel supply") [],
        r.product ∉ added.map (·.product)) :=
  industryInference_adds asciiLowerCase "Diesel supply" "Power" ["FO", "LSHS", "HSD", "LDO"]
    (by decide) (by decide)

theorem equipment_foldl_none (normalizedText : String) (table : List (String × List String))
    (recs : List Recommendation)
    (h : ∀ entry ∈ table, includes normalizedText entry.1 = false) :
    table.foldl (fun recs (x : String × List String) =>
        match x with
        | (equipment, products) =>
          if includes normalizedText equipment then products.foldl (equipmentStep equipment) recs
          else recs) recs = recs := by
  induction table generalizing recs with
  | nil => rfl
  | cons entry rest ih =>
    obtain ⟨equipment, products⟩ := entry
    rw [List.foldl_cons]
    have h1 : includes normalizedText equipment = false := h (equipment, products) (List.mem_cons_self _ _)
    simp only [h1]
    exact ih recs fun e he => h e (List.mem_cons_of_mem _ he)

/-- C2: on a text whose lower-cased form contains no equipment phrase, and with no
industry, the recommendations before truncation are exactly the catalog products with at
least one keyword occurring in the lower-cased text, in catalog order; with `m` such
keywords the confidence is `min(0.9, 0.6 + 0.1*m)`, the keywords are the matched ones in
catalog keyword order, and the one reason code is "Direct mention: " followed by them,
joined with ", ". -/
theorem gatherRecommendations_direct (toLowerCase : String → String) (text : String)
    (hkw : ∀ entry ∈ catalogProducts, ∀ kw ∈ entry.2.2.keywords, toLowerCase kw = kw)
    (hequip : ∀ entry ∈ EQUIPMENT_PRODUCT_MAP, includes (toLowerCase text) entry.1 = false) :
    gatherRecommendations toLowerCase text none
      = .ok ((catalogProducts.filter fun entry =>
            decide (1 ≤ (entry.2.2.keywords.filter fun kw =>
              includes (toLowerCase text) kw).length)).map fun entry =>
          { product := entry.2.1
            productName := entry.2.2.name
            category := entry.1
            confidence := min 0.9 (0.6 + 0.1 * (entry.2.2.keywords.filter fun kw =>
              includes (toLowerCase text) kw).length)
            reasonCodes := ["Direct mention: " ++ ", ".intercalate
              (entry.2.2.keywords.filter fun kw => includes (toLowerCase text) kw)]
            keywords := entry.2.2.keywords.filter fun kw => includes (toLowerCase text) kw }) := by
  have hmatched : ∀ entry ∈ catalogProducts,
      matchedKeywords toLowerCase (toLowerCase text) entry.2.2
        = entry.2.2.keywords.filter fun kw => includes (toLowerCase text) kw := by
    intro entry hentry
    unfold matchedKeywords
    apply List.filter_congr
    intro kw hk
    rw [hkw entry hentry kw hk]
  have hpass : equipmentInference (toLowerCase text)
      (directMentions toLowerCase (toLowerCase text) [])
        = directMentions toLowerCase (toLowerCase text) [] :=
    equipment_foldl_none _ EQUIPMENT_PRODUCT_MAP _ hequip
  simp only [gatherRecommendations, industryInference, hpass]
  rw [directMentions_eq, List.nil_append]
  congr 1
  have hfilter : (catalogProducts.filter fun entry =>
        decide ((matchedKeywords toLowerCase (toLowerCase text) entry.2.2).length > 0))
      = catalogProducts.filter fun entry =>
        decide (1 ≤ (entry.2.2.keywords.filter fun kw =>
          includes (toLowerCase text) kw).length) := by
    apply List.filter_congr
    intro entry hentry
    rw [hmatched entry hentry]
    rfl
  rw [hfilter]
  apply List.map_congr_left
  intro entry hentry
  have hentry' := (List.mem_filter.1 hentry).1
  simp only [directRecommendation, hmatched entry hentry', mul_comm]

/-- Witness of C2: a text that mentions petrol and bitumen and no equipment. -/
theorem gatherRecommendations_direct_witness :
    gatherRecommendations asciiLowerCase "Petrol and BITUMEN" none
      = .ok ((catalogProducts.filter fun entry =>
            decide (1 ≤ (entry.2.2.keywords.filter fun kw =>
              includes (asciiLowerCase "Petrol and BITUMEN") kw).length)).map fun entry =>
          { product := entry.2.1
            productName := entry.2.2.name
            category := entry.1
            confidence := min 0.9 (0.6 + 0.1 * (entry.2.2.keywords.filter fun kw =>
              includes (asciiLowerCase "Petrol and BITUMEN") kw).length)
            reasonCodes := ["Direct mention: " ++ ", ".intercalate
              (entry.2.2.keywords.filter fun kw => includes (asciiLowerCase "Petrol and BITUMEN") kw)]
            keywords := entry.2.2.keywords.filter fun kw =>
              includes (asciiLowerCase "Petrol and BITUMEN") kw }) :=
  gatherRecommendations_direct asciiLowerCase "Petrol and BITUMEN" (by decide) (by decide)

/-! ### The third pass -/

theorem boost_products (equipment productCode : String) (recs : List Recommendation) :
    (boost equipment productCode recs).map (·.product) = recs.map (·.product) := by
  induction recs with
  | nil => rfl
  | cons r rest ih =>
    unfold boost
    split
    · rfl
    · simp only [List.map_cons, ih]

theorem findRecommendation_boost_same (equipment productCode : String)
    (recs : List Recommendation) :
    findRecommendation (boost equipment productCode recs) productCode
      = (findRecommendation recs productCode).map fun r =>
          { r with confidence := min 0.95 (r.confidence + 0.15)
                   reasonCodes := r.reasonCodes ++ ["Equipment match: " ++ equipment] } := by
  induction recs with
  | nil => rfl
  | cons r rest ih =>
    unfold boost
    by_cases h : (r.product == productCode) = true
    · simp [findRecommendation, h, List.find?_cons]
    · rw [if_neg h]
      have h2 : (r.product == productCode) = false := by simpa using h
      simp only [findRecommendation, List.find?_cons, h2] at ih ⊢
      exact ih

theorem findRecommendation_boost_other (equipment productCode other : String)
    (recs : List Recommendation) (hne : productCode ≠ other) :
    findRecommendation (boost equipment productCode recs) other
      = findRecommendation recs other := by
  induction recs with
  | nil => rfl
  | cons r rest ih =>
    unfold boost
    by_cases h : (r.product == productCode) = true
    · have e : r.product = productCode := by simpa using h
      have h2 : (r.product == other) = false := by
        rw [beq_eq_false_iff_ne, e]; exact hne
      simp [findRecommendation, h, List.find?_cons, h2]
    · rw [if_neg h]
      simp only [findRecommendation, List.find?_cons] at ih ⊢
      rw [ih]

/-- One run of the loop body of the third pass changes the entry of its own product
code as `equipmentUpdate` says and no other entry. -/
theorem findRecommendation_equipmentStep (equipment productCode other : String)
    (recs : List Recommendation) :
    findRecommendation (equipmentStep equipment recs productCode) other
      = if productCode = other then
          equipmentUpdate equipment other (findRecommendation recs other)
        else findRecommendation recs other := by
  unfold equipmentStep
  by_cases hne : productCode = other
  · subst hne
    rw [if_pos rfl]
    cases hfind : findRecommendation recs productCode with
    | some r =>
      simp only [equipmentUpdate]
      rw [findRecommendation_boost_same, hfind]
      rfl
    | none =>
      simp only [equipmentUpdate]
      cases hprod : findProduct productCode with
      | none => simp [hfind]
      | some productData =>
        simp only [Option.map_some']
        exact findRecommendation_push_same recs _ hfind
  · rw [if_neg hne]
    cases hfind : findRecommendation recs productCode with
    | some r => exact findRecommendation_boost_other _ _ _ _ hne
    | none =>
      cases hprod : findProduct productCode with
      | none => rfl
      | some productData => exact findRecommendation_push_other recs _ other hne

theorem findRecommendation_phrase (equipment other : String) (products : List String)
    (recs : List Recommendation) (hnd : products.Nodup) :
    findRecommendation (products.foldl (equipmentStep equipment) recs) other
      = if other ∈ products then
          equipmentUpdate equipment other (findRecommendation recs other)
        else findRecommendation recs other := by
  induction products generalizing recs with
  | nil => simp
  | cons c rest ih =>
    have hc : c ∉ rest := (List.nodup_cons.1 hnd).1
    rw [List.foldl_cons, ih _ (List.nodup_cons.1 hnd).2, findRecommendation_equipmentStep]
    by_cases h1 : c = other
    · subst h1
      simp [hc]
    · have h2 : ¬ other = c := fun e => h1 e.symm
      simp [h1, h2]

theorem findRecommendation_table (normalizedText other : String)
    (table : List (String × List String)) (recs : List Recommendation)
    (hnd : ∀ entry ∈ table, entry.2.Nodup) :
    findRecommendation (table.foldl (fun recs (x : String × List String) =>
        match x with
        | (equipment, products) =>
          if includes normalizedText equipment then products.foldl (equipmentStep equipment) recs
          else recs) recs) other
      = ((table.filter fun entry =>
            includes normalizedText entry.1 && entry.2.contains other).map (·.1)).foldl
          (fun entry equipment => equipmentUpdate equipment other entry)
          (findRecommendation recs other) := by
  induction table generalizing recs with
  | nil => rfl
  | cons entry rest ih =>
    obtain ⟨equipment, products⟩ := entry
    have hp : products.Nodup := hnd (equipment, products) (List.mem_cons_self _ _)
    rw [List.foldl_cons, ih _ fun e he => hnd e (List.mem_cons_of_mem _ he)]
    dsimp only
    by_cases h1 : includes normalizedText equipment = true
    · rw [if_pos h1, findRecommendation_phrase _ _ _ _ hp]
      by_cases h2 : other ∈ products
      · simp [List.filter_cons, h1, h2]
      · simp [List.filter_cons, h1, h2]
    · rw [if_neg h1]
      simp [List.filter_cons, h1]

theorem equipment_codes_nodup : ∀ entry ∈ EQUIPMENT_PRODUCT_MAP, entry.2.Nodup := by decide

theorem equipment_codes_found :
    ∀ entry ∈ EQUIPMENT_PRODUCT_MAP, ∀ c ∈ entry.2, (findProduct c).isSome = true := by decide

/-- The entry of a product after the third pass: `equipmentUpdate` applied once for each
phrase that occurs in the text and maps the product, in table order. -/
theorem findRecommendation_equipmentInference (normalizedText other : String)
    (recs : List Recommendation) :
    findRecommendation (equipmentInference normalizedText recs) other
      = (equipmentHits normalizedText other).foldl
          (fun entry equipment => equipmentUpdate equipment other entry)
          (findRecommendation recs other) :=
  findRecommendation_table normalizedText other EQUIPMENT_PRODUCT_MAP recs equipment_codes_nodup

theorem boost_closed_form (c : ℚ) (n : ℕ) :
    min 0.95 (min 0.95 (c + 0.15 * ((n + 1 : ℕ) : ℚ)) + 0.15)
      = min 0.95 (c + 0.15 * ((n + 1 + 1 : ℕ) : ℚ)) := by
  push_cast
  rcases le_total (0.95 : ℚ) (c + 0.15 * ((n : ℚ) + 1)) with h | h
  · rw [min_eq_left h, min_eq_left (by norm_num), min_eq_left (by linarith)]
  · rw [min_eq_right h]
    congr 1
    ring

theorem equipmentUpdate_foldl_some (other first : String) (hits : List String)
    (r : Recommendation) :
    (first :: hits).foldl (fun entry equipment => equipmentUpdate equipment other entry) (some r)
      = some { r with
          confidence := min 0.95 (r.confidence + 0.15 * ((first :: hits).length : ℚ))
          reasonCodes := r.reasonCodes ++ (first :: hits).map fun equipment =>
            "Equipment match: " ++ equipment } := by
  induction hits using List.reverseRecOn with
  | nil => simp [equipmentUpdate]
  | append_singleton hits last ih =>
    rw [← List.cons_append, List.foldl_append, ih]
    simp only [List.foldl_cons, List.foldl_nil, equipmentUpdate, List.length_append,
      List.length_cons, List.length_nil, List.map_append, List.map_cons, List.map_nil,
      List.append_assoc, zero_add]
    rw [boost_closed_form]

/-! ### One entry for each product -/

theorem findRecommendation_of_nodup (recs : List Recommendation)
    (hnd : (recs.map (·.product)).Nodup) (r : Recommendation) (hr : r ∈ recs) :
    findRecommendation recs r.product = some r := by
  induction recs with
  | nil => simp at hr
  | cons first rest ih =>
    rw [List.map_cons, List.nodup_cons] at hnd
    rcases List.mem_cons.1 hr with rfl | hrest
    · simp [findRecommendation, List.find?_cons]
    · have hne : (first.product == r.product) = false := by
        rw [beq_eq_false_iff_ne]
        intro e
        exact hnd.1 (e ▸ List.mem_map_of_mem (·.product) hrest)
      have := ih hnd.2 hrest
      simpa [findRecommendation, List.find?_cons, hne] using this

theorem directMentions_nodup (toLowerCase : String → String) (normalizedText : String) :
    ((directMentions toLowerCase normalizedText []).map (·.product)).Nodup := by
  rw [directMentions_eq, List.nil_append, List.map_map]
  have hsub : ((catalogProducts.filter fun entry =>
        decide ((matchedKeywords toLowerCase normalizedText entry.2.2).length > 0)).map
          ((·.product) ∘ directRecommendation toLowerCase normalizedText)).Sublist
      (catalogProducts.map fun entry => entry.2.1) :=
    (List.filter_sublist _).map _
  exact hsub.nodup catalog_codes_nodup

theorem push_nodup (recs : List Recommendation) (r : Recommendation)
    (hnd : (recs.map (·.product)).Nodup) (hfind : findRecommendation recs r.product = none) :
    ((recs ++ [r]).map (·.product)).Nodup := by
  rw [List.map_append, List.map_cons, List.map_nil]
  refine List.Nodup.append hnd (List.nodup_singleton _) ?_
  intro c hc hc'
  obtain ⟨r', hr', rfl⟩ := List.mem_map.1 hc
  have e : r'.product = r.product := by simpa using hc'
  exact (findRecommendation_eq_none _ _).1 hfind r' hr' e

theorem industryStep_nodup (industry productCode : String) (recs : List Recommendation)
    (hnd : (recs.map (·.product)).Nodup) :
    ((industryStep industry recs productCode).map (·.product)).Nodup := by
  unfold industryStep
  cases hfind : findRecommendation recs productCode with
  | some r => exact hnd
  | none =>
    cases hprod : findProduct productCode with
    | none => exact hnd
    | some productData => exact push_nodup recs _ hnd hfind

theorem equipmentStep_nodup (equipment productCode : String) (recs : List Recommendation)
    (hnd : (recs.map (·.product)).Nodup) :
    ((equipmentStep equipment recs productCode).map (·.product)).Nodup := by
  unfold equipmentStep
  cases hfind : findRecommendation recs productCode with
  | some r => simpa only [boost_products] using hnd
  | none =>
    cases hprod : findProduct productCode with
    | none => exact hnd
    | some productData => exact push_nodup recs _ hnd hfind

theorem foldl_nodup (step : List Recommendation → String → List Recommendation)
    (hstep : ∀ recs c, (recs.map (·.product)).Nodup → ((step recs c).map (·.product)).Nodup)
    (codes : List String) (recs : List Recommendation) (hnd : (recs.map (·.product)).Nodup) :
    ((codes.foldl step recs).map (·.product)).Nodup := by
  induction codes generalizing recs with
  | nil => exact hnd
  | cons c rest ih => exact ih _ (hstep recs c hnd)

theorem industryInference_nodup (toLowerCase : String → String) (industry : Option String)
    (recs seeded : List Recommendation) (hnd : (recs.map (·.product)).Nodup)
    (h : industryInference toLowerCase industry recs = .ok seeded) :
    (seeded.map (·.product)).Nodup := by
  unfold industryInference at h
  split at h
  · cases h; exact hnd
  · split at h
    · cases h; exact hnd
    · split at h
      · cases h
      · cases h
        exact foldl_nodup _ (fun recs c => industryStep_nodup _ c recs) _ _ hnd

theorem equipmentInference_nodup (normalizedText : String) (recs : List Recommendation)
    (hnd : (recs.map (·.product)).Nodup) :
    ((equipmentInference normalizedText recs).map (·.product)).Nodup := by
  unfold equipmentInference
  generalize EQUIPMENT_PRODUCT_MAP = table
  induction table generalizing recs with
  | nil => exact hnd
  | cons entry rest ih =>
    obtain ⟨equipment, products⟩ := entry
    rw [List.foldl_cons]
    apply ih
    dsimp only
    split
    · exact foldl_nodup _ (fun recs c => equipmentStep_nodup _ c recs) _ _ hnd
    · exact hnd

/-- Before sorting, the array holds at most one entry for each product code. -/
theorem gatherRecommendations_nodup (toLowerCase : String → String) (text : String)
    (industry : Option String) (recs : List Recommendation)
    (h : gatherRecommendations toLowerCase text industry = .ok recs) :
    (recs.map (·.product)).Nodup := by
  unfold gatherRecommendations at h
  dsimp only at h
  split at h
  · cases h
  · next seeded hseed =>
    cases h
    exact equipmentInference_nodup _ _
      (industryInference_nodup _ _ _ _ (directMentions_nodup _ _) hseed)

theorem equipmentHits_found (normalizedText productCode first : String) (hits : List String)
    (h : equipmentHits normalizedText productCode = first :: hits) :
    (findProduct productCode).isSome = true := by
  have hmem : first ∈ equipmentHits normalizedText productCode := by
    rw [h]; exact List.mem_cons_self _ _
  unfold equipmentHits at hmem
  obtain ⟨entry, hentry, -⟩ := List.mem_map.1 hmem
  obtain ⟨htable, hcond⟩ := List.mem_filter.1 hentry
  have hcode : productCode ∈ entry.2 := by
    simp only [Bool.and_eq_true] at hcond
    simpa using hcond.2
  exact equipment_codes_found entry htable productCode hcode

/-- C3: with `seeded` the array after the direct and the industry pass and `n >= 1` the
number of equipment phrases that occur in the lower-cased text and map the product: an
entry that existed with confidence `c0` ends with confidence `min(0.95, c0 + 0.15*n)`, a
new entry with `min(0.95, 0.65 + 0.15*(n-1))`; the reason codes end with the `n` codes
"Equipment match: <phrase>" in table order; with `n = 0` the entry of the product, or its
absence, is as before. The array before truncation has one entry for each product. -/
theorem equipmentInference_closed_form (toLowerCase : String → String) (text : String)
    (industry : Option String) (seeded : List Recommendation)
    (hseed : industryInference toLowerCase industry
      (directMentions toLowerCase (toLowerCase text) []) = .ok seeded)
    (productCode : String) :
    gatherRecommendations toLowerCase text industry
        = .ok (equipmentInference (toLowerCase text) seeded) ∧
      (∀ r ∈ equipmentInference (toLowerCase text) seeded, r.product = productCode →
        findRecommendation (equipmentInference (toLowerCase text) seeded) productCode = some r) ∧
      (∀ r0, findRecommendation seeded productCode = some r0 →
        equipmentHits (toLowerCase text) productCode ≠ [] →
        findRecommendation (equipmentInference (toLowerCase text) seeded) productCode
          = some { r0 with
              confidence := min 0.95 (r0.confidence
                + 0.15 * ((equipmentHits (toLowerCase text) productCode).length : ℚ))
              reasonCodes := r0.reasonCodes
                ++ (equipmentHits (toLowerCase text) productCode).map equipmentReason }) ∧
      (findRecommendation seeded productCode = none →
        equipmentHits (toLowerCase text) productCode ≠ [] →
        ∃ productData, findProduct productCode = some productData ∧
          findRecommendation (equipmentInference (toLowerCase text) seeded) productCode
            = some { product := productCode
                     productName := productData.name
                     category := productData.category
                     confidence := min 0.95 (0.65
                       + 0.15 * (((equipmentHits (toLowerCase text) productCode).length : ℚ) - 1))
                     reasonCodes :=
                       (equipmentHits (toLowerCase text) productCode).map equipmentReason
                     keywords := (equipmentHits (toLowerCase text) productCode).take 1 }) ∧
      (equipmentHits (toLowerCase text) productCode = [] →
        findRecommendation (equipmentInference (toLowerCase text) seeded) productCode
          = findRecommendation seeded productCode) := by
  have hgather : gatherRecommendations toLowerCase text industry
      = .ok (equipmentInference (toLowerCase text) seeded) := by
    simp only [gatherRecommendations, hseed]
  refine ⟨hgather, ?_, ?_, ?_, ?_⟩
  · intro r hr hp
    have := findRecommendation_of_nodup _
      (gatherRecommendations_nodup toLowerCase text industry _ hgather) r hr
    rw [hp] at this
    exact this
  · intro r0 h0 hne
    rw [findRecommendation_equipmentInference, h0]
    cases hh : equipmentHits (toLowerCase text) productCode with
    | nil => exact absurd hh hne
    | cons first hits => exact equipmentUpdate_foldl_some productCode first hits r0
  · intro h0 hne
    cases hh : equipmentHits (toLowerCase text) productCode with
    | nil => exact absurd hh hne
    | cons first hits =>
      obtain ⟨productData, hp⟩ := Option.isSome_iff_exists.1 (equipmentHits_found _ _ _ _ hh)
      refine ⟨productData, hp, ?_⟩
      have hfirst : equipmentUpdate first productCode none
          = some { product := productCode
                   productName := productData.name
                   category := productData.category
                   confidence := 0.65
                   reasonCodes := ["Equipment match: " ++ first]
                   keywords := [first] } := by
        simp only [equipmentUpdate, hp, Option.map_some']
      rw [findRecommendation_equipmentInference, h0, hh, List.foldl_cons, hfirst]
      cases hits with
      | nil =>
        simp only [List.foldl_nil, List.length_singleton, Nat.cast_one, sub_self, mul_zero,
          add_zero, List.map_cons, List.map_nil, equipmentReason, List.take_succ_cons,
          List.take_zero]
        rw [min_eq_right (by norm_num)]
      | cons second hits =>
        rw [equipmentUpdate_foldl_some]
        simp only [List.length_cons, List.map_cons, equipmentReason, List.take_succ_cons,
          List.take_zero, List.singleton_append, List.cons_append, List.nil_append]
        congr 2
        push_cast
        ring_nf
  · intro hh
    rw [findRecommendation_equipmentInference, hh]
    rfl

/-- Witness of C3: in "Diesel generator for captive power" the product HSD, found by the
direct pass, is mapped by three phrases that occur. -/
theorem equipmentInference_closed_form_witness :
    findRecommendation (equipmentInference (asciiLowerCase "Diesel generator for captive power")
        (directMentions asciiLowerCase (asciiLowerCase "Diesel generator for captive power") []))
        "HSD"
      = some { product := "HSD"
               productName := "High Speed Diesel"
               category := "Industrial Fuels"
               confidence := min 0.95 (0.7 + 0.15 * ((3 : ℕ) : ℚ))
               reasonCodes := ["Direct mention: diesel"] ++
                 ["generator", "captive power", "diesel generator"].map equipmentReason
               keywords := ["diesel"] } := by
  have hits : equipmentHits (asciiLowerCase "Diesel generator for captive power") "HSD"
      = ["generator", "captive power", "diesel generator"] := by decide
  have h := (equipmentInference_closed_form asciiLowerCase "Diesel generator for captive power"
      none (directMentions asciiLowerCase (asciiLowerCase "Diesel generator for captive power") [])
      rfl "HSD").2.2.1
    { product := "HSD"
      productName := "High Speed Diesel"
      category := "Industrial Fuels"
      confidence := 0.7
      reasonCodes := ["Direct mention: diesel"]
      keywords := ["diesel"] }
    (by decide!) (by decide)
  rw [hits] at h
  exact h

/-! ### Sorting and truncation -/

/-- Whenever `inferProducts` returns, the result is the first three entries of the
array in descending order of confidence: at most three, sorted, and no entry left out
has a greater confidence than a returned one. -/
theorem inferProducts_top3 (toLowerCase : String → String) (text : String)
    (industry : Option String) (result : List Recommendation)
    (h : inferProducts toLowerCase text industry = .ok result) :
    ∃ recs, gatherRecommendations toLowerCase text industry = .ok recs ∧
      result.length ≤ 3 ∧
      result.Pairwise (fun a b => b.confidence ≤ a.confidence) ∧
      (∀ r ∈ result, r ∈ recs) ∧
      (∀ x ∈ recs, x ∉ result → ∀ y ∈ result, x.confidence ≤ y.confidence) := by
  unfold inferProducts at h
  split at h
  · cases h
  · next recs hrecs =>
    cases h
    have hsorted : (sortByConfidence recs).Pairwise byConfidence :=
      List.sorted_insertionSort byConfidence recs
    have hperm : (sortByConfidence recs).Perm recs := List.perm_insertionSort byConfidence recs
    refine ⟨recs, hrecs, ?_, ?_, ?_, ?_⟩
    · exact (List.length_take_le 3 _)
    · exact hsorted.sublist (List.take_sublist 3 _)
    · intro r hr
      exact hperm.subset (List.mem_of_mem_take hr)
    · intro x hx hout y hy
      have hx' : x ∈ sortByConfidence recs := hperm.symm.subset hx
      rw [← List.take_append_drop 3 (sortByConfidence recs)] at hx' hsorted
      have hdrop : x ∈ (sortByConfidence recs).drop 3 := by
        rcases List.mem_append.1 hx' with h1 | h1
        · exact absurd h1 hout
        · exact h1
      exact (List.pairwise_append.1 hsorted).2.2 y hy x hdrop

theorem inferProducts_of_seeded (toLowerCase : String → String) (text : String)
    (industry : Option String) (seeded : List Recommendation)
    (h : industryInference toLowerCase industry
      (directMentions toLowerCase (toLowerCase text) []) = .ok seeded) :
    inferProducts toLowerCase text industry
      = .ok ((sortByConfidence (equipmentInference (toLowerCase text) seeded)).take 3) := by
  simp only [inferProducts, gatherRecommendations, h]

theorem inferProducts_of_thrown (toLowerCase : String → String) (text : String)
    (industry : Option String) (e : String)
    (h : industryInference toLowerCase industry
      (directMentions toLowerCase (toLowerCase text) []) = .error e) :
    inferProducts toLowerCase text industry = .error e := by
  simp only [inferProducts, gatherRecommendations, h]

/-- The call `inferProducts` throws exactly when a supplied industry lower-cases to a
name that is not a key of the industry table but is a property inherited from
`Object.prototype`; otherwise it returns. -/
theorem inferProducts_throws_iff (toLowerCase : String → String) (text : String)
    (industry : Option String) :
    (∀ result, inferProducts toLowerCase text industry ≠ .ok result) ↔
      ∃ name, industry = some name ∧ name ≠ "" ∧
        INDUSTRY_PRODUCT_MAP.lookup (toLowerCase name) = none ∧
        toLowerCase name ∈ OBJECT_PROTOTYPE_KEYS := by
  cases industry with
  | none =>
    rw [inferProducts_of_seeded toLowerCase text none _ rfl]
    simp
  | some name =>
    by_cases hname : name = ""
    · have hs : industryInference toLowerCase (some name)
          (directMentions toLowerCase (toLowerCase text) [])
            = .ok (directMentions toLowerCase (toLowerCase text) []) := by
        simp only [industryInference, hname, if_true]
      rw [inferProducts_of_seeded toLowerCase text _ _ hs]
      simp [hname]
    · cases hlook : INDUSTRY_PRODUCT_MAP.lookup (toLowerCase name) with
      | some codes =>
        have hs : industryInference toLowerCase (some name)
            (directMentions toLowerCase (toLowerCase text) [])
              = .ok (codes.foldl (industryStep name)
                  (directMentions toLowerCase (toLowerCase text) [])) := by
          simp only [industryInference, hname, if_false, industryProductsOf, hlook]
        rw [inferProducts_of_seeded toLowerCase text _ _ hs]
        constructor
        · intro h
          exact absurd rfl (h _)
        · rintro ⟨n, hn, -, hl, -⟩
          cases hn
          rw [hlook] at hl
          cases hl
      | none =>
        by_cases hproto : toLowerCase name ∈ OBJECT_PROTOTYPE_KEYS
        · have hc : OBJECT_PROTOTYPE_KEYS.contains (toLowerCase name) = true := by
            simpa using hproto
          have hs : industryInference toLowerCase (some name)
              (directMentions toLowerCase (toLowerCase text) [])
                = .error "TypeError: industryProducts.forEach is not a function" := by
            simp only [industryInference, hname, if_false, industryProductsOf, hlook, hc, if_true]
          rw [inferProducts_of_thrown toLowerCase text _ _ hs]
          constructor
          · intro _
            exact ⟨name, rfl, hname, hlook, hproto⟩
          · intro _ result h
            cases h
        · have hc : OBJECT_PROTOTYPE_KEYS.contains (toLowerCase name) = false := by
            simpa using hproto
          have hs : industryInference toLowerCase (some name)
              (directMentions toLowerCase (toLowerCase text) [])
                = .ok (directMentions toLowerCase (toLowerCase text) []) := by
            simp only [industryInference, hname, if_false, industryProductsOf, hlook, hc]
            rfl
          rw [inferProducts_of_seeded toLowerCase text _ _ hs]
          constructor
          · intro h
            exact absurd rfl (h _)
          · rintro ⟨n, hn, -, -, hp⟩
            cases hn
            exact absurd hp hproto

/-- C1, the code at a failing input: with the industry "constructor" the lookup in the
industry table reads the inherited `Object` constructor and `inferProducts` throws instead
of returning recommendations; with no industry the same text gives three. -/
theorem inferProducts_inherited_industry :
    inferProducts asciiLowerCase "diesel generator for captive power" (some "constructor")
        = .error "TypeError: industryProducts.forEach is not a function" ∧
      (inferProducts asciiLowerCase "diesel generator for captive power" none).toOption.map
        (List.map (·.product)) = some ["HSD", "FO", "LSHS"] := by
  refine ⟨by decide, by decide!⟩

/-! ## Properties of the scheduled triggers -/

theorem tryCatch_logged {σ : Type} (body : Stmt σ) (log : String → σ → σ) (w : σ) :
    (tryCatch body (fun error w1 => (log error w1, .ok ())) w).2 = .ok () := by
  unfold tryCatch
  rcases h : body w with ⟨w1, _ | _⟩ <;> rfl

theorem tryCatch_of_ok {σ : Type} (body : Stmt σ) (handler : String → Stmt σ) (w w1 : σ)
    (h : body w = (w1, .ok ())) : tryCatch body handler w = (w1, .ok ()) := by
  unfold tryCatch
  rw [h]

theorem tryCatch_recordAttempts {σ : Type} (process : SourceDocument → Stmt σ)
    (log : String → σ → σ) (source : SourceDocument) (w : σ) (record : List SourceDocument) :
    tryCatch (recordAttempts process source)
        (fun error v => ((log error v.1, v.2), .ok ())) (w, record)
      = (((tryCatch (process source) (fun error w1 => (log error w1, .ok ())) w).1,
          record ++ [source]), .ok ()) := by
  unfold tryCatch recordAttempts
  rcases h : process source w with ⟨w1, _ | _⟩ <;> rfl

theorem forOf_recordAttempts {σ : Type} (process : SourceDocument → Stmt σ)
    (log : SourceDocument → String → σ → σ) (sources : List SourceDocument) (w : σ)
    (record : List SourceDocument) :
    forOf (fun source => tryCatch (recordAttempts process source)
        (fun error v => ((log source error v.1, v.2), .ok ()))) sources (w, record)
      = (((forOf (fun source => tryCatch (process source)
            (fun error w1 => (log source error w1, .ok ()))) sources w).1,
          record ++ sources), .ok ()) := by
  induction sources generalizing w record with
  | nil => simp [forOf]
  | cons source rest ih =>
    have hplain := tryCatch_logged (process source) (log source) w
    simp only [forOf]
    rw [tryCatch_recordAttempts process (log source) source w record]
    rcases h : tryCatch (process source) (fun error w1 => (log source error w1, .ok ())) w
      with ⟨w1, r⟩
    rw [h] at hplain
    simp only at hplain
    subst hplain
    simp only [ih, List.append_assoc, List.singleton_append]

theorem forOf_logged {σ : Type} (process : SourceDocument → Stmt σ)
    (log : SourceDocument → String → σ → σ) (sources : List SourceDocument) (w : σ) :
    (forOf (fun source => tryCatch (process source)
        (fun error w1 => (log source error w1, .ok ()))) sources w).2 = .ok () := by
  induction sources generalizing w with
  | nil => rfl
  | cons source rest ih =>
    have hplain := tryCatch_logged (process source) (log source) w
    simp only [forOf]
    rcases h : tryCatch (process source) (fun error w1 => (log source error w1, .ok ())) w
      with ⟨w1, r⟩
    rw [h] at hplain
    simp only at hplain
    subst hplain
    exact ih w1

/-- A trigger never throws. -/
theorem scrapeSources_completes {σ : Type} (crawlFrequency : String)
    (stored : σ → List SourceDocument) (process : SourceDocument → Stmt σ)
    (logError : String → σ → σ) (w : σ) :
    (scrapeSources crawlFrequency stored process logError w).2 = .ok () := by
  unfold scrapeSources
  exact tryCatch_logged _ _ w

/-- A trigger calls the processing on each selected source once, in selection order,
whatever the calls do, and the record kept beside the state changes nothing else. -/
theorem scrapeSources_attempts {σ : Type} (crawlFrequency : String)
    (stored : σ → List SourceDocument) (process : SourceDocument → Stmt σ)
    (logError : String → σ → σ) (w : σ) :
    scrapeSources crawlFrequency (fun v => stored v.1) (recordAttempts process)
        (fun message v => (logError message v.1, v.2)) (w, [])
      = (((scrapeSources crawlFrequency stored process logError w).1,
          findActiveSources crawlFrequency (stored w)), .ok ()) := by
  have hloop : scrapeSelected crawlFrequency (fun v => stored v.1) (recordAttempts process)
        (fun message v => (logError message v.1, v.2)) (w, [])
      = (((scrapeSelected crawlFrequency stored process logError w).1,
          findActiveSources crawlFrequency (stored w)), .ok ()) := by
    have := forOf_recordAttempts process
      (fun source error => logError ("Error scraping source " ++ source.domain ++ ": " ++ error))
      (findActiveSources crawlFrequency (stored w)) w []
    rw [List.nil_append] at this
    exact this
  have hok : (scrapeSelected crawlFrequency stored process logError w).2 = .ok () :=
    forOf_logged process
      (fun source error => logError ("Error scraping source " ++ source.domain ++ ": " ++ error))
      (findActiveSources crawlFrequency (stored w)) w
  have hplain : (scrapeSources crawlFrequency stored process logError w).1
      = (scrapeSelected crawlFrequency stored process logError w).1 := by
    unfold scrapeSources
    rw [tryCatch_of_ok _ _ w _ (Prod.ext rfl hok)]
  rw [hplain]
  unfold scrapeSources
  exact tryCatch_of_ok _ _ _ _ hloop

/-- C14: for every store, every behaviour of the processing of one source (completing
or throwing, with any effect on the state) and both triggers, the processing is called
on each selected source exactly once, in selection order, also after an earlier call has
thrown, and the trigger itself completes without throwing. -/
theorem triggers_isolate_sources {σ : Type} (stored : σ → List SourceDocument)
    (process : SourceDocument → Stmt σ) (logError : String → σ → σ) (w : σ) :
    (scrapeDailySources (fun v => stored v.1) (recordAttempts process)
        (fun message v => (logError message v.1, v.2)) (w, [])
      = (((scrapeDailySources stored process logError w).1,
          findActiveSources "daily" (stored w)), .ok ())) ∧
    (scrapeHourlySources (fun v => stored v.1) (recordAttempts process)
        (fun message v => (logError message v.1, v.2)) (w, [])
      = (((scrapeHourlySources stored process logError w).1,
          findActiveSources "hourly" (stored w)), .ok ())) ∧
    (scrapeDailySources stored process logError w).2 = .ok () ∧
    (scrapeHourlySources stored process logError w).2 = .ok () :=
  ⟨scrapeSources_attempts "daily" stored process logError w,
    scrapeSources_attempts "hourly" stored process logError w,
    scrapeSources_completes "daily" stored process logError w,
    scrapeSources_completes "hourly" stored process logError w⟩

/-! ## Scoring and the clock -/

/-- C11, counterexample: the same lead and the same signal, dated at time 0, scored at
time 0 and one day later give different scores; the same score and the same tender signal
rated at time 0 and eight days later give different urgencies. -/
theorem scoring_depends_on_clock :
    calculateLeadScore 0 {} [⟨"a", "", "tender", "", 0, []⟩]
        ≠ calculateLeadScore 86400000 {} [⟨"a", "", "tender", "", 0, []⟩] ∧
      determineUrgency 0 ⟨40, 10, 5, 10, 15⟩ [⟨"a", "", "tender", "", 0, []⟩]
        ≠ determineUrgency 691200000 ⟨40, 10, 5, 10, 15⟩ [⟨"a", "", "tender", "", 0, []⟩] := by
  refine ⟨by decide!, by decide!⟩

theorem determineUrgency_eq (now : ℤ) (leadScore : LeadScore) (signals : List Signal) :
    determineUrgency now leadScore signals =
      (if (∃ s ∈ signals, s.sourceType = "tender") ∧
          (∃ s ∈ signals, daysSince now s.timestamp < 7) then "critical"
       else if 70 < leadScore.total then "high"
       else if 50 < leadScore.total then "medium"
       else "low") := by
  unfold determineUrgency
  by_cases h1 : ∃ s ∈ signals, s.sourceType = "tender"
  · by_cases h2 : ∃ s ∈ signals, daysSince now s.timestamp < 7
    · have e1 := (any_sourceType_iff signals).2 h1
      have e2 := (any_recent_iff now signals).2 h2
      simp only [e1, e2, h1, h2, Bool.and_self, if_true, and_self]
    · have e2 : (signals.any fun s => decide (daysSince now s.timestamp < 7)) = false := by
        rw [Bool.eq_false_iff]; exact fun h => h2 ((any_recent_iff now signals).1 h)
      simp only [e2, h2, Bool.and_false, and_false, if_false, gt_iff_lt]
      rfl
  · have e1 : (signals.any fun s => s.sourceType == "tender") = false := by
      rw [Bool.eq_false_iff]; exact fun h => h1 ((any_sourceType_iff signals).1 h)
    simp only [e1, h1, Bool.false_and, false_and, if_false, gt_iff_lt]
    rfl

theorem leadScore_ext (a b : LeadScore) (h1 : a.intentStrength = b.intentStrength)
    (h2 : a.freshness = b.freshness) (h3 : a.companySize = b.companySize)
    (h4 : a.proximity = b.proximity) (h5 : a.total = b.total) : a = b := by
  cases a; cases b; simp_all

/-- C11, amended: the results depend on the arguments and on the reading of the clock
only. At two readings of the clock the intent strength, the company size and the
proximity of the same lead and signals are equal, and the whole score is equal as soon as
the freshness is, which it is for an empty signal list; the urgency of the same score and
signals is equal whenever some signal is less than 7 days old at both readings or at
neither; at equal readings both results are equal. -/
theorem scoring_clock_dependence (now1 now2 : ℤ) (lead : Lead) (leadScore : LeadScore)
    (signals : List Signal) :
    (calculateLeadScore now1 lead signals).intentStrength
        = (calculateLeadScore now2 lead signals).intentStrength ∧
      (calculateLeadScore now1 lead signals).companySize
        = (calculateLeadScore now2 lead signals).companySize ∧
      (calculateLeadScore now1 lead signals).proximity
        = (calculateLeadScore now2 lead signals).proximity ∧
      ((calculateLeadScore now1 lead signals).freshness
          = (calculateLeadScore now2 lead signals).freshness →
        calculateLeadScore now1 lead signals = calculateLeadScore now2 lead signals) ∧
      calculateLeadScore now1 lead [] = calculateLeadScore now2 lead [] ∧
      (((∃ s ∈ signals, daysSince now1 s.timestamp < 7) ↔
          (∃ s ∈ signals, daysSince now2 s.timestamp < 7)) →
        determineUrgency now1 leadScore signals = determineUrgency now2 leadScore signals) ∧
      (now1 = now2 →
        calculateLeadScore now1 lead signals = calculateLeadScore now2 lead signals ∧
        determineUrgency now1 leadScore signals = determineUrgency now2 leadScore signals) := by
  have hi : (calculateLeadScore now1 lead signals).intentStrength
      = (calculateLeadScore now2 lead signals).intentStrength := by
    rw [intentStrength_eq, intentStrength_eq]
  have hc : (calculateLeadScore now1 lead signals).companySize
      = (calculateLeadScore now2 lead signals).companySize := by
    rw [companySize_eq, companySize_eq]
  refine ⟨hi, hc, rfl, ?_, rfl, ?_, ?_⟩
  · intro hf
    apply leadScore_ext _ _ hi hf hc rfl
    rw [total_eq, total_eq, hi, hf, hc]
    rfl
  · intro h
    rw [determineUrgency_eq, determineUrgency_eq]
    by_cases h1 : ∃ s ∈ signals, daysSince now1 s.timestamp < 7
    · simp only [h1, h.1 h1]
    · have h2 : ¬ ∃ s ∈ signals, daysSince now2 s.timestamp < 7 := fun h2 => h1 (h.2 h2)
      simp only [h1, h2]
  · rintro rfl
    exact ⟨rfl, rfl⟩

/-- Witness of C11: a tender signal dated at time 0 is less than 7 days old both at
time 0 and one day later, and the urgency is the same. -/
theorem scoring_clock_dependence_witness :
    determineUrgency 0 ⟨40, 10, 5, 10, 15⟩ [⟨"a", "", "tender", "", 0, []⟩]
      = determineUrgency 86400000 ⟨40, 10, 5, 10, 15⟩ [⟨"a", "", "tender", "", 0, []⟩] :=
  (scoring_clock_dependence 0 86400000 {} ⟨40, 10, 5, 10, 15⟩
      [⟨"a", "", "tender", "", 0, []⟩]).2.2.2.2.2.1
    ⟨fun _ => ⟨⟨"a", "", "tender", "", 0, []⟩, by simp, by decide!⟩,
      fun _ => ⟨⟨"a", "", "tender", "", 0, []⟩, by simp, by decide!⟩⟩

/-! ## Properties of the lead routes -/

theorem updateFirst_of_find {α : Type} (filter : α → Bool) (update : α → α) (l : List α)
    (a : α) (h : l.find? filter = some a) :
    ∃ pre post, l = pre ++ a :: post ∧ (∀ x ∈ pre, filter x = false) ∧
      updateFirst filter update l = pre ++ update a :: post := by
  induction l with
  | nil => simp at h
  | cons b rest ih =>
    rw [List.find?_cons] at h
    by_cases hb : filter b = true
    · simp only [hb] at h
      cases h
      exact ⟨[], rest, rfl, by simp, by simp [updateFirst, hb]⟩
    · have hb2 : filter b = false := by simpa using hb
      simp only [hb2] at h
      obtain ⟨pre, post, h1, h2, h3⟩ := ih h
      refine ⟨b :: pre, post, by rw [h1]; rfl, ?_, ?_⟩
      · intro x hx
        rcases List.mem_cons.1 hx with rfl | hx
        · exact hb2
        · exact h2 x hx
      · simp [updateFirst, hb2, h3]

theorem updateFirst_of_none {α : Type} (filter : α → Bool) (update : α → α) (l : List α)
    (h : ∀ x ∈ l, filter x = false) : updateFirst filter update l = l := by
  induction l with
  | nil => rfl
  | cons b rest ih =>
    have hb := h b (List.mem_cons_self _ _)
    simp only [updateFirst, hb]
    rw [ih fun x hx => h x (List.mem_cons_of_mem _ hx)]
    rfl

theorem updateFirst_append_fresh {α : Type} (filter : α → Bool) (update : α → α)
    (l : List α) (a : α) (h : ∀ x ∈ l, filter x = false) (ha : filter a = true) :
    updateFirst filter update (l ++ [a]) = l ++ [update a] := by
  induction l with
  | nil => simp [updateFirst, ha]
  | cons b rest ih =>
    have hb := h b (List.mem_cons_self _ _)
    simp only [List.cons_append, updateFirst, hb, Bool.false_eq_true, if_false]
    exact congrArg (fun t => b :: t) (ih fun x hx => h x (List.mem_cons_of_mem _ hx))

theorem find_id_eq (leads : List LeadDocument) (id : ℕ) (lead : LeadDocument)
    (h : leads.find? (fun stored => stored.id == id) = some lead) : lead.id = id := by
  have := List.find?_some h
  simpa using this

theorem recordContact_id (now : ℤ) (body : ContactRequest) (lead : LeadDocument) :
    (recordContact now body lead).id = lead.id := by
  unfold recordContact
  split <;> rfl

theorem recordContact_status (now : ℤ) (body : ContactRequest) (lead : LeadDocument) :
    (recordContact now body lead).status
      = if body.outcome = some "connected" then "contacted" else lead.status := by
  unfold recordContact
  by_cases hc : body.outcome = some "connected"
  · simp [hc]
  · have hc2 : (body.outcome == some "connected") = false := by simpa using hc
    simp [hc, hc2]

theorem recordContact_attempts (now : ℤ) (body : ContactRequest) (lead : LeadDocument) :
    (recordContact now body lead).contactAttempts
      = lead.contactAttempts ++ [ContactAttempt.mk now body.method body.outcome body.notes] := by
  unfold recordContact
  split <;> rfl

theorem applyFeedback_id (now : ℤ) (body : FeedbackRequest) (lead : LeadDocument) :
    (applyFeedback now body lead).id = lead.id := by
  unfold applyFeedback
  split
  · rfl
  · split <;> rfl

theorem applyFeedback_status (now : ℤ) (body : FeedbackRequest) (lead : LeadDocument) :
    (applyFeedback now body lead).status
      = if body.converted = some true then "won"
        else if body.accepted = some true then lead.status else "rejected" := by
  unfold applyFeedback truthy
  by_cases hc : body.converted = some true
  · simp [hc]
  · have hc2 : (body.converted == some true) = false := by simpa using hc
    by_cases ha : body.accepted = some true
    · simp [hc, hc2, ha]
    · have ha2 : (body.accepted == some true) = false := by simpa using ha
      simp [hc, hc2, ha, ha2]

theorem applyFeedback_feedback (now : ℤ) (body : FeedbackRequest) (lead : LeadDocument) :
    (applyFeedback now body lead).feedback
      = some (Feedback.mk body.accepted body.converted body.rejectionReason body.notes now) := by
  unfold applyFeedback
  split
  · rfl
  · split <;> rfl

/-- The route `POST /:id/contact` on a stored lead: the lead is rewritten in place. -/
theorem postContact_found (now saveAt : ℤ) (id : ℕ) (body : ContactRequest)
    (leads : List LeadDocument) (lead : LeadDocument)
    (hfind : leads.find? (fun stored => stored.id == id) = some lead) :
    ∃ pre post, leads = pre ++ lead :: post ∧
      postContact now saveAt id body leads
        = (pre ++ preSave saveAt (recordContact now body lead) :: post,
            .json 200 (preSave saveAt (recordContact now body lead))) := by
  have hid := find_id_eq leads id lead hfind
  obtain ⟨pre, post, h1, -, h3⟩ := updateFirst_of_find (fun stored => stored.id == id)
    (fun _ => preSave saveAt (recordContact now body lead)) leads lead hfind
  refine ⟨pre, post, h1, ?_⟩
  unfold postContact saveLead
  simp only [hfind, recordContact_id, hid]
  rw [h3]

/-- The route `POST /:id/feedback` on a stored lead: the lead is rewritten in place. -/
theorem postFeedback_found (now saveAt : ℤ) (id : ℕ) (body : FeedbackRequest)
    (leads : List LeadDocument) (lead : LeadDocument)
    (hfind : leads.find? (fun stored => stored.id == id) = some lead) :
    ∃ pre post, leads = pre ++ lead :: post ∧
      postFeedback now saveAt id body leads
        = (pre ++ preSave saveAt (applyFeedback now body lead) :: post,
            .json 200 (preSave saveAt (applyFeedback now body lead))) := by
  have hid := find_id_eq leads id lead hfind
  obtain ⟨pre, post, h1, -, h3⟩ := updateFirst_of_find (fun stored => stored.id == id)
    (fun _ => preSave saveAt (applyFeedback now body lead)) leads lead hfind
  refine ⟨pre, post, h1, ?_⟩
  unfold postFeedback saveLead
  simp only [hfind, applyFeedback_id, hid]
  rw [h3]

/-- C16: on a stored lead in any status, `POST /:id/contact` rewrites the lead in place;
with the outcome 'connected' the status becomes 'contacted', with any other outcome it
stays as it was (so from 'qualified' a connected attempt gives 'contacted'); the contact
attempts are the previous ones followed by one entry with the given method, outcome and
notes. -/
theorem postContact_spec (now saveAt : ℤ) (id : ℕ) (body : ContactRequest)
    (leads : List LeadDocument) (lead : LeadDocument)
    (hfind : leads.find? (fun stored => stored.id == id) = some lead) :
    ∃ pre post saved, leads = pre ++ lead :: post ∧
      postContact now saveAt id body leads = (pre ++ saved :: post, .json 200 saved) ∧
      (body.outcome = some "connected" → saved.status = "contacted") ∧
      (body.outcome ≠ some "connected" → saved.status = lead.status) ∧
      saved.contactAttempts
        = lead.contactAttempts ++ [ContactAttempt.mk now body.method body.outcome body.notes] := by
  obtain ⟨pre, post, h1, h2⟩ := postContact_found now saveAt id body leads lead hfind
  refine ⟨pre, post, preSave saveAt (recordContact now body lead), h1, h2, ?_, ?_, ?_⟩
  · intro hc
    show (recordContact now body lead).status = _
    rw [recordContact_status, if_pos hc]
  · intro hc
    show (recordContact now body lead).status = _
    rw [recordContact_status, if_neg hc]
  · exact recordContact_attempts now body lead

/-- Witness of C16: a connected call on a qualified lead. -/
theorem postContact_spec_witness :
    ∃ pre post saved, [exampleLead 7 "qualified"] = pre ++ exampleLead 7 "qualified" :: post ∧
      postContact 100 101 7 ⟨some "phone", some "connected", none⟩ [exampleLead 7 "qualified"]
        = (pre ++ saved :: post, .json 200 saved) ∧
      ((some "connected" : Option String) = some "connected" → saved.status = "contacted") ∧
      ((some "connected" : Option String) ≠ some "connected" →
        saved.status = (exampleLead 7 "qualified").status) ∧
      saved.contactAttempts
        = (exampleLead 7 "qualified").contactAttempts ++
          [ContactAttempt.mk 100 (some "phone") (some "connected") none] :=
  postContact_spec 100 101 7 ⟨some "phone", some "connected", none⟩
    [exampleLead 7 "qualified"] (exampleLead 7 "qualified") (by decide!)

/-- C17: on a stored lead in any status, `POST /:id/feedback` rewrites the lead in place;
with `converted = true` the status becomes 'won'; with `accepted = false` and `converted`
absent it becomes 'rejected'; with `accepted = true` and `converted = false` it stays as
it was; in every case the feedback of the lead holds the submitted `accepted`,
`converted`, `rejectionReason` and `notes`. -/
theorem postFeedback_spec (now saveAt : ℤ) (id : ℕ) (body : FeedbackRequest)
    (leads : List LeadDocument) (lead : LeadDocument)
    (hfind : leads.find? (fun stored => stored.id == id) = some lead) :
    ∃ pre post saved, leads = pre ++ lead :: post ∧
      postFeedback now saveAt id body leads = (pre ++ saved :: post, .json 200 saved) ∧
      (body.converted = some true → saved.status = "won") ∧
      (body.accepted = some false → body.converted = none → saved.status = "rejected") ∧
      (body.accepted = some true → body.converted = some false → saved.status = lead.status) ∧
      saved.feedback
        = some (Feedback.mk body.accepted body.converted body.rejectionReason body.notes now) := by
  obtain ⟨pre, post, h1, h2⟩ := postFeedback_found now saveAt id body leads lead hfind
  refine ⟨pre, post, preSave saveAt (applyFeedback now body lead), h1, h2, ?_, ?_, ?_, ?_⟩
  · intro hc
    show (applyFeedback now body lead).status = _
    rw [applyFeedback_status, if_pos hc]
  · intro ha hc
    show (applyFeedback now body lead).status = _
    rw [applyFeedback_status, hc, ha]
    simp
  · intro ha hc
    show (applyFeedback now body lead).status = _
    rw [applyFeedback_status, hc, ha]
    simp
  · exact applyFeedback_feedback now body lead

/-- Witness of C17: feedback with `converted = true` on a lead in negotiation. -/
theorem postFeedback_spec_witness :
    ∃ pre post saved, [exampleLead 7 "negotiation"] = pre ++ exampleLead 7 "negotiation" :: post ∧
      postFeedback 100 101 7 ⟨some true, some true, none, some "signed"⟩
          [exampleLead 7 "negotiation"] = (pre ++ saved :: post, .json 200 saved) ∧
      ((some true : Option Bool) = some true → saved.status = "won") ∧
      ((some true : Option Bool) = some false → (some true : Option Bool) = none →
        saved.status = "rejected") ∧
      ((some true : Option Bool) = some true → (some true : Option Bool) = some false →
        saved.status = (exampleLead 7 "negotiation").status) ∧
      saved.feedback = some (Feedback.mk (some true) (some true) none (some "signed") 100) :=
  postFeedback_spec 100 101 7 ⟨some true, some true, none, some "signed"⟩
    [exampleLead 7 "negotiation"] (exampleLead 7 "negotiation") (by decide!)

/-- C18, counterexample: feedback with `accepted = false` and `converted = true` leaves
the lead with status 'won', not 'rejected'. -/
theorem postFeedback_converted_not_accepted :
    (postFeedback 100 101 7 ⟨some false, some true, none, none⟩ [exampleLead 7 "new"]).1.map
        (·.status) = ["won"] ∧
      (postFeedback 100 101 7 ⟨some false, some true, none, none⟩ [exampleLead 7 "new"]).1.map
        (·.status) ≠ ["rejected"] := by
  refine ⟨by decide!, by decide!⟩

/-- C18, amended: on a stored lead, feedback whose `accepted` is false and whose
`converted` is not true leaves the lead with status 'rejected'; with `converted` true
the status is 'won' whatever `accepted` is. -/
theorem postFeedback_rejected (now saveAt : ℤ) (id : ℕ) (body : FeedbackRequest)
    (leads : List LeadDocument) (lead : LeadDocument)
    (hfind : leads.find? (fun stored => stored.id == id) = some lead)
    (haccepted : body.accepted = some false) :
    ∃ pre post saved, leads = pre ++ lead :: post ∧
      postFeedback now saveAt id body leads = (pre ++ saved :: post, .json 200 saved) ∧
      (body.converted ≠ some true → saved.status = "rejected") ∧
      (body.converted = some true → saved.status = "won") := by
  obtain ⟨pre, post, h1, h2⟩ := postFeedback_found now saveAt id body leads lead hfind
  refine ⟨pre, post, preSave saveAt (applyFeedback now body lead), h1, h2, ?_, ?_⟩
  · intro hc
    show (applyFeedback now body lead).status = _
    rw [applyFeedback_status, if_neg hc, haccepted]
    simp
  · intro hc
    show (applyFeedback now body lead).status = _
    rw [applyFeedback_status, if_pos hc]

/-- Witness of C18: feedback with `accepted = false` and `converted = false`. -/
theorem postFeedback_rejected_witness :
    ∃ pre post saved, [exampleLead 7 "contacted"] = pre ++ exampleLead 7 "contacted" :: post ∧
      postFeedback 100 101 7 ⟨some false, some false, some "price", none⟩
          [exampleLead 7 "contacted"] = (pre ++ saved :: post, .json 200 saved) ∧
      ((some false : Option Bool) ≠ some true → saved.status = "rejected") ∧
      ((some false : Option Bool) = some true → saved.status = "won") :=
  postFeedback_rejected 100 101 7 ⟨some false, some false, some "price", none⟩
    [exampleLead 7 "contacted"] (exampleLead 7 "contacted") (by decide!) rfl

/-- C19, counterexample: a connected contact attempt moves a lead from 'won' to
'contacted', and feedback with `converted = true` moves a lead from 'lost' to 'won'. -/
theorem terminal_status_changes :
    (postContact 100 101 7 ⟨some "phone", some "connected", none⟩ [exampleLead 7 "won"]).1.map
        (·.status) = ["contacted"] ∧
      (postFeedback 100 101 7 ⟨some true, some true, none, none⟩ [exampleLead 7 "lost"]).1.map
        (·.status) = ["won"] := by
  refine ⟨by decide!, by decide!⟩

/-- C19, amended: for a stored lead whose status is 'won', 'lost' or 'rejected', the
status is the same as before after a contact attempt whose outcome is not 'connected' and
after feedback with `accepted = true` and `converted` not true; a connected attempt
changes it to 'contacted', feedback with `converted = true` sets 'won' and feedback
with neither sets 'rejected'. -/
theorem terminal_status_transitions (now saveAt : ℤ) (id : ℕ) (contact : ContactRequest)
    (feedback : FeedbackRequest) (leads : List LeadDocument) (lead : LeadDocument)
    (hfind : leads.find? (fun stored => stored.id == id) = some lead)
    (hterminal : lead.status = "won" ∨ lead.status = "lost" ∨ lead.status = "rejected") :
    (∃ pre post saved, leads = pre ++ lead :: post ∧
      postContact now saveAt id contact leads = (pre ++ saved :: post, .json 200 saved) ∧
      (contact.outcome ≠ some "connected" → saved.status = lead.status) ∧
      (contact.outcome = some "connected" →
        saved.status = "contacted" ∧ saved.status ≠ lead.status)) ∧
    (∃ pre post saved, leads = pre ++ lead :: post ∧
      postFeedback now saveAt id feedback leads = (pre ++ saved :: post, .json 200 saved) ∧
      (feedback.converted ≠ some true → feedback.accepted = some true →
        saved.status = lead.status) ∧
      (feedback.converted = some true → saved.status = "won") ∧
      (feedback.converted ≠ some true → feedback.accepted ≠ some true →
        saved.status = "rejected")) := by
  constructor
  · obtain ⟨pre, post, h1, h2⟩ := postContact_found now saveAt id contact leads lead hfind
    refine ⟨pre, post, preSave saveAt (recordContact now contact lead), h1, h2, ?_, ?_⟩
    · intro hc
      show (recordContact now contact lead).status = _
      rw [recordContact_status, if_neg hc]
    · intro hc
      have hs : (recordContact now contact lead).status = "contacted" := by
        rw [recordContact_status, if_pos hc]
      refine ⟨hs, ?_⟩
      show (recordContact now contact lead).status ≠ _
      rw [hs]
      rcases hterminal with h | h | h <;> rw [h] <;> decide
  · obtain ⟨pre, post, h1, h2⟩ := postFeedback_found now saveAt id feedback leads lead hfind
    refine ⟨pre, post, preSave saveAt (applyFeedback now feedback lead), h1, h2, ?_, ?_, ?_⟩
    · intro hc ha
      show (applyFeedback now feedback lead).status = _
      rw [applyFeedback_status, if_neg hc, if_pos ha]
    · intro hc
      show (applyFeedback now feedback lead).status = _
      rw [applyFeedback_status, if_pos hc]
    · intro hc ha
      show (applyFeedback now feedback lead).status = _
      rw [applyFeedback_status, if_neg hc, if_neg ha]

/-- Witness of C19: on a lead with status 'lost', an attempt with no answer and feedback
with `accepted = true` and `converted = false`. -/
theorem terminal_status_transitions_witness :
    (∃ pre post saved, [exampleLead 7 "lost"] = pre ++ exampleLead 7 "lost" :: post ∧
      postContact 100 101 7 ⟨some "phone", some "no_answer", none⟩ [exampleLead 7 "lost"]
        = (pre ++ saved :: post, .json 200 saved) ∧
      ((some "no_answer" : Option String) ≠ some "connected" →
        saved.status = (exampleLead 7 "lost").status) ∧
      ((some "no_answer" : Option String) = some "connected" →
        saved.status = "contacted" ∧ saved.status ≠ (exampleLead 7 "lost").status)) ∧
    (∃ pre post saved, [exampleLead 7 "lost"] = pre ++ exampleLead 7 "lost" :: post ∧
      postFeedback 100 101 7 ⟨some true, some false, none, none⟩ [exampleLead 7 "lost"]
        = (pre ++ saved :: post, .json 200 saved) ∧
      ((some false : Option Bool) ≠ some true → (some true : Option Bool) = some true →
        saved.status = (exampleLead 7 "lost").status) ∧
      ((some false : Option Bool) = some true → saved.status = "won") ∧
      ((some false : Option Bool) ≠ some true → (some true : Option Bool) ≠ some true →
        saved.status = "rejected")) :=
  terminal_status_transitions 100 101 7 ⟨some "phone", some "no_answer", none⟩
    ⟨some true, some false, none, none⟩ [exampleLead 7 "lost"] (exampleLead 7 "lost")
    (by decide!) (Or.inr (Or.inl rfl))

/-! ## Manual intake -/

theorem suggestNextAction_eq (dueAt urgencyAt : ℤ) (leadScore : LeadScore)
    (signals : List Signal) :
    suggestNextAction dueAt (determineUrgency urgencyAt leadScore signals) signals
      = { action :=
            if ∃ s ∈ signals, s.sourceType = "tender" then
              "Review tender requirements and prepare proposal"
            else "Initial contact call to introduce HPCL products"
          dueDate := dueAt +
            (if (∃ s ∈ signals, s.sourceType = "tender") ∧
                (∃ s ∈ signals, daysSince urgencyAt s.timestamp < 7) then 1 else 3)
              * 24 * 60 * 60 * 1000 } := by
  have hu : ((if 70 < leadScore.total then "high"
      else if 50 < leadScore.total then "medium" else "low") == "critical") = false := by
    split_ifs <;> decide
  unfold suggestNextAction
  rw [determineUrgency_eq]
  by_cases h1 : ∃ s ∈ signals, s.sourceType = "tender"
  · have e1 := (any_sourceType_iff signals).2 h1
    by_cases h2 : ∃ s ∈ signals, daysSince urgencyAt s.timestamp < 7
    · simp only [e1, h1, h2, and_self, if_true, beq_self_eq_true]
    · simp only [e1, h1, h2, and_false, if_true, if_false, hu, Bool.false_eq_true]
  · have e1 : (signals.any fun s => s.sourceType == "tender") = false := by
      rw [Bool.eq_false_iff]; exact fun h => h1 ((any_sourceType_iff signals).1 h)
    simp only [e1, h1, false_and, if_false, Bool.false_eq_true, hu]

/-- C20, counterexample: a submitted tender signal that is ten days old gets the tender
text with a due date 3 days, not 1 day, after the request. -/
theorem postLead_old_tender :
    (postLead asciiLowerCase ⟨864000000, 864000000, 864000000, 864000000, 864000000, 0, 0⟩ 1
        ⟨"Acme", none, [], [⟨"manual", "", "tender", "supply of bitumen", 0, []⟩],
          none, none, none⟩ none (.ok ()) []).1.map (·.nextAction)
      = [some ⟨"Review tender requirements and prepare proposal",
          864000000 + 3 * 24 * 60 * 60 * 1000⟩] := by
  decide!

/-- C20, amended: when `POST /` creates a lead, its next action has the tender text if
some submitted signal is a tender and the outreach text otherwise; the due date is 1 day
after the request if the urgency is critical, that is if some signal is a tender and some
signal is less than 7 days old, and 3 days after the request otherwise. -/
theorem postLead_nextAction (toLowerCase : String → String) (clock : IntakeClock) (newId : ℕ)
    (body : LeadRequest) (assignedUser : Option ℕ) (notification : Except String Unit)
    (leads : List LeadDocument) (recs : List Recommendation)
    (hrecs : inferProducts toLowerCase (allSignalText body.signals)
      (body.companyDetails.bind (·.industry)) = .ok recs)
    (hfresh : ∀ lead ∈ leads, lead.id ≠ newId) :
    ∃ created, (postLead toLowerCase clock newId body assignedUser notification leads).1
        = leads ++ [created] ∧
      created.status = "new" ∧
      created.signals = body.signals ∧
      created.nextAction = some
        { action :=
            if ∃ s ∈ body.signals, s.sourceType = "tender" then
              "Review tender requirements and prepare proposal"
            else "Initial contact call to introduce HPCL products"
          dueDate := clock.dueAt +
            (if (∃ s ∈ body.signals, s.sourceType = "tender") ∧
                (∃ s ∈ body.signals, daysSince clock.urgencyAt s.timestamp < 7) then 1 else 3)
              * 24 * 60 * 60 * 1000 } := by
  unfold postLead
  simp only [hrecs]
  cases assignedUser with
  | none =>
    exact ⟨_, rfl, rfl, rfl, congrArg some (suggestNextAction_eq _ _ _ _)⟩
  | some user =>
    cases notification with
    | error e => exact ⟨_, rfl, rfl, rfl, congrArg some (suggestNextAction_eq _ _ _ _)⟩
    | ok u =>
      simp only [saveLead]
      rw [updateFirst_append_fresh]
      · exact ⟨_, rfl, rfl, rfl, congrArg some (suggestNextAction_eq _ _ _ _)⟩
      · intro lead hlead
        have := hfresh lead hlead
        simpa [preSave] using this
      · simp [preSave]

/-- Witness of C20: a tender signal dated at the time of the request. -/
theorem postLead_nextAction_witness :
    ∃ created, (postLead asciiLowerCase ⟨0, 0, 0, 0, 0, 0, 0⟩ 1
        ⟨"Acme", none, [], [⟨"manual", "", "tender", "supply of bitumen", 0, []⟩],
          none, none, none⟩ (some 4) (.ok ()) []).1 = [] ++ [created] ∧
      created.status = "new" ∧
      created.signals = [⟨"manual", "", "tender", "supply of bitumen", 0, []⟩] ∧
      created.nextAction = some
        { action :=
            if ∃ s ∈ [(⟨"manual", "", "tender", "supply of bitumen", 0, []⟩ : Signal)],
                s.sourceType = "tender" then
              "Review tender requirements and prepare proposal"
            else "Initial contact call to introduce HPCL products"
          dueDate := (0 : ℤ) +
            (if (∃ s ∈ [(⟨"manual", "", "tender", "supply of bitumen", 0, []⟩ : Signal)],
                  s.sourceType = "tender") ∧
                (∃ s ∈ [(⟨"manual", "", "tender", "supply of bitumen", 0, []⟩ : Signal)],
                  daysSince 0 s.timestamp < 7) then 1 else 3)
              * 24 * 60 * 60 * 1000 } :=
  postLead_nextAction asciiLowerCase ⟨0, 0, 0, 0, 0, 0, 0⟩ 1
    ⟨"Acme", none, [], [⟨"manual", "", "tender", "supply of bitumen", 0, []⟩], none, none, none⟩
    (some 4) (.ok ()) []
    ((sortByConfidence (equipmentInference (asciiLowerCase "supply of bitumen")
      (directMentions asciiLowerCase (asciiLowerCase "supply of bitumen") []))).take 3)
    rfl (by simp)

/-! ## Crawl statistics -/

theorem find_split {α : Type} (filter : α → Bool) (l : List α) (a : α)
    (h : l.find? filter = some a) :
    ∃ pre post, l = pre ++ a :: post ∧ (∀ x ∈ pre, filter x = false) ∧ filter a = true := by
  obtain ⟨pre, post, h1, h2, -⟩ := updateFirst_of_find filter id l a h
  exact ⟨pre, post, h1, h2, List.find?_some h⟩

theorem updateFirst_of_split {α : Type} (filter : α → Bool) (update : α → α)
    (pre post : List α) (a : α) (hpre : ∀ x ∈ pre, filter x = false) (ha : filter a = true) :
    updateFirst filter update (pre ++ a :: post) = pre ++ update a :: post := by
  induction pre with
  | nil => simp [updateFirst, ha]
  | cons b rest ih =>
    have hb := hpre b (List.mem_cons_self _ _)
    simp only [List.cons_append, updateFirst, hb, Bool.false_eq_true, if_false]
    exact congrArg (fun t => b :: t) (ih fun x hx => hpre x (List.mem_cons_of_mem _ hx))

/-- The `catch` path of `scrapeUrl` on a stored source: when the source is not active or
the request fails, the call throws, and of the statistics only `failedCrawls` changes. -/
theorem scrapeUrl_failure (fetch : String → Except String String) (crawledAt returnedAt : ℤ)
    (url domain : String) (db : Database) (source : SourceDocument)
    (hfind : db.sources.find? (fun stored => stored.domain == domain) = some source)
    (hfail : source.crawlStatus ≠ "active" ∨ ∃ error, fetch url = .error error) :
    ∃ pre post error, db.sources = pre ++ source :: post ∧
      (scrapeUrl fetch crawledAt returnedAt url domain db).1.sources
        = pre ++ recordFailure source :: post ∧
      (scrapeUrl fetch crawledAt returnedAt url domain db).2 = .error error := by
  obtain ⟨pre, post, h1, h2, h3⟩ := find_split _ _ _ hfind
  have hupdate := updateFirst_of_split (fun stored : SourceDocument => stored.domain == domain)
    recordFailure pre post source h2 h3
  rw [← h1] at hupdate
  by_cases hactive : source.crawlStatus = "active"
  · rcases hfail with h | ⟨error, herror⟩
    · exact absurd hactive h
    · refine ⟨pre, post, error, h1, ?_, ?_⟩
      · simp only [scrapeUrl, hfind, hactive, herror, hupdate, bne_self_eq_false,
          Bool.false_eq_true, if_false]
      · simp only [scrapeUrl, hfind, hactive, herror, bne_self_eq_false,
          Bool.false_eq_true, if_false]
  · have hne : (source.crawlStatus != "active") = true := by simpa using hactive
    refine ⟨pre, post, "Scraping not allowed for domain: " ++ domain, h1, ?_, ?_⟩
    · simp only [scrapeUrl, hfind, hne, if_true, hupdate]
    · simp only [scrapeUrl, hfind, hne, if_true]

/-- The success path of `scrapeUrl` on a stored active source, in a collection whose
`_id`s are distinct: `totalCrawls` and `successfulCrawls` grow by 1 and `lastCrawled` is
set. -/
theorem scrapeUrl_success (fetch : String → Except String String) (crawledAt returnedAt : ℤ)
    (url domain html : String) (db : Database) (source : SourceDocument)
    (hids : (db.sources.map (·.id)).Nodup)
    (hfind : db.sources.find? (fun stored => stored.domain == domain) = some source)
    (hactive : source.crawlStatus = "active") (hfetch : fetch url = .ok html) :
    ∃ pre post, db.sources = pre ++ source :: post ∧
      scrapeUrl fetch crawledAt returnedAt url domain db
        = ({ db with sources := pre ++ recordSuccess crawledAt source :: post },
            .ok ⟨url, html, returnedAt, domain⟩) := by
  obtain ⟨pre, post, h1, -, -⟩ := find_split _ _ _ hfind
  have hpre : ∀ x ∈ pre, (x.id == source.id) = false := by
    intro x hx
    rw [h1, List.map_append, List.map_cons] at hids
    have hdisj := (List.nodup_append.1 hids).2.2
    rw [beq_eq_false_iff_ne]
    intro e
    exact hdisj (List.mem_map_of_mem (·.id) hx) (by rw [e]; exact List.mem_cons_self _ _)
  have hupdate := updateFirst_of_split (fun stored : SourceDocument => stored.id == source.id)
    (recordSuccess crawledAt) pre post source hpre (by simp)
  rw [← h1] at hupdate
  refine ⟨pre, post, h1, ?_⟩
  simp only [scrapeUrl, hfind, hactive, hfetch, hupdate, bne_self_eq_false,
    Bool.false_eq_true, if_false]

/-- C15, the code at a failing input: the request for a stored active source with 5
crawls, all successful, fails; afterwards `failedCrawls` is 1 and `totalCrawls` is still
5, one less than the sum of the successful and the failed crawls. -/
theorem scrapeUrl_failed_request :
    (scrapeUrl (fun _ => .error "timeout of 10000ms exceeded") 100 101 "https://news.example"
        "news.example" ⟨[], [exampleSource], []⟩).1.sources.map (·.statistics)
      = [⟨5, 5, 1, 0⟩] ∧
    (scrapeUrl (fun _ => .ok "<html></html>") 100 101 "https://news.example"
        "news.example" ⟨[], [exampleSource], []⟩).1.sources.map (·.statistics)
      = [⟨6, 6, 0, 0⟩] := by
  refine ⟨by decide!, by decide!⟩

/-! ## Reconciliation -/

theorem includes_iff_occurs (s sub : String) :
    includes s sub = true ↔ sub.data <:+: s.data := by
  unfold includes
  rw [List.any_eq_true]
  constructor
  · rintro ⟨t, ht, hp⟩
    rw [List.mem_tails] at ht
    rw [ List.isPrefixOf_iff_prefix] at hp
    exact List.infix_iff_prefix_suffix.2 ⟨t, hp, ht⟩
  · intro h
    obtain ⟨t, hp, ht⟩ := List.infix_iff_prefix_suffix.1 h
    exact ⟨t, (List.mem_tails _ _).2 ht, List.isPrefixOf_iff_prefix.2 hp⟩

theorem includes_context (pre mid post sub : String) (h : includes mid sub = true) :
    includes (pre ++ mid ++ post) sub = true := by
  rw [includes_iff_occurs] at h ⊢
  have e : (pre ++ mid ++ post).data = pre.data ++ mid.data ++ post.data := by
    simp [String.data_append]
  rw [e]
  exact h.trans ⟨pre.data, post.data, rfl⟩

theorem asciiLowerCase_append (a b : String) :
    asciiLowerCase (a ++ b) = asciiLowerCase a ++ asciiLowerCase b := by
  unfold asciiLowerCase
  apply String.ext
  simp [String.data_append]

theorem asciiLowerCase_context (pre mid post sub : String)
    (h : includes (asciiLowerCase mid) sub = true) :
    includes (asciiLowerCase (pre ++ mid ++ post)) sub = true := by
  rw [asciiLowerCase_append, asciiLowerCase_append]
  exact includes_context _ _ _ _ h

theorem joinWithSpace_context (texts : List String) (text : String) (h : text ∈ texts) :
    ∃ pre post, joinWithSpace texts = pre ++ text ++ post := by
  induction texts with
  | nil => simp at h
  | cons a rest ih =>
    cases rest with
    | nil =>
      have e : text = a := by simpa using h
      exact ⟨"", "", by simp [joinWithSpace, e]⟩
    | cons b rest =>
      rcases List.mem_cons.1 h with rfl | hrest
      · exact ⟨"", " " ++ joinWithSpace (b :: rest), by simp [joinWithSpace, String.append_assoc]⟩
      · obtain ⟨pre, post, hj⟩ := ih hrest
        refine ⟨a ++ " " ++ pre, post, ?_⟩
        simp only [joinWithSpace] at hj ⊢
        rw [hj]
        simp only [String.append_assoc]

theorem inferProducts_no_industry (toLowerCase : String → String) (text : String) :
    inferProducts toLowerCase text none
      = .ok ((sortByConfidence (equipmentInference (toLowerCase text)
          (directMentions toLowerCase (toLowerCase text) []))).take 3) :=
  inferProducts_of_seeded toLowerCase text none _ rfl

theorem find_updateFirst_same {α : Type} (filter : α → Bool) (update : α → α)
    (hkeep : ∀ x, filter (update x) = filter x) (l : List α) :
    (updateFirst filter update l).find? filter = (l.find? filter).map update := by
  induction l with
  | nil => rfl
  | cons a rest ih =>
    by_cases ha : filter a = true
    · simp [updateFirst, ha, List.find?_cons, hkeep]
    · have ha2 : filter a = false := by simpa using ha
      simp [updateFirst, ha2, List.find?_cons, ih]

theorem find_updateFirst_other {α : Type} (filter other : α → Bool) (update : α → α)
    (hkeep : ∀ x, other (update x) = other x)
    (hdisjoint : ∀ x, filter x = true → other x = false) (l : List α) :
    (updateFirst filter update l).find? other = l.find? other := by
  induction l with
  | nil => rfl
  | cons a rest ih =>
    by_cases ha : filter a = true
    · simp [updateFirst, ha, List.find?_cons, hkeep, hdisjoint a ha]
    · have ha2 : filter a = false := by simpa using ha
      simp [updateFirst, ha2, List.find?_cons, ih]

theorem updateFirst_length {α : Type} (filter : α → Bool) (update : α → α) (l : List α) :
    (updateFirst filter update l).length = l.length := by
  induction l with
  | nil => rfl
  | cons a rest ih =>
    by_cases ha : filter a = true
    · simp [updateFirst, ha]
    · have ha2 : filter a = false := by simpa using ha
      simp [updateFirst, ha2, ih]

/-- C13: when no stored lead has the company name of the candidate, the lead collection
gains exactly one lead, with that company name, status 'new', the new signal as its only
signal, the recommendations `inferProducts` returns for the text of that signal with no
industry, and the score and urgency of that one signal; the `leadsGenerated` of the
source with the `_id` of the given source grows by 1 and no other source changes. When a
stored lead has the company name, no lead is added and the sources are unchanged. -/
theorem createLeadFromSignal_new (toLowerCase : String → String) (clock : CronClock)
    (newId : ℕ) (data : Candidate) (source : SourceDocument) (type : String) (db : Database) :
    (db.leads.find? (fun lead => lead.companyName == companyNameOf data) = none →
      ∃ created,
        (createLeadFromSignal toLowerCase clock newId data source type db).leads
          = db.leads ++ [created] ∧
        created.companyName = companyNameOf data ∧
        created.status = "new" ∧
        created.signals = [signalOf clock.signalAt data source type] ∧
        inferProducts toLowerCase (signalOf clock.signalAt data source type).extractedText none
          = .ok created.productRecommendations ∧
        created.leadScore
          = calculateLeadScore clock.scoreAt {} [signalOf clock.signalAt data source type] ∧
        created.urgency = determineUrgency clock.urgencyAt created.leadScore
          [signalOf clock.signalAt data source type] ∧
        (createLeadFromSignal toLowerCase clock newId data source type db).sources.find?
            (fun stored => stored.id == source.id)
          = (db.sources.find? fun stored => stored.id == source.id).map (fun stored =>
              { stored with statistics := { stored.statistics with
                  leadsGenerated := stored.statistics.leadsGenerated + 1 } }) ∧
        (∀ other, other ≠ source.id →
          (createLeadFromSignal toLowerCase clock newId data source type db).sources.find?
              (fun stored => stored.id == other)
            = db.sources.find? fun stored => stored.id == other) ∧
        (createLeadFromSignal toLowerCase clock newId data source type db).sources.length
          = db.sources.length) ∧
    (∀ existing,
      db.leads.find? (fun lead => lead.companyName == companyNameOf data) = some existing →
        (createLeadFromSignal toLowerCase clock newId data source type db).leads.length
          = db.leads.length ∧
        (createLeadFromSignal toLowerCase clock newId data source type db).sources
          = db.sources) := by
  constructor
  · intro hnone
    unfold createLeadFromSignal
    simp only [hnone, inferProducts_no_industry]
    refine ⟨_, rfl, rfl, rfl, rfl, rfl, rfl, rfl, ?_, ?_, ?_⟩
    · apply find_updateFirst_same
      intro x
      rfl
    · intro other hne
      apply find_updateFirst_other
      · intro x
        rfl
      · intro x hx
        have e : x.id = source.id := by simpa using hx
        rw [beq_eq_false_iff_ne, e]
        exact fun h => hne h.symm
    · exact updateFirst_length _ _ _
  · intro existing hfound
    unfold createLeadFromSignal
    simp only [hfound]
    split
    · exact ⟨rfl, rfl⟩
    · exact ⟨updateFirst_length _ _ _, rfl⟩

/-- Witness of C13: a candidate of an unknown company against an empty lead collection,
and the same candidate against a collection that holds the company. -/
theorem createLeadFromSignal_new_witness :
    (createLeadFromSignal asciiLowerCase ⟨10, 11, 12, 13, 14⟩ 1
        ⟨some "Acme", some "Acme - diesel tender", some "supply", none, none, none⟩
        exampleSource "news" ⟨[], [exampleSource], []⟩).leads.length = 1 ∧
      (createLeadFromSignal asciiLowerCase ⟨10, 11, 12, 13, 14⟩ 1
        ⟨some "Acme", some "Acme - diesel tender", some "supply", none, none, none⟩
        exampleSource "news" ⟨[exampleLead 7 "new"], [exampleSource], []⟩).sources
        = [exampleSource] := by
  have h1 := (createLeadFromSignal_new asciiLowerCase ⟨10, 11, 12, 13, 14⟩ 1
    ⟨some "Acme", some "Acme - diesel tender", some "supply", none, none, none⟩
    exampleSource "news" ⟨[], [exampleSource], []⟩).1 rfl
  have h2 := (createLeadFromSignal_new asciiLowerCase ⟨10, 11, 12, 13, 14⟩ 1
    ⟨some "Acme", some "Acme - diesel tender", some "supply", none, none, none⟩
    exampleSource "news" ⟨[exampleLead 7 "new"], [exampleSource], []⟩).2
    (exampleLead 7 "new") (by decide!)
  obtain ⟨created, hc, -⟩ := h1
  exact ⟨by rw [hc]; rfl, h2.2⟩

/-- C12, counterexample: a candidate of the stored company "Acme" is merged at save time
500; the status of the lead is unchanged, but its `metadata.lastUpdated`, which was 0, is
500 afterwards. -/
theorem createLeadFromSignal_merge_touches_metadata :
    (createLeadFromSignal asciiLowerCase ⟨100, 200, 300, 400, 500⟩ 1
        ⟨some "Acme", some "Acme - diesel tender", some "supply", none, none, none⟩
        exampleSource "news" ⟨[exampleLead 7 "contacted"], [exampleSource], []⟩).leads.map
        (fun lead => (lead.status, lead.metadata.lastUpdated)) = [("contacted", 500)] ∧
      (exampleLead 7 "contacted").metadata.lastUpdated = 0 := by
  refine ⟨by decide!, rfl⟩

/-- C12, amended: when a stored lead `existing` has the company name of the candidate
and the recomputation of the recommendations returns, the stored lead is rewritten in
place: its signals are the previous ones followed by the new signal, its recommendations
are those of `inferProducts` on the texts of all these signals joined by single spaces,
with the industry of the lead, its score and urgency are computed over all these
signals, its `metadata.lastUpdated` is the time of the save, and every other field, every
other lead and every source is unchanged. A catalog keyword that occurs in an older
signal is among the matched keywords of the joined text, for a lower-casing under which
an occurrence of a keyword survives text added before and after. -/
theorem createLeadFromSignal_merge (toLowerCase : String → String) (clock : CronClock)
    (newId : ℕ) (data : Candidate) (source : SourceDocument) (type : String) (db : Database)
    (existing : LeadDocument) (recs : List Recommendation)
    (hids : (db.leads.map (·.id)).Nodup)
    (hfind : db.leads.find? (fun lead => lead.companyName == companyNameOf data) = some existing)
    (hrecs : inferProducts toLowerCase
        (allSignalText (existing.signals ++ [signalOf clock.signalAt data source type]))
        (existing.companyDetails.bind (·.industry)) = .ok recs) :
    (∃ pre post, db.leads = pre ++ existing :: post ∧
      (createLeadFromSignal toLowerCase clock newId data source type db).leads
        = pre ++ { existing with
            signals := existing.signals ++ [signalOf clock.signalAt data source type]
            productRecommendations := recs
            leadScore := calculateLeadScore clock.scoreAt existing.toLead
              (existing.signals ++ [signalOf clock.signalAt data source type])
            urgency := determineUrgency clock.urgencyAt
              (calculateLeadScore clock.scoreAt existing.toLead
                (existing.signals ++ [signalOf clock.signalAt data source type]))
              (existing.signals ++ [signalOf clock.signalAt data source type])
            metadata := { existing.metadata with lastUpdated := clock.saveAt } } :: post) ∧
    (createLeadFromSignal toLowerCase clock newId data source type db).sources = db.sources ∧
    ((∀ entry ∈ catalogProducts, ∀ kw ∈ entry.2.2.keywords, ∀ pre mid post : String,
        includes (toLowerCase mid) (toLowerCase kw) = true →
        includes (toLowerCase (pre ++ mid ++ post)) (toLowerCase kw) = true) →
      ∀ s ∈ existing.signals, ∀ entry ∈ catalogProducts, ∀ kw ∈ entry.2.2.keywords,
        includes (toLowerCase s.extractedText) (toLowerCase kw) = true →
        ∃ r ∈ directMentions toLowerCase (toLowerCase (allSignalText
            (existing.signals ++ [signalOf clock.signalAt data source type]))) [],
          r.product = entry.2.1 ∧ kw ∈ r.keywords) := by
  refine ⟨?_, ?_, ?_⟩
  · obtain ⟨pre, post, h1, -, -⟩ := find_split _ _ _ hfind
    have hpre : ∀ x ∈ pre, (x.id == existing.id) = false := by
      intro x hx
      rw [h1, List.map_append, List.map_cons] at hids
      have hdisj := (List.nodup_append.1 hids).2.2
      rw [beq_eq_false_iff_ne]
      intro e
      exact hdisj (List.mem_map_of_mem (·.id) hx) (by rw [e]; exact List.mem_cons_self _ _)
    refine ⟨pre, post, h1, ?_⟩
    unfold createLeadFromSignal
    simp only [hfind, hrecs, saveLead]
    rw [h1, updateFirst_of_split _ _ pre post existing hpre (by simp)]
    rfl
  · unfold createLeadFromSignal
    simp only [hfind, hrecs]
  · intro hctx s hs entry hentry kw hkw hocc
    have hmem : s.extractedText ∈ (existing.signals ++
        [signalOf clock.signalAt data source type]).map (·.extractedText) :=
      List.mem_map_of_mem _ (List.mem_append_left _ hs)
    obtain ⟨pre, post, hjoin⟩ := joinWithSpace_context _ _ hmem
    have hall : includes (toLowerCase (allSignalText
        (existing.signals ++ [signalOf clock.signalAt data source type])))
        (toLowerCase kw) = true := by
      unfold allSignalText
      rw [hjoin]
      exact hctx entry hentry kw hkw pre _ post hocc
    have hmatched : kw ∈ matchedKeywords toLowerCase (toLowerCase (allSignalText
        (existing.signals ++ [signalOf clock.signalAt data source type]))) entry.2.2 := by
      unfold matchedKeywords
      exact List.mem_filter.2 ⟨hkw, hall⟩
    refine ⟨directRecommendation toLowerCase _ entry, ?_, rfl, hmatched⟩
    rw [directMentions_eq, List.nil_append]
    refine List.mem_map_of_mem _ (List.mem_filter.2 ⟨hentry, ?_⟩)
    have hpos := List.length_pos_of_mem hmatched
    simpa using hpos

/-- Witness of C12: a second article about the stored company "Acme", whose first signal
mentions diesel; after the merge "diesel" is still a matched keyword of HSD. -/
theorem createLeadFromSignal_merge_witness :
    ∃ r ∈ directMentions asciiLowerCase (asciiLowerCase (allSignalText
        ((({ exampleLead 7 "contacted" with
            signals := [⟨"news.example", "", "news", "Acme buys diesel", 50, []⟩] } :
              LeadDocument).signals) ++
          [signalOf 100 ⟨some "Acme", some "Acme - road works", some "new contract", none,
            none, none⟩ exampleSource "news"]))) [],
      r.product = "HSD" ∧ "diesel" ∈ r.keywords :=
  (createLeadFromSignal_merge asciiLowerCase ⟨100, 200, 300, 400, 500⟩ 1
    ⟨some "Acme", some "Acme - road works", some "new contract", none, none, none⟩
    exampleSource "news"
    ⟨[{ exampleLead 7 "contacted" with
        signals := [⟨"news.example", "", "news", "Acme buys diesel", 50, []⟩] }],
      [exampleSource], []⟩
    { exampleLead 7 "contacted" with
      signals := [⟨"news.example", "", "news", "Acme buys diesel", 50, []⟩] }
    ((sortByConfidence (equipmentInference
        (asciiLowerCase "Acme buys diesel Acme - road works new contract")
        (directMentions asciiLowerCase
          (asciiLowerCase "Acme buys diesel Acme - road works new contract") []))).take 3)
    (by decide) (by decide!) (by decide!)).2.2
    (fun _ _ _ _ pre mid post h => asciiLowerCase_context pre mid post _ h)
    ⟨"news.example", "", "news", "Acme buys diesel", 50, []⟩ (by simp)
    ("Industrial Fuels", "HSD",
      ⟨"High Speed Diesel", ["diesel", "hsd", "high speed diesel"],
        ["trucks", "buses", "generators", "heavy vehicles", "captive power"]⟩)
    (by decide) "diesel" (by decide) (by decide)

/-! ## Properties of the extraction -/

theorem orElse_some (a b : Option String) (s : String) (h : a = some s) (hs : s ≠ "") :
    orElse a b = some s := by
  subst h
  simp [orElse, hs]

theorem orElse_empty (a b : Option String) (h : a = none ∨ a = some "") : orElse a b = b := by
  rcases h with rfl | rfl <;> simp [orElse]

/-- C24: the company identity of a candidate is its organization when that is present
and not empty; otherwise the part of the title before the first '-', trimmed, when the
title is present and that part is not empty; otherwise 'Unknown Company'. It is never
empty. -/
theorem companyNameOf_cases (data : Candidate) :
    (∀ organization, data.organization = some organization → organization ≠ "" →
      companyNameOf data = organization) ∧
    (data.organization = none ∨ data.organization = some "" →
      ∀ title, data.title = some title → titleCompany title ≠ "" →
        companyNameOf data = titleCompany title) ∧
    (data.organization = none ∨ data.organization = some "" →
      (data.title = none ∨ ∃ title, data.title = some title ∧ titleCompany title = "") →
        companyNameOf data = "Unknown Company") ∧
    companyNameOf data ≠ "" := by
  have h1 : ∀ organization, data.organization = some organization → organization ≠ "" →
      companyNameOf data = organization := by
    intro o ho hne
    unfold companyNameOf
    rw [orElse_some _ _ o ho hne]
    rfl
  have h2 : data.organization = none ∨ data.organization = some "" →
      ∀ title, data.title = some title → titleCompany title ≠ "" →
        companyNameOf data = titleCompany title := by
    intro ho t ht hne
    unfold companyNameOf
    rw [orElse_empty _ _ ho, ht]
    change (orElse (some (titleCompany t)) (some "Unknown Company")).getD "Unknown Company" = _
    rw [orElse_some _ _ (titleCompany t) rfl hne]
    rfl
  have h3 : data.organization = none ∨ data.organization = some "" →
      (data.title = none ∨ ∃ title, data.title = some title ∧ titleCompany title = "") →
        companyNameOf data = "Unknown Company" := by
    intro ho ht
    unfold companyNameOf
    rw [orElse_empty _ _ ho]
    rcases ht with ht | ⟨t, ht, he⟩
    · rw [ht]
      rfl
    · rw [ht]
      change (orElse (some (titleCompany t)) (some "Unknown Company")).getD "Unknown Company" = _
      rw [orElse_empty _ _ (Or.inr (congrArg some he))]
      rfl
  refine ⟨h1, h2, h3, ?_⟩
  by_cases ho : data.organization = none ∨ data.organization = some ""
  · by_cases ht : data.title = none ∨ ∃ title, data.title = some title ∧ titleCompany title = ""
    · rw [h3 ho ht]
      decide
    · cases htitle : data.title with
      | none => exact absurd (Or.inl htitle) ht
      | some t =>
        have hne : titleCompany t ≠ "" := fun he => ht (Or.inr ⟨t, htitle, he⟩)
        rw [h2 ho t htitle hne]
        exact hne
  · cases horg : data.organization with
    | none => exact absurd (Or.inl horg) ho
    | some o =>
      have hne : o ≠ "" := fun he => ho (Or.inr (by rw [horg, he]))
      rw [h1 o horg hne]
      exact hne

/-- Witness of C24: the title "Acme Steel - new furnace" with no organization. -/
theorem companyNameOf_cases_witness :
    companyNameOf ⟨none, some "Acme Steel - new furnace", none, none, none, none⟩
      = titleCompany "Acme Steel - new furnace" :=
  (companyNameOf_cases ⟨none, some "Acme Steel - new furnace", none, none, none, none⟩).2.1
    (Or.inl rfl) "Acme Steel - new furnace" rfl (by decide)

theorem foldl_push_if {α β : Type} (c : α → Bool) (g : α → β) (l : List α) (acc : List β) :
    l.foldl (fun acc a => if c a = true then acc ++ [g a] else acc) acc
      = acc ++ (l.filter c).map g := by
  induction l generalizing acc with
  | nil => simp
  | cons a rest ih =>
    rw [List.foldl_cons, ih]
    by_cases h : c a = true
    · simp [h, List.filter_cons]
    · simp [h, List.filter_cons]

theorem extractProductKeywords_eq (toLowerCase : String → String) (text : String) :
    extractProductKeywords toLowerCase text
      = PRODUCT_KEYWORDS.filter fun keyword => includes (toLowerCase text) keyword := by
  unfold extractProductKeywords
  have := foldl_push_if (fun keyword => includes (toLowerCase text) keyword) id
    PRODUCT_KEYWORDS []
  simpa using this

theorem articles_foldl_eq (toLowerCase : String → String) (found : List Article)
    (articles : List Article) :
    found.foldl (fun articles found =>
        let article : Article :=
          { found with keywords :=
              extractProductKeywords toLowerCase (found.title ++ " " ++ found.description) }
        if article.keywords.length > 0 then articles ++ [article] else articles) articles
      = articles ++ (found.filter fun a =>
          decide (extractProductKeywords toLowerCase (a.title ++ " " ++ a.description) ≠ [])).map
            (withKeywords toLowerCase) := by
  have := foldl_push_if
    (fun a : Article =>
      decide (extractProductKeywords toLowerCase (a.title ++ " " ++ a.description) ≠ []))
    (withKeywords toLowerCase) found articles
  rw [← this]
  congr 1
  funext acc a
  simp only [withKeywords, decide_eq_true_eq, gt_iff_lt, List.length_pos]

/-- C25: `extractProductKeywords` returns the terms of the 19-term vocabulary that occur
in the lower-cased text, in vocabulary order and each once; and when the page of a news
source is fetched, `scrapeNewsSource` returns, in extraction order, exactly the extracted
articles whose title and description, joined by a space, give a non-empty keyword list,
each with that list as its keywords. When the fetch fails it returns no article. -/
theorem extraction_filter (toLowerCase : String → String)
    (hostname : String → Except String String) (fetch : String → Except String String)
    (extract : String → List Article) (crawledAt returnedAt : ℤ) (sourceUrl text : String)
    (db : Database) :
    (extractProductKeywords toLowerCase text
        = PRODUCT_KEYWORDS.filter fun keyword => includes (toLowerCase text) keyword) ∧
    PRODUCT_KEYWORDS.length = 19 ∧
    (extractProductKeywords toLowerCase text).Nodup ∧
    (∀ domain db1 scraped, hostname sourceUrl = .ok domain →
      scrapeUrl fetch crawledAt returnedAt sourceUrl domain db = (db1, .ok scraped) →
      scrapeNewsSource toLowerCase hostname fetch extract crawledAt returnedAt sourceUrl db
        = (db1, ((extract scraped.html).filter fun a =>
            decide (extractProductKeywords toLowerCase (a.title ++ " " ++ a.description)
              ≠ [])).map fun a =>
            { a with keywords :=
                extractProductKeywords toLowerCase (a.title ++ " " ++ a.description) })) ∧
    ((∀ domain, hostname sourceUrl ≠ .ok domain) ∨
      (∃ domain, hostname sourceUrl = .ok domain ∧
        ∀ scraped, (scrapeUrl fetch crawledAt returnedAt sourceUrl domain db).2 ≠ .ok scraped) →
      (scrapeNewsSource toLowerCase hostname fetch extract crawledAt returnedAt sourceUrl
        db).2 = []) := by
  refine ⟨extractProductKeywords_eq toLowerCase text, rfl, ?_, ?_, ?_⟩
  · rw [extractProductKeywords_eq]
    exact List.Nodup.filter _ (by decide)
  · intro domain db1 scraped hhost hscrape
    unfold scrapeNewsSource
    simp only [hhost, hscrape]
    rw [articles_foldl_eq, List.nil_append]
    rfl
  · rintro (h | ⟨domain, hhost, h⟩)
    · unfold scrapeNewsSource
      cases hh : hostname sourceUrl with
      | error e => rfl
      | ok domain => exact absurd hh (h domain)
    · unfold scrapeNewsSource
      simp only [hhost]
      rcases hs : scrapeUrl fetch crawledAt returnedAt sourceUrl domain db with ⟨db1, r⟩
      cases r with
      | error e => rfl
      | ok scraped =>
        rw [hs] at h
        exact absurd rfl (h scraped)

/-- Witness of C25: a fetched page with two articles, of which the first mentions
bitumen. -/
theorem extraction_filter_witness :
    scrapeNewsSource asciiLowerCase (fun _ => .ok "news.example") (fun _ => .ok "<html/>")
        (fun _ => exampleArticles) 100 101 "https://news.example" ⟨[], [exampleSource], []⟩
      = (⟨[], [recordSuccess 100 exampleSource], []⟩,
          (exampleArticles.filter fun a =>
              decide (extractProductKeywords asciiLowerCase (a.title ++ " " ++ a.description)
                ≠ [])).map fun a =>
            { a with keywords :=
                extractProductKeywords asciiLowerCase (a.title ++ " " ++ a.description) }) :=
  (extraction_filter asciiLowerCase (fun _ => .ok "news.example") (fun _ => .ok "<html/>")
      (fun _ => exampleArticles) 100 101 "https://news.example" ""
      ⟨[], [exampleSource], []⟩).2.2.2.1
    "news.example" ⟨[], [recordSuccess 100 exampleSource], []⟩
    ⟨"https://news.example", "<html/>", 101, "news.example"⟩ rfl (by decide!)

/-! ## One run of `inferProducts`, step by step -/

theorem direct_steps_eq (toLowerCase : String → String) (normalizedText : String)
    (entries : List (String × String × ProductData)) (recs : List Recommendation) :
    (entries.map InferenceStep.direct).foldl (applyStep toLowerCase normalizedText) recs
      = recs ++ (entries.filter fun entry =>
          decide ((matchedKeywords toLowerCase normalizedText entry.2.2).length > 0)).map
            (directRecommendation toLowerCase normalizedText) := by
  rw [List.foldl_map]
  have := foldl_push_if
    (fun entry : String × String × ProductData =>
      decide ((matchedKeywords toLowerCase normalizedText entry.2.2).length > 0))
    (directRecommendation toLowerCase normalizedText) entries recs
  rw [← this]
  congr 1
  funext acc entry
  simp only [applyStep, decide_eq_true_eq]

theorem industry_steps_eq (toLowerCase : String → String) (normalizedText name : String)
    (codes : List String) (recs : List Recommendation) :
    (codes.map (InferenceStep.industry name)).foldl (applyStep toLowerCase normalizedText) recs
      = codes.foldl (industryStep name) recs := by
  rw [List.foldl_map]
  rfl

theorem equipment_steps_eq (toLowerCase : String → String) (normalizedText : String)
    (table : List (String × List String)) (recs : List Recommendation) :
    (((table.filter fun entry => includes normalizedText entry.1).flatMap
        fun entry => entry.2.map (InferenceStep.equipment entry.1)).foldl
      (applyStep toLowerCase normalizedText) recs)
      = table.foldl (fun recs (entry : String × List String) =>
          if includes normalizedText entry.1 then entry.2.foldl (equipmentStep entry.1) recs
          else recs) recs := by
  induction table generalizing recs with
  | nil => rfl
  | cons entry rest ih =>
    rw [List.foldl_cons, List.filter_cons]
    by_cases h : includes normalizedText entry.1 = true
    · rw [if_pos h, if_pos h, List.flatMap_cons, List.foldl_append, ih, List.foldl_map]
      rfl
    · rw [if_neg h, if_neg h, ih]

/-- The array `inferProducts` sorts is the array its steps build one after another. -/
theorem gatherRecommendations_steps (toLowerCase : String → String) (text : String)
    (industry : Option String) (recs : List Recommendation)
    (h : gatherRecommendations toLowerCase text industry = .ok recs) :
    (inferenceSteps toLowerCase text industry).foldl
      (applyStep toLowerCase (toLowerCase text)) [] = recs := by
  unfold gatherRecommendations at h
  dsimp only at h
  have hdirect := direct_steps_eq toLowerCase (toLowerCase text) catalogProducts []
  rw [← directMentions_eq] at hdirect
  have hequip := equipment_steps_eq toLowerCase (toLowerCase text) EQUIPMENT_PRODUCT_MAP
  unfold inferenceSteps industryInference industrySteps equipmentSteps
  unfold industryInference at h
  cases industry with
  | none =>
    dsimp only at h ⊢
    cases h
    rw [List.append_nil, List.foldl_append, hdirect, hequip]
    rfl
  | some name =>
    dsimp only at h ⊢
    by_cases hname : name = ""
    · rw [if_pos hname] at h
      simp only [if_pos hname]
      cases h
      rw [List.append_nil, List.foldl_append, hdirect, hequip]
      rfl
    · rw [if_neg hname] at h
      simp only [if_neg hname]
      cases hcodes : industryProductsOf (toLowerCase name) with
      | error e => rw [hcodes] at h; cases h
      | ok codes =>
        rw [hcodes] at h
        dsimp only at h ⊢
        cases h
        rw [List.foldl_append, List.foldl_append, hdirect, industry_steps_eq, hequip]
        rfl

theorem grows_refl (recs : List Recommendation) : Grows recs recs :=
  ⟨recs, [], (List.append_nil _).symm, List.forall₂_same.2 fun _ _ => ⟨rfl, le_refl _⟩⟩

theorem grows_push (recs : List Recommendation) (r : Recommendation) : Grows recs (recs ++ [r]) :=
  ⟨recs, [r], rfl, List.forall₂_same.2 fun _ _ => ⟨rfl, le_refl _⟩⟩

theorem bounded_push (recs : List Recommendation) (r : Recommendation) (h : Bounded recs)
    (hr : 1 / 2 ≤ r.confidence ∧ r.confidence ≤ 19 / 20) : Bounded (recs ++ [r]) := by
  intro x hx
  rcases List.mem_append.1 hx with hx | hx
  · exact h x hx
  · rw [List.mem_singleton] at hx
    rw [hx]; exact hr

theorem boost_bounded (equipment productCode : String) (recs : List Recommendation)
    (h : Bounded recs) : Bounded (boost equipment productCode recs) := by
  induction recs with
  | nil => exact h
  | cons r rest ih =>
    have hr := h r (List.mem_cons_self _ _)
    have hrest : Bounded rest := fun x hx => h x (List.mem_cons_of_mem _ hx)
    unfold boost
    split
    · intro x hx
      rcases List.mem_cons.1 hx with rfl | hx
      · dsimp only
        constructor
        · refine le_min ?_ ?_
          · norm_num
          · linarith [hr.1]
        · exact le_trans (min_le_left _ _) (by norm_num)
      · exact hrest x hx
    · intro x hx
      rcases List.mem_cons.1 hx with rfl | hx
      · exact hr
      · exact ih hrest x hx

theorem boost_grows (equipment productCode : String) (recs : List Recommendation)
    (h : Bounded recs) :
    List.Forall₂ (fun old new => new.product = old.product ∧ old.confidence ≤ new.confidence)
      recs (boost equipment productCode recs) := by
  induction recs with
  | nil => exact List.Forall₂.nil
  | cons r rest ih =>
    have hr := h r (List.mem_cons_self _ _)
    have hrest : Bounded rest := fun x hx => h x (List.mem_cons_of_mem _ hx)
    unfold boost
    split
    · refine List.Forall₂.cons ⟨rfl, ?_⟩ (List.forall₂_same.2 fun _ _ => ⟨rfl, le_refl _⟩)
      dsimp only
      exact le_min (by linarith [hr.2]) (by linarith)
    · exact List.Forall₂.cons ⟨rfl, le_refl _⟩ (ih hrest)

theorem directRecommendation_bounded (toLowerCase : String → String) (normalizedText : String)
    (entry : String × String × ProductData)
    (h : (matchedKeywords toLowerCase normalizedText entry.2.2).length > 0) :
    1 / 2 ≤ (directRecommendation toLowerCase normalizedText entry).confidence ∧
      (directRecommendation toLowerCase normalizedText entry).confidence ≤ 19 / 20 := by
  have h1 : (1 : ℚ) ≤ ((matchedKeywords toLowerCase normalizedText entry.2.2).length : ℚ) := by
    exact_mod_cast h
  unfold directRecommendation
  dsimp only
  constructor
  · exact le_min (by norm_num) (by linarith)
  · exact le_trans (min_le_left _ _) (by norm_num)

theorem applyStep_bounded (toLowerCase : String → String) (normalizedText : String)
    (recs : List Recommendation) (step : InferenceStep) (h : Bounded recs) :
    Bounded (applyStep toLowerCase normalizedText recs step) := by
  cases step with
  | direct entry =>
    dsimp only [applyStep]
    split
    · next hlen => exact bounded_push _ _ h (directRecommendation_bounded _ _ _ hlen)
    · exact h
  | industry name productCode =>
    dsimp only [applyStep]
    unfold industryStep
    split
    · exact h
    · split
      · exact bounded_push _ _ h (by norm_num)
      · exact h
  | equipment phrase productCode =>
    dsimp only [applyStep]
    unfold equipmentStep
    split
    · exact boost_bounded _ _ _ h
    · split
      · exact bounded_push _ _ h (by norm_num)
      · exact h

theorem applyStep_grows (toLowerCase : String → String) (normalizedText : String)
    (recs : List Recommendation) (step : InferenceStep) (h : Bounded recs) :
    Grows recs (applyStep toLowerCase normalizedText recs step) := by
  cases step with
  | direct entry =>
    dsimp only [applyStep]
    split
    · exact grows_push _ _
    · exact grows_refl _
  | industry name productCode =>
    dsimp only [applyStep]
    unfold industryStep
    split
    · exact grows_refl _
    · split
      · exact grows_push _ _
      · exact grows_refl _
  | equipment phrase productCode =>
    dsimp only [applyStep]
    unfold equipmentStep
    split
    · exact ⟨_, [], (List.append_nil _).symm, boost_grows _ _ _ h⟩
    · split
      · exact grows_push _ _
      · exact grows_refl _

theorem steps_bounded (toLowerCase : String → String) (normalizedText : String)
    (steps : List InferenceStep) (recs : List Recommendation) (h : Bounded recs) :
    Bounded (steps.foldl (applyStep toLowerCase normalizedText) recs) := by
  induction steps generalizing recs with
  | nil => exact h
  | cons step rest ih => exact ih _ (applyStep_bounded _ _ _ _ h)

theorem foldl_take_succ {α β : Type} (f : β → α → β) (init : β) (l : List α) (n : ℕ)
    (a : α) (h : l.get? n = some a) :
    (l.take (n + 1)).foldl f init = f ((l.take n).foldl f init) a := by
  induction l generalizing init n with
  | nil => simp at h
  | cons b rest ih =>
    cases n with
    | zero =>
      have : b = a := by simpa using h
      simp [this]
    | succ n =>
      rw [List.take_succ_cons, List.foldl_cons, ih _ _ (by simpa using h)]
      simp

theorem foldl_take_all {α β : Type} (f : β → α → β) (init : β) (l : List α) (n : ℕ)
    (h : l.get? n = none) :
    (l.take (n + 1)).foldl f init = (l.take n).foldl f init := by
  have hlen : l.length ≤ n := by simpa using List.get?_eq_none.1 h
  rw [List.take_of_length_le hlen, List.take_of_length_le (Nat.le_succ_of_le hlen)]

/-- C23: the array that `inferProducts` sorts is the array its steps build one after
another; the array after any number of steps holds only confidences in [0, 1] (they are
from 0.5 to 0.95); and each step keeps every entry at its place, for the same product and
with a confidence that is equal or greater, adding new entries only behind them. The
returned recommendations are entries of the final array. -/
theorem confidence_never_decreases (toLowerCase : String → String) (text : String)
    (industry : Option String) :
    (∀ recs, gatherRecommendations toLowerCase text industry = .ok recs →
      (inferenceSteps toLowerCase text industry).foldl
        (applyStep toLowerCase (toLowerCase text)) [] = recs) ∧
    (∀ result, inferProducts toLowerCase text industry = .ok result →
      ∀ r ∈ result, 0 ≤ r.confidence ∧ r.confidence ≤ 1) ∧
    ∀ n,
      (∀ r ∈ stateAfter toLowerCase text industry n, 0 ≤ r.confidence ∧ r.confidence ≤ 1) ∧
      ∃ kept added,
        stateAfter toLowerCase text industry (n + 1) = kept ++ added ∧
        List.Forall₂
          (fun old new => new.product = old.product ∧ old.confidence ≤ new.confidence)
          (stateAfter toLowerCase text industry n) kept := by
  have hb : ∀ n, Bounded (stateAfter toLowerCase text industry n) := fun n =>
    steps_bounded _ _ _ _ (fun _ h => absurd h (List.not_mem_nil _))
  refine ⟨gatherRecommendations_steps toLowerCase text industry, ?_, fun n => ⟨?_, ?_⟩⟩
  · intro result h r hr
    obtain ⟨recs, hrecs, -, -, hmem, -⟩ := inferProducts_top3 _ _ _ _ h
    have hsteps := gatherRecommendations_steps _ _ _ _ hrecs
    have hbound : Bounded recs := by
      rw [← hsteps]
      exact steps_bounded _ _ _ _ (fun _ h => absurd h (List.not_mem_nil _))
    have := hbound r (hmem r hr)
    constructor <;> linarith [this.1, this.2]
  · intro r hr
    have := hb n r hr
    constructor <;> linarith [this.1, this.2]
  · cases hstep : (inferenceSteps toLowerCase text industry).get? n with
    | none =>
      have hsucc : stateAfter toLowerCase text industry (n + 1)
          = stateAfter toLowerCase text industry n := foldl_take_all _ _ _ _ hstep
      rw [hsucc]
      exact grows_refl _
    | some step =>
      have hsucc : stateAfter toLowerCase text industry (n + 1)
          = applyStep toLowerCase (toLowerCase text) (stateAfter toLowerCase text industry n)
              step := foldl_take_succ _ _ _ _ _ hstep
      rw [hsucc]
      exact applyStep_grows _ _ _ _ (hb n)

/-- Witness of C23: the steps for "diesel generator" build the array that is sorted. -/
theorem confidence_never_decreases_witness :
    (inferenceSteps asciiLowerCase "diesel generator" none).foldl
        (applyStep asciiLowerCase (asciiLowerCase "diesel generator")) []
      = equipmentInference (asciiLowerCase "diesel generator")
          (directMentions asciiLowerCase (asciiLowerCase "diesel generator") []) :=
  (confidence_never_decreases asciiLowerCase "diesel generator" none).1 _ rfl

/-! ## Product codes of the result -/

theorem findProduct_listed (productCode : String) (found : FoundProduct)
    (h : findProduct productCode = some found) :
    ∃ productData, (found.category, productCode, productData) ∈ catalogProducts ∧
      found.name = productData.name := by
  unfold findProduct at h
  obtain ⟨⟨category, products⟩, hmem, hfound⟩ := List.exists_of_findSome?_eq_some h
  dsimp only at hfound
  cases hlook : products.lookup productCode with
  | none => rw [hlook] at hfound; cases hfound
  | some productData =>
    rw [hlook] at hfound
    rw [Option.map_some', Option.some.injEq] at hfound
    subst hfound
    refine ⟨productData, ?_, rfl⟩
    unfold catalogProducts
    rw [List.mem_flatMap]
    exact ⟨(category, products), hmem,
      List.mem_map.2 ⟨(productCode, productData), lookup_mem _ _ _ hlook, rfl⟩⟩

theorem listed_push (recs : List Recommendation) (r : Recommendation) (h : Listed recs)
    (hr : ∃ productData, (r.category, r.product, productData) ∈ catalogProducts ∧
      r.productName = productData.name) : Listed (recs ++ [r]) := by
  intro x hx
  rcases List.mem_append.1 hx with hx | hx
  · exact h x hx
  · rw [List.mem_singleton] at hx
    rw [hx]; exact hr

theorem boost_listed (equipment productCode : String) (recs : List Recommendation)
    (h : Listed recs) : Listed (boost equipment productCode recs) := by
  induction recs with
  | nil => exact h
  | cons r rest ih =>
    have hr := h r (List.mem_cons_self _ _)
    have hrest : Listed rest := fun x hx => h x (List.mem_cons_of_mem _ hx)
    unfold boost
    split
    · intro x hx
      rcases List.mem_cons.1 hx with rfl | hx
      · exact hr
      · exact hrest x hx
    · intro x hx
      rcases List.mem_cons.1 hx with rfl | hx
      · exact hr
      · exact ih hrest x hx

theorem directMentions_listed (toLowerCase : String → String) (normalizedText : String) :
    Listed (directMentions toLowerCase normalizedText []) := by
  rw [directMentions_eq, List.nil_append]
  intro r hr
  obtain ⟨entry, hentry, rfl⟩ := List.mem_map.1 hr
  exact ⟨entry.2.2, (List.mem_filter.1 hentry).1, rfl⟩

theorem industryStep_listed (industry productCode : String) (recs : List Recommendation)
    (h : Listed recs) : Listed (industryStep industry recs productCode) := by
  unfold industryStep
  split
  · exact h
  · split
    · next productData hprod => exact listed_push _ _ h (findProduct_listed _ _ hprod)
    · exact h

theorem equipmentStep_listed (equipment productCode : String) (recs : List Recommendation)
    (h : Listed recs) : Listed (equipmentStep equipment recs productCode) := by
  unfold equipmentStep
  split
  · exact boost_listed _ _ _ h
  · split
    · next productData hprod => exact listed_push _ _ h (findProduct_listed _ _ hprod)
    · exact h

theorem foldl_listed (step : List Recommendation → String → List Recommendation)
    (hstep : ∀ recs c, Listed recs → Listed (step recs c))
    (codes : List String) (recs : List Recommendation) (h : Listed recs) :
    Listed (codes.foldl step recs) := by
  induction codes generalizing recs with
  | nil => exact h
  | cons c rest ih => exact ih _ (hstep recs c h)

theorem gatherRecommendations_listed (toLowerCase : String → String) (text : String)
    (industry : Option String) (recs : List Recommendation)
    (h : gatherRecommendations toLowerCase text industry = .ok recs) : Listed recs := by
  unfold gatherRecommendations at h
  dsimp only at h
  split at h
  · cases h
  · next seeded hseed =>
    cases h
    have hseeded : Listed seeded := by
      unfold industryInference at hseed
      split at hseed
      · cases hseed; exact directMentions_listed _ _
      · split at hseed
        · cases hseed; exact directMentions_listed _ _
        · split at hseed
          · cases hseed
          · cases hseed
            exact foldl_listed _ (fun recs c => industryStep_listed _ c recs) _ _
              (directMentions_listed _ _)
    unfold equipmentInference
    generalize EQUIPMENT_PRODUCT_MAP = table
    clear hseed
    induction table generalizing seeded with
    | nil => exact hseeded
    | cons entry rest ih =>
      obtain ⟨equipment, products⟩ := entry
      rw [List.foldl_cons]
      apply ih
      dsimp only
      split
      · exact foldl_listed _ (fun recs c => equipmentStep_listed _ c recs) _ _ hseeded
      · exact hseeded

/-- C29: whenever `inferProducts` returns, no two returned recommendations have the same
product code, and each carries a product code of the catalog together with the category
(and the name) under which the catalog lists that code; the catalog lists every code
once. -/
theorem inferProducts_catalog (toLowerCase : String → String) (text : String)
    (industry : Option String) (result : List Recommendation)
    (h : inferProducts toLowerCase text industry = .ok result) :
    (result.map (·.product)).Nodup ∧
    (∀ r ∈ result, ∃ productData,
      (r.category, r.product, productData) ∈ catalogProducts ∧
        r.productName = productData.name) ∧
    (catalogProducts.map fun entry => entry.2.1).Nodup := by
  unfold inferProducts at h
  split at h
  · cases h
  · next recs hrecs =>
    cases h
    have hperm : (sortByConfidence recs).Perm recs := List.perm_insertionSort byConfidence recs
    refine ⟨?_, ?_, catalog_codes_nodup⟩
    · have hnd := gatherRecommendations_nodup _ _ _ _ hrecs
      have : ((sortByConfidence recs).map (·.product)).Nodup :=
        (hperm.map _).nodup_iff.2 hnd
      exact ((List.take_sublist 3 _).map _).nodup this
    · intro r hr
      exact gatherRecommendations_listed _ _ _ _ hrecs r (hperm.subset (List.mem_of_mem_take hr))

/-- Witness of C29: the recommendations for "diesel generator for captive power" in the
power industry. -/
theorem inferProducts_catalog_witness :
    (((sortByConfidence (equipmentInference (asciiLowerCase "diesel generator for captive power")
      ((INDUSTRY_PRODUCT_MAP.lookup "power").getD [] |>.foldl (industryStep "Power")
        (directMentions asciiLowerCase
          (asciiLowerCase "diesel generator for captive power") [])))).take 3).map
        (·.product)).Nodup :=
  (inferProducts_catalog asciiLowerCase "diesel generator for captive power" (some "Power") _
    rfl).1

/-! ## Ties between recommendations -/

theorem matchedKeywords_congr (f g : String → String) (normalizedText : String)
    (productData : ProductData) (h : ∀ kw ∈ productData.keywords, f kw = g kw) :
    matchedKeywords f normalizedText productData
      = matchedKeywords g normalizedText productData := by
  unfold matchedKeywords
  apply List.filter_congr
  intro kw hkw
  rw [h kw hkw]

/-- The first pass reads the lower-casing of the catalog keywords only. -/
theorem directMentions_congr (f g : String → String) (normalizedText : String)
    (h : ∀ entry ∈ catalogProducts, ∀ kw ∈ entry.2.2.keywords, f kw = g kw) :
    directMentions f normalizedText [] = directMentions g normalizedText [] := by
  rw [directMentions_eq, directMentions_eq]
  have hm : ∀ entry ∈ catalogProducts,
      matchedKeywords f normalizedText entry.2.2 = matchedKeywords g normalizedText entry.2.2 :=
    fun entry hentry => matchedKeywords_congr f g normalizedText entry.2.2 (h entry hentry)
  have hfilter : (catalogProducts.filter fun entry =>
        decide ((matchedKeywords f normalizedText entry.2.2).length > 0))
      = catalogProducts.filter fun entry =>
        decide ((matchedKeywords g normalizedText entry.2.2).length > 0) := by
    apply List.filter_congr
    intro entry hentry
    rw [hm entry hentry]
  rw [hfilter]
  congr 1
  apply List.map_congr_left
  intro entry hentry
  have := hm entry (List.mem_filter.1 hentry).1
  simp only [directRecommendation, this]

theorem asciiLowerCase_keywords :
    ∀ entry ∈ catalogProducts, ∀ kw ∈ entry.2.2.keywords, asciiLowerCase kw = kw := by decide

/-- C22: `inferProducts("diesel generator for captive power")` without an industry
returns a list that contains a recommendation for HSD whose confidence is at least 0.6
(it is 0.95: 0.7 for the keyword "diesel", raised three times and capped). Proved for
every lower-casing that leaves the text and the catalog keywords, all in lower case,
unchanged. -/
theorem inferProducts_diesel_generator (toLowerCase : String → String)
    (hkw : ∀ entry ∈ catalogProducts, ∀ kw ∈ entry.2.2.keywords, toLowerCase kw = kw)
    (htext : toLowerCase "diesel generator for captive power"
      = "diesel generator for captive power") :
    ∃ result, inferProducts toLowerCase "diesel generator for captive power" none = .ok result ∧
      ∃ r ∈ result, r.product = "HSD" ∧ r.confidence = 0.95 ∧ 0.6 ≤ r.confidence := by
  refine ⟨_, inferProducts_no_industry toLowerCase _, ?_⟩
  rw [htext, directMentions_congr toLowerCase asciiLowerCase _
    (fun entry hentry kw hk => by
      rw [hkw entry hentry kw hk, asciiLowerCase_keywords entry hentry kw hk])]
  decide!

/-- Witness of C22: the ASCII lower-casing. -/
theorem inferProducts_diesel_generator_witness :
    ∃ result,
      inferProducts asciiLowerCase "diesel generator for captive power" none = .ok result ∧
      ∃ r ∈ result, r.product = "HSD" ∧ r.confidence = 0.95 ∧ 0.6 ≤ r.confidence :=
  inferProducts_diesel_generator asciiLowerCase (by decide) (by decide)

/-- Counterexample to C21: for "boiler" the three recommendations are created by the
equipment pass with the same confidence 0.65 and are returned in the order of the
equipment table, FO before LDO, while the catalog lists LDO before FO. -/
theorem inferProducts_tie_not_catalog_order :
    (inferProducts asciiLowerCase "boiler" none).map
        (List.map fun r => (r.product, r.confidence))
      = .ok [("FO", 0.65), ("LDO", 0.65), ("LSHS", 0.65)] ∧
    (catalogProducts.map fun entry => entry.2.1).indexOf "LDO"
      < (catalogProducts.map fun entry => entry.2.1).indexOf "FO" := by
  decide!

theorem pair_sublist_of_left {α : Type} (x y : α) (l1 l2 : List α)
    (hnd : (l1 ++ l2).Nodup) (h : [x, y].Sublist (l1 ++ l2)) (hy : y ∈ l1) :
    [x, y].Sublist l1 := by
  obtain ⟨a1, a2, he, h1, h2⟩ := List.sublist_append_iff.1 h
  have hdis := (List.nodup_append.1 hnd).2.2
  have hy2 : y ∉ a2 := fun hmem => hdis hy (h2.subset hmem)
  have : a2 = [] := by
    cases a1 with
    | nil =>
      rw [List.nil_append] at he
      rw [← he] at hy2
      exact absurd (by simp) hy2
    | cons p a1 =>
      cases a1 with
      | nil =>
        have : a2 = [y] := by
          have := he.symm
          simp only [List.cons_append, List.nil_append, List.cons.injEq] at this
          exact this.2
        rw [this] at hy2
        exact absurd (by simp) hy2
      | cons q a1 =>
        have hlen := congrArg List.length he
        simp only [List.length_cons, List.length_nil, List.length_append] at hlen
        exact List.eq_nil_of_length_eq_zero (by omega)
  rw [this, List.append_nil] at he
  rw [he]; exact h1

/-- The sort is stable: entries of equal confidence keep their order. -/
theorem sortByConfidence_stable (recs : List Recommendation) (a b : Recommendation)
    (h : [a, b].Sublist (sortByConfidence recs)) (he : a.confidence = b.confidence) :
    [a, b].Sublist recs := by
  let same : Recommendation → Bool := fun r => decide (r.confidence = a.confidence)
  have hpair : ([a, b].filter same) = [a, b] := by
    simp [same, he]
  have h1 : [a, b].Sublist ((sortByConfidence recs).filter same) := by
    rw [← hpair]; exact h.filter same
  have hsorted : (recs.filter same).Pairwise byConfidence := by
    rw [List.pairwise_iff_forall_sublist]
    intro x y hxy
    have hx : x ∈ recs.filter same := hxy.subset (by simp)
    have hy : y ∈ recs.filter same := hxy.subset (by simp)
    have ex : x.confidence = a.confidence := by simpa [same] using (List.mem_filter.1 hx).2
    have ey : y.confidence = a.confidence := by simpa [same] using (List.mem_filter.1 hy).2
    unfold byConfidence
    rw [ex, ey]
  have h2 : (recs.filter same).Sublist (sortByConfidence recs) :=
    List.sublist_insertionSort hsorted (List.filter_sublist _)
  have h3 : (recs.filter same).Sublist ((sortByConfidence recs).filter same) := by
    have := h2.filter same
    rwa [List.filter_filter, show (fun r => same r && same r) = same from
      funext fun r => Bool.and_self _] at this
  have hperm : ((sortByConfidence recs).filter same).Perm (recs.filter same) :=
    (List.perm_insertionSort byConfidence recs).filter same
  have h4 : recs.filter same = (sortByConfidence recs).filter same :=
    h3.eq_of_length hperm.length_eq.symm
  rw [← h4] at h1
  exact h1.trans (List.filter_sublist _)

theorem grows_products (before after : List Recommendation) (h : Grows before after) :
    ∃ added, after.map (·.product) = before.map (·.product) ++ added := by
  obtain ⟨kept, added, rfl, hkept⟩ := h
  refine ⟨added.map (·.product), ?_⟩
  rw [List.map_append]
  congr 1
  induction hkept with
  | nil => rfl
  | cons hhead _ ih => rw [List.map_cons, List.map_cons, ih, hhead.1]

theorem steps_products (toLowerCase : String → String) (normalizedText : String)
    (steps : List InferenceStep) (recs : List Recommendation) (h : Bounded recs) :
    ∃ added, (steps.foldl (applyStep toLowerCase normalizedText) recs).map (·.product)
      = recs.map (·.product) ++ added := by
  induction steps generalizing recs with
  | nil => exact ⟨[], (List.append_nil _).symm⟩
  | cons step rest ih =>
    obtain ⟨added1, h1⟩ := grows_products _ _ (applyStep_grows toLowerCase normalizedText recs step h)
    obtain ⟨added2, h2⟩ := ih _ (applyStep_bounded toLowerCase normalizedText recs step h)
    exact ⟨added1 ++ added2, by rw [List.foldl_cons, h2, h1, List.append_assoc]⟩

theorem inferenceSteps_direct (toLowerCase : String → String) (text : String)
    (industry : Option String) :
    ∃ rest, inferenceSteps toLowerCase text industry
      = catalogProducts.map InferenceStep.direct ++ rest := by
  unfold inferenceSteps
  split
  · exact ⟨[], (List.append_nil _).symm⟩
  · exact ⟨_, List.append_assoc _ _ _⟩

theorem stateAfter_succ (toLowerCase : String → String) (text : String)
    (industry : Option String) (n : ℕ) :
    Grows (stateAfter toLowerCase text industry n) (stateAfter toLowerCase text industry (n + 1)) := by
  have hb : Bounded (stateAfter toLowerCase text industry n) :=
    steps_bounded _ _ _ _ (fun _ h => absurd h (List.not_mem_nil _))
  cases hstep : (inferenceSteps toLowerCase text industry).get? n with
  | none =>
    have hsucc : stateAfter toLowerCase text industry (n + 1)
        = stateAfter toLowerCase text industry n := foldl_take_all _ _ _ _ hstep
    rw [hsucc]
    exact grows_refl _
  | some step =>
    have hsucc : stateAfter toLowerCase text industry (n + 1)
        = applyStep toLowerCase (toLowerCase text) (stateAfter toLowerCase text industry n)
            step := foldl_take_succ _ _ _ _ _ hstep
    rw [hsucc]
    exact applyStep_grows _ _ _ _ hb

theorem mentioned_iff_direct (toLowerCase : String → String)
    (normalizedText productCode : String) :
    mentioned toLowerCase normalizedText productCode = true ↔
      productCode ∈ (directMentions toLowerCase normalizedText []).map (·.product) := by
  have h := findRecommendation_direct_isNone toLowerCase normalizedText productCode
  constructor
  · intro hm
    rw [hm] at h
    cases hfind : findRecommendation (directMentions toLowerCase normalizedText []) productCode with
    | none => rw [hfind] at h; cases h
    | some r =>
      obtain ⟨hr, hcode⟩ := findRecommendation_some _ _ _ hfind
      exact List.mem_map.2 ⟨r, hr, hcode⟩
  · intro hmem
    obtain ⟨r, hr, hcode⟩ := List.mem_map.1 hmem
    cases hm : mentioned toLowerCase normalizedText productCode with
    | true => rfl
    | false =>
      rw [hm] at h
      have hnone : findRecommendation (directMentions toLowerCase normalizedText []) productCode
          = none := by simpa using h
      exact absurd hcode ((findRecommendation_eq_none _ _).1 hnone r hr)

/-- C21: whenever `inferProducts` returns, two returned recommendations of equal confidence
appear in the order their entries have in the array before the sort, which is the order
in which the steps of the run added them: no step moves or removes an entry, new entries
go to the end. The direct mentions are added first, in catalog order: if the later of two
returned recommendations of equal confidence is a direct mention, the earlier one is a
direct mention too and comes first in the catalog. -/
theorem inferProducts_ties_stable (toLowerCase : String → String) (text : String)
    (industry : Option String) (result : List Recommendation)
    (h : inferProducts toLowerCase text industry = .ok result) :
    ∃ recs, gatherRecommendations toLowerCase text industry = .ok recs ∧
      (inferenceSteps toLowerCase text industry).foldl
        (applyStep toLowerCase (toLowerCase text)) [] = recs ∧
      (∀ n, ∃ added, (stateAfter toLowerCase text industry (n + 1)).map (·.product)
        = (stateAfter toLowerCase text industry n).map (·.product) ++ added) ∧
      (∀ a b, [a, b].Sublist result → a.confidence = b.confidence → [a, b].Sublist recs) ∧
      (∀ a b, [a, b].Sublist result → a.confidence = b.confidence →
        mentioned toLowerCase (toLowerCase text) b.product = true →
        mentioned toLowerCase (toLowerCase text) a.product = true ∧
          [a.product, b.product].Sublist (catalogProducts.map fun entry => entry.2.1)) := by
  have h0 := h
  unfold inferProducts at h
  split at h
  · cases h
  · next recs hrecs =>
    cases h
    have hsteps := gatherRecommendations_steps _ _ _ _ hrecs
    have hstable : ∀ a b, [a, b].Sublist ((sortByConfidence recs).take 3) →
        a.confidence = b.confidence → [a, b].Sublist recs := fun a b hab he =>
      sortByConfidence_stable recs a b (hab.trans (List.take_sublist 3 _)) he
    refine ⟨recs, hrecs, hsteps, fun n => grows_products _ _ (stateAfter_succ _ _ _ n),
      hstable, ?_⟩
    intro a b hab he hb
    have hpair : [a.product, b.product].Sublist (recs.map (·.product)) :=
      (hstable a b hab he).map Recommendation.product
    obtain ⟨rest, hrest⟩ := inferenceSteps_direct toLowerCase text industry
    have hdirect : (catalogProducts.map InferenceStep.direct).foldl
        (applyStep toLowerCase (toLowerCase text)) []
        = directMentions toLowerCase (toLowerCase text) [] := by
      rw [direct_steps_eq, directMentions_eq]
    have hbounded : Bounded (directMentions toLowerCase (toLowerCase text) []) := by
      rw [← hdirect]
      exact steps_bounded _ _ _ _ (fun _ h => absurd h (List.not_mem_nil _))
    obtain ⟨added, hadded⟩ := steps_products toLowerCase (toLowerCase text) rest _ hbounded
    rw [hrest, List.foldl_append, hdirect] at hsteps
    rw [hsteps] at hadded
    have hnd := gatherRecommendations_nodup _ _ _ _ hrecs
    rw [hadded] at hnd hpair
    have hleft := pair_sublist_of_left _ _ _ _ hnd hpair ((mentioned_iff_direct _ _ _).1 hb)
    refine ⟨(mentioned_iff_direct _ _ _).2 (hleft.subset (by simp)), ?_⟩
    refine hleft.trans ?_
    rw [directMentions_eq, List.nil_append, List.map_map]
    exact (List.filter_sublist _).map _

/-- Witness of C21: "boiler" in the steel industry; FO and LDO are added by the industry
pass and raised once, LSHS is created by the equipment pass, all three end at 0.65. -/
theorem inferProducts_ties_stable_witness :
    ∃ recs, gatherRecommendations asciiLowerCase "boiler" (some "steel") = .ok recs ∧
      (inferenceSteps asciiLowerCase "boiler" (some "steel")).foldl
        (applyStep asciiLowerCase (asciiLowerCase "boiler")) [] = recs ∧
      (∀ n, ∃ added, (stateAfter asciiLowerCase "boiler" (some "steel") (n + 1)).map (·.product)
        = (stateAfter asciiLowerCase "boiler" (some "steel") n).map (·.product) ++ added) ∧
      (∀ a b, [a, b].Sublist
          ((sortByConfidence (equipmentInference (asciiLowerCase "boiler")
            (["FO", "LDO"].foldl (industryStep "steel")
              (directMentions asciiLowerCase (asciiLowerCase "boiler") [])))).take 3) →
        a.confidence = b.confidence → [a, b].Sublist recs) ∧
      (∀ a b, [a, b].Sublist
          ((sortByConfidence (equipmentInference (asciiLowerCase "boiler")
            (["FO", "LDO"].foldl (industryStep "steel")
              (directMentions asciiLowerCase (asciiLowerCase "boiler") [])))).take 3) →
        a.confidence = b.confidence →
        mentioned asciiLowerCase (asciiLowerCase "boiler") b.product = true →
        mentioned asciiLowerCase (asciiLowerCase "boiler") a.product = true ∧
          [a.product, b.product].Sublist (catalogProducts.map fun entry => entry.2.1)) :=
  inferProducts_ties_stable asciiLowerCase "boiler" (some "steel") _ rfl

/-! ## The extraction vocabulary and the inference -/

theorem equipmentUpdate_foldl_isSome (other : String) (hits : List String)
    (entry : Option Recommendation)
    (h : entry.isSome = true ∨ (hits ≠ [] ∧ (findProduct other).isSome = true)) :
    (hits.foldl (fun entry equipment => equipmentUpdate equipment other entry) entry).isSome
      = true := by
  induction hits generalizing entry with
  | nil =>
    rcases h with h | ⟨h, -⟩
    · exact h
    · exact absurd rfl h
  | cons first rest ih =>
    rw [List.foldl_cons]
    apply ih
    left
    cases entry with
    | some r => rfl
    | none =>
      rcases h with h | ⟨-, h⟩
      · cases h
      · obtain ⟨found, hfound⟩ := Option.isSome_iff_exists.1 h
        simp [equipmentUpdate, hfound]

theorem vocabulary_covered :
    ∀ term ∈ PRODUCT_KEYWORDS,
      (∃ entry ∈ catalogProducts, term ∈ entry.2.2.keywords) ∨
      (∃ entry ∈ EQUIPMENT_PRODUCT_MAP, entry.1 = term ∧ entry.2 ≠ []) := by
  decide

theorem sortByConfidence_take_ne_nil (recs : List Recommendation) (h : recs ≠ []) :
    (sortByConfidence recs).take 3 ≠ [] := by
  intro hnil
  have hlen : (sortByConfidence recs).length = recs.length :=
    List.length_insertionSort byConfidence recs
  have hpos : 0 < recs.length := List.length_pos.2 h
  have := congrArg List.length hnil
  rw [List.length_take, hlen] at this
  simp only [List.length_nil] at this
  omega

/-- A term of the extraction vocabulary that occurs in the lower-cased text leaves the
array of `inferProducts` with an entry. -/
theorem term_recommended (toLowerCase : String → String)
    (hkw : ∀ entry ∈ catalogProducts, ∀ kw ∈ entry.2.2.keywords, toLowerCase kw = kw)
    (normalizedText term : String) (hterm : term ∈ PRODUCT_KEYWORDS)
    (hocc : includes normalizedText term = true) :
    equipmentInference normalizedText (directMentions toLowerCase normalizedText []) ≠ [] := by
  have hsome : ∃ productCode,
      (findRecommendation (equipmentInference normalizedText
        (directMentions toLowerCase normalizedText [])) productCode).isSome = true := by
    rcases vocabulary_covered term hterm with ⟨entry, hentry, hmem⟩ | ⟨entry, hentry, rfl, hcodes⟩
    · refine ⟨entry.2.1, ?_⟩
      rw [findRecommendation_equipmentInference]
      apply equipmentUpdate_foldl_isSome
      left
      have hm : mentioned toLowerCase normalizedText entry.2.1 = true := by
        unfold mentioned
        rw [List.any_eq_true]
        refine ⟨entry, hentry, ?_⟩
        rw [Bool.and_eq_true]
        refine ⟨beq_self_eq_true _, ?_⟩
        rw [decide_eq_true_eq]
        apply List.length_pos_of_mem
        unfold matchedKeywords
        exact List.mem_filter.2 ⟨hmem, by rw [hkw entry hentry term hmem]; exact hocc⟩
      obtain ⟨r, hr, hcode⟩ := List.mem_map.1 ((mentioned_iff_direct _ _ _).1 hm)
      cases hfind : findRecommendation (directMentions toLowerCase normalizedText [])
          entry.2.1 with
      | some _ => rfl
      | none => exact absurd hcode ((findRecommendation_eq_none _ _).1 hfind r hr)
    · obtain ⟨code, hcode⟩ := List.exists_mem_of_ne_nil _ hcodes
      refine ⟨code, ?_⟩
      rw [findRecommendation_equipmentInference]
      apply equipmentUpdate_foldl_isSome
      right
      constructor
      · apply List.ne_nil_of_mem
        unfold equipmentHits
        exact List.mem_map.2 ⟨entry, List.mem_filter.2 ⟨hentry, by
          rw [Bool.and_eq_true]
          exact ⟨hocc, by simpa using hcode⟩⟩, rfl⟩
      · exact equipment_codes_found entry hentry code hcode
  obtain ⟨code, hcode⟩ := hsome
  obtain ⟨r, hr⟩ := Option.isSome_iff_exists.1 hcode
  exact List.ne_nil_of_mem (findRecommendation_some _ _ _ hr).1

/-- C26: every term of the extraction vocabulary is a keyword of a catalog product or an
equipment phrase that maps a product; so whenever `extractProductKeywords(text)` is not
empty, `inferProducts(text)` without an industry returns a list that is not empty; and
the lead `createLeadFromSignal` creates for an article with a non-empty keyword list, when
no lead of that company is stored, has at least one product recommendation. Proved for
every lower-casing that leaves the catalog keywords, all in lower case, unchanged. -/
theorem extracted_candidate_recommended (toLowerCase : String → String)
    (hkw : ∀ entry ∈ catalogProducts, ∀ kw ∈ entry.2.2.keywords, toLowerCase kw = kw) :
    (∀ term ∈ PRODUCT_KEYWORDS,
      (∃ entry ∈ catalogProducts, term ∈ entry.2.2.keywords) ∨
      (∃ entry ∈ EQUIPMENT_PRODUCT_MAP, entry.1 = term ∧ entry.2 ≠ [])) ∧
    (∀ text, extractProductKeywords toLowerCase text ≠ [] →
      ∃ result, inferProducts toLowerCase text none = .ok result ∧ result ≠ []) ∧
    (∀ (clock : CronClock) (newId : ℕ) (article : Article) (source : SourceDocument)
        (db : Database),
      extractProductKeywords toLowerCase (article.title ++ " " ++ article.description) ≠ [] →
      (db.leads.find? fun lead => lead.companyName == companyNameOf article.toCandidate) = none →
      ∃ lead, (createLeadFromSignal toLowerCase clock newId article.toCandidate source "news"
          db).leads = db.leads ++ [lead] ∧
        lead.productRecommendations ≠ []) := by
  have hinfer : ∀ text, extractProductKeywords toLowerCase text ≠ [] →
      (sortByConfidence (equipmentInference (toLowerCase text)
        (directMentions toLowerCase (toLowerCase text) []))).take 3 ≠ [] := by
    intro text hne
    rw [extractProductKeywords_eq] at hne
    obtain ⟨term, hterm⟩ := List.exists_mem_of_ne_nil _ hne
    obtain ⟨hvoc, hocc⟩ := List.mem_filter.1 hterm
    exact sortByConfidence_take_ne_nil _ (term_recommended toLowerCase hkw _ term hvoc hocc)
  refine ⟨vocabulary_covered, ?_, ?_⟩
  · intro text hne
    exact ⟨_, inferProducts_no_industry toLowerCase text, hinfer text hne⟩
  · intro clock newId article source db hne hfind
    have htext : (signalOf clock.signalAt article.toCandidate source "news").extractedText
        = article.title ++ " " ++ article.description := rfl
    unfold createLeadFromSignal
    simp only [hfind, htext, inferProducts_no_industry]
    exact ⟨_, rfl, hinfer _ hne⟩

/-- Witness of C26: the text "new boiler" has the vocabulary term "boiler". -/
theorem extracted_candidate_recommended_witness :
    ∃ result, inferProducts asciiLowerCase "new boiler" none = .ok result ∧ result ≠ [] :=
  (extracted_candidate_recommended asciiLowerCase (by decide)).2.1 "new boiler" (by decide)

/-! ## Monotonicity and range of the score -/

theorem urgencyRank_le (urgency : String) : urgencyRank urgency ≤ 3 := by
  unfold urgencyRank
  split_ifs <;> omega

theorem daysSince_anti (now earlier later : ℤ) (h : earlier ≤ later) :
    daysSince now later ≤ daysSince now earlier := by
  unfold daysSince
  have : ((now - later : ℤ) : ℚ) ≤ ((now - earlier : ℤ) : ℚ) := by
    exact_mod_cast (by omega : now - later ≤ now - earlier)
  exact div_le_div_of_nonneg_right this (by norm_num)

theorem freshness_append (now : ℤ) (lead : Lead) (signals : List Signal) (s : Signal) :
    (calculateLeadScore now lead signals).freshness
      ≤ (calculateLeadScore now lead (signals ++ [s])).freshness := by
  cases signals with
  | nil =>
    rw [List.nil_append, freshness_cons]
    exact le_max_left _ _
  | cons first rest =>
    rw [List.cons_append, freshness_cons, freshness_cons]
    have hmem : latestSignal first rest ∈ first :: (rest ++ [s]) := by
      have := latestSignal_mem first rest
      rw [← List.cons_append]
      exact List.mem_append_left _ this
    have hle := latestSignal_ge first (rest ++ [s]) _ hmem
    have := daysSince_anti now _ _ hle
    exact max_le_max (le_refl _) (by linarith)

theorem intentStrength_append (now : ℤ) (lead : Lead) (signals : List Signal) (s : Signal) :
    (calculateLeadScore now lead signals).intentStrength
      ≤ (calculateLeadScore now lead (signals ++ [s])).intentStrength := by
  rw [intentStrength_eq, intentStrength_eq]
  by_cases ht : ∃ x ∈ signals, x.sourceType = "tender"
  · have ht' : ∃ x ∈ signals ++ [s], x.sourceType = "tender" := by
      obtain ⟨x, hx, hxt⟩ := ht
      exact ⟨x, List.mem_append_left _ hx, hxt⟩
    rw [if_pos ht, if_pos ht']
  · rw [if_neg ht]
    have hlen : (signals ++ [s]).length = signals.length + 1 := by simp
    split_ifs <;> first | (exfalso; omega) | norm_num

theorem total_append (now : ℤ) (lead : Lead) (signals : List Signal) (s : Signal) :
    (calculateLeadScore now lead signals).total
      ≤ (calculateLeadScore now lead (signals ++ [s])).total := by
  rw [total_eq, total_eq]
  have h1 := intentStrength_append now lead signals s
  have h2 := freshness_append now lead signals s
  have h3 : (calculateLeadScore now lead (signals ++ [s])).companySize
      = (calculateLeadScore now lead signals).companySize := rfl
  have h4 : (calculateLeadScore now lead (signals ++ [s])).proximity
      = (calculateLeadScore now lead signals).proximity := rfl
  rw [h3, h4]
  linarith

/-- C27: at a fixed scoring time (and a fixed time of the urgency rating), the score of a
signal list with one more signal appended has an intentStrength, a freshness and a total
that are at least those of the score of the list itself, and the urgency rated for the
longer list with its score is at least the urgency rated for the list with its score, in
the order low < medium < high < critical. -/
theorem adding_signal_never_lowers (scoreAt urgencyAt : ℤ) (lead : Lead)
    (signals : List Signal) (s : Signal) :
    (calculateLeadScore scoreAt lead signals).intentStrength
      ≤ (calculateLeadScore scoreAt lead (signals ++ [s])).intentStrength ∧
    (calculateLeadScore scoreAt lead signals).freshness
      ≤ (calculateLeadScore scoreAt lead (signals ++ [s])).freshness ∧
    (calculateLeadScore scoreAt lead signals).total
      ≤ (calculateLeadScore scoreAt lead (signals ++ [s])).total ∧
    urgencyRank (determineUrgency urgencyAt (calculateLeadScore scoreAt lead signals) signals)
      ≤ urgencyRank (determineUrgency urgencyAt
          (calculateLeadScore scoreAt lead (signals ++ [s])) (signals ++ [s])) := by
  refine ⟨intentStrength_append _ _ _ _, freshness_append _ _ _ _, total_append _ _ _ _, ?_⟩
  have htotal := total_append scoreAt lead signals s
  rw [determineUrgency_eq, determineUrgency_eq]
  by_cases hc : (∃ x ∈ signals ++ [s], x.sourceType = "tender") ∧
      (∃ x ∈ signals ++ [s], daysSince urgencyAt x.timestamp < 7)
  · rw [if_pos hc]
    exact urgencyRank_le _
  · have hc0 : ¬ ((∃ x ∈ signals, x.sourceType = "tender") ∧
        (∃ x ∈ signals, daysSince urgencyAt x.timestamp < 7)) := by
      rintro ⟨⟨x, hx, hxt⟩, ⟨y, hy, hyr⟩⟩
      exact hc ⟨⟨x, List.mem_append_left _ hx, hxt⟩, ⟨y, List.mem_append_left _ hy, hyr⟩⟩
    rw [if_neg hc, if_neg hc0]
    split_ifs <;> first | decide | (exfalso; linarith)

/-- C28: for a lead without a turnover (absent or the empty text) and signals none of
which is a tender or dated after the scoring time, the total is at least 35 and at most
70 and the urgency is 'low' or 'medium'; so it is for signals the crawler has made as
'news' not after the scoring time, and for the lead `createLeadFromSignal` creates from a
'news' candidate when the clock does not run backwards between the making of the signal
and the scoring. -/
theorem untendered_score_range (scoreAt urgencyAt : ℤ) (lead : Lead) (signals : List Signal)
    (hturnover : lead.turnover = none ∨ lead.turnover = some "") :
    ((∀ s ∈ signals, s.sourceType ≠ "tender") → (∀ s ∈ signals, s.timestamp ≤ scoreAt) →
      35 ≤ (calculateLeadScore scoreAt lead signals).total ∧
      (calculateLeadScore scoreAt lead signals).total ≤ 70 ∧
      (determineUrgency urgencyAt (calculateLeadScore scoreAt lead signals) signals = "low" ∨
        determineUrgency urgencyAt (calculateLeadScore scoreAt lead signals) signals
          = "medium")) ∧
    ((∀ s ∈ signals, ∃ signalAt data source,
        s = signalOf signalAt data source "news" ∧ signalAt ≤ scoreAt) →
      (determineUrgency urgencyAt (calculateLeadScore scoreAt lead signals) signals = "low" ∨
        determineUrgency urgencyAt (calculateLeadScore scoreAt lead signals) signals
          = "medium")) ∧
    (∀ (toLowerCase : String → String) (clock : CronClock) (newId : ℕ) (data : Candidate)
        (source : SourceDocument) (db : Database),
      clock.signalAt ≤ clock.scoreAt →
      (db.leads.find? fun stored => stored.companyName == companyNameOf data) = none →
      ∃ created, (createLeadFromSignal toLowerCase clock newId data source "news" db).leads
          = db.leads ++ [created] ∧
        (created.urgency = "low" ∨ created.urgency = "medium")) := by
  have main : ∀ (scoreAt urgencyAt : ℤ) (lead : Lead) (signals : List Signal),
      (lead.turnover = none ∨ lead.turnover = some "") →
      (∀ s ∈ signals, s.sourceType ≠ "tender") → (∀ s ∈ signals, s.timestamp ≤ scoreAt) →
      35 ≤ (calculateLeadScore scoreAt lead signals).total ∧
      (calculateLeadScore scoreAt lead signals).total ≤ 70 ∧
      (determineUrgency urgencyAt (calculateLeadScore scoreAt lead signals) signals = "low" ∨
        determineUrgency urgencyAt (calculateLeadScore scoreAt lead signals) signals
          = "medium") := by
    intro scoreAt urgencyAt lead signals hturnover htender hpast
    have hno : ¬ ∃ s ∈ signals, s.sourceType = "tender" := by
      rintro ⟨s, hs, ht⟩
      exact htender s hs ht
    have hintent := intentStrength_eq scoreAt lead signals
    rw [if_neg hno] at hintent
    have hsize : (calculateLeadScore scoreAt lead signals).companySize = 10 := by
      rw [companySize_eq]
      rcases hturnover with h | h
      · rw [h]
      · rw [h]
        exact if_neg (fun hne => hne rfl)
    have hprox : (calculateLeadScore scoreAt lead signals).proximity = 15 := rfl
    have hfresh : 0 ≤ (calculateLeadScore scoreAt lead signals).freshness ∧
        (calculateLeadScore scoreAt lead signals).freshness ≤ 25 := by
      cases signals with
      | nil => exact ⟨le_refl _, by norm_num [calculateLeadScore]⟩
      | cons first rest =>
        rw [freshness_cons]
        refine ⟨le_max_left _ _, max_le (by norm_num) ?_⟩
        have hle := hpast _ (latestSignal_mem first rest)
        have : 0 ≤ daysSince scoreAt (latestSignal first rest).timestamp := by
          unfold daysSince
          apply div_nonneg
          · exact_mod_cast (by omega : (0 : ℤ) ≤ scoreAt - (latestSignal first rest).timestamp)
          · norm_num
        linarith
    have htotal := total_eq scoreAt lead signals
    rw [hintent, hsize, hprox] at htotal
    have hrange : 35 ≤ (calculateLeadScore scoreAt lead signals).total ∧
        (calculateLeadScore scoreAt lead signals).total ≤ 70 := by
      rw [htotal]
      split_ifs <;> constructor <;> linarith [hfresh.1, hfresh.2]
    refine ⟨hrange.1, hrange.2, ?_⟩
    rw [determineUrgency_eq, if_neg (fun h => hno h.1), if_neg (not_lt.2 hrange.2)]
    split_ifs
    · right; rfl
    · left; rfl
  refine ⟨main scoreAt urgencyAt lead signals hturnover, ?_, ?_⟩
  · intro hmade
    refine (main scoreAt urgencyAt lead signals hturnover ?_ ?_).2.2
    · intro s hs
      obtain ⟨signalAt, data, source, rfl, -⟩ := hmade s hs
      show "news" ≠ "tender"
      decide
    · intro s hs
      obtain ⟨signalAt, data, source, rfl, hle⟩ := hmade s hs
      exact hle
  · intro toLowerCase clock newId data source db hclock hfind
    unfold createLeadFromSignal
    simp only [hfind, inferProducts_no_industry]
    refine ⟨_, rfl, ?_⟩
    refine (main clock.scoreAt clock.urgencyAt {} [signalOf clock.signalAt data source "news"]
      (Or.inl rfl) ?_ ?_).2.2
    · intro s hs
      rw [List.mem_singleton] at hs
      rw [hs]
      show "news" ≠ "tender"
      decide
    · intro s hs
      rw [List.mem_singleton] at hs
      rw [hs]
      exact hclock

/-- Witness of C28: a lead with one news signal dated five days before the scoring. -/
theorem untendered_score_range_witness :
    35 ≤ (calculateLeadScore 432000000 {} [⟨"news.example", "https://news.example", "news",
        "new boiler", 0, ["boiler"]⟩]).total ∧
      (calculateLeadScore 432000000 {} [⟨"news.example", "https://news.example", "news",
        "new boiler", 0, ["boiler"]⟩]).total ≤ 70 ∧
      (determineUrgency 432000000 (calculateLeadScore 432000000 {}
          [⟨"news.example", "https://news.example", "news", "new boiler", 0, ["boiler"]⟩])
          [⟨"news.example", "https://news.example", "news", "new boiler", 0, ["boiler"]⟩]
          = "low" ∨
        determineUrgency 432000000 (calculateLeadScore 432000000 {}
          [⟨"news.example", "https://news.example", "news", "new boiler", 0, ["boiler"]⟩])
          [⟨"news.example", "https://news.example", "news", "new boiler", 0, ["boiler"]⟩]
          = "medium") :=
  (untendered_score_range 432000000 432000000 {}
    [⟨"news.example", "https://news.example", "news", "new boiler", 0, ["boiler"]⟩]
    (Or.inl rfl)).1 (by decide) (by decide)

/-! ## Company names in the lead store -/

theorem saveLead_keys (now : ℤ) (doc doc' : LeadDocument) (leads : List LeadDocument)
    (hmem : doc' ∈ leads) (hid : doc'.id = doc.id) (hname : doc'.companyName = doc.companyName)
    (hnd : (leads.map (·.id)).Nodup) :
    (saveLead now doc leads).map (fun lead => (lead.id, lead.companyName))
      = leads.map fun lead => (lead.id, lead.companyName) := by
  obtain ⟨pre, post, rfl⟩ := List.append_of_mem hmem
  have hpre : ∀ x ∈ pre, (x.id == doc.id) = false := by
    intro x hx
    rw [beq_eq_false_iff_ne]
    intro e
    rw [List.map_append, List.map_cons] at hnd
    have hdis := (List.nodup_append.1 hnd).2.2
    exact hdis (List.mem_map_of_mem (·.id) hx) (by rw [e, ← hid]; exact List.mem_cons_self _ _)
  unfold saveLead
  rw [updateFirst_of_split _ _ pre post doc' hpre (by rw [hid]; exact beq_self_eq_true _)]
  simp only [List.map_append, List.map_cons, preSave, hid, hname]

/-- One run of `createLeadFromSignal` leaves the ids and names of the stored leads as they
are, or adds one lead with the new id and a company name no stored lead has. -/
theorem createLeadFromSignal_keys (toLowerCase : String → String) (clock : CronClock)
    (newId : ℕ) (data : Candidate) (source : SourceDocument) (type : String) (db : Database)
    (hnd : (db.leads.map (·.id)).Nodup) :
    leadKeys (createLeadFromSignal toLowerCase clock newId data source type db) = leadKeys db ∨
    (leadKeys (createLeadFromSignal toLowerCase clock newId data source type db)
        = leadKeys db ++ [(newId, companyNameOf data)] ∧
      ∀ lead ∈ db.leads, lead.companyName ≠ companyNameOf data) := by
  unfold createLeadFromSignal
  dsimp only
  cases hfind : db.leads.find? fun lead => lead.companyName == companyNameOf data with
  | some existingLead =>
    left
    dsimp only
    split
    · rfl
    · unfold leadKeys
      dsimp only
      exact saveLead_keys _ _ existingLead _ (List.mem_of_find?_eq_some hfind) rfl rfl hnd
  | none =>
    dsimp only
    split
    · left; rfl
    · right
      constructor
      · unfold leadKeys
        simp only [List.map_append, List.map_cons, List.map_nil, preSave]
      · intro lead hlead e
        have := List.find?_eq_none.1 hfind lead hlead
        simp [e] at this

theorem reconcileAll_keys (toLowerCase : String → String) (runs : List Reconciliation)
    (db : Database)
    (hnames : (db.leads.map (·.companyName)).Nodup)
    (hids : (db.leads.map (·.id) ++ runs.map (·.newId)).Nodup) :
    ((reconcileAll toLowerCase runs db).leads.map (·.companyName)).Nodup ∧
    ((reconcileAll toLowerCase runs db).leads.map (·.id)).Nodup ∧
    ∃ added, leadKeys (reconcileAll toLowerCase runs db) = leadKeys db ++ added := by
  induction runs generalizing db with
  | nil =>
    rw [List.map_nil, List.append_nil] at hids
    exact ⟨hnames, hids, [], (List.append_nil _).symm⟩
  | cons run rest ih =>
    have hids0 : (db.leads.map (·.id)).Nodup := (List.nodup_append.1 hids).1
    have hnames1 : ∀ db1 : Database, leadKeys db1 = leadKeys db →
        db1.leads.map (·.companyName) = db.leads.map (·.companyName) := by
      intro db1 h
      have := congrArg (List.map Prod.snd) h
      simpa [leadKeys, List.map_map, Function.comp_def] using this
    have hkeys_names : ∀ d : Database, d.leads.map (·.companyName) = (leadKeys d).map Prod.snd := by
      intro d; simp [leadKeys, List.map_map, Function.comp_def]
    have hkeys_ids : ∀ d : Database, d.leads.map (·.id) = (leadKeys d).map Prod.fst := by
      intro d; simp [leadKeys, List.map_map, Function.comp_def]
    unfold reconcileAll
    rw [List.foldl_cons]
    change _ ∧ _ ∧ ∃ added, leadKeys (reconcileAll toLowerCase rest
      (createLeadFromSignal toLowerCase run.clock run.newId run.data run.source run.type db))
        = _
    change ((reconcileAll toLowerCase rest
      (createLeadFromSignal toLowerCase run.clock run.newId run.data run.source run.type
        db)).leads.map (·.companyName)).Nodup ∧
      ((reconcileAll toLowerCase rest
      (createLeadFromSignal toLowerCase run.clock run.newId run.data run.source run.type
        db)).leads.map (·.id)).Nodup ∧ _
    rcases createLeadFromSignal_keys toLowerCase run.clock run.newId run.data run.source
      run.type db hids0 with hsame | ⟨hnew, hfresh⟩
    · have h1 : ((createLeadFromSignal toLowerCase run.clock run.newId run.data run.source
          run.type db).leads.map (·.companyName)).Nodup := by
        rw [hkeys_names, hsame, ← hkeys_names]; exact hnames
      have h2 : ((createLeadFromSignal toLowerCase run.clock run.newId run.data run.source
          run.type db).leads.map (·.id) ++ rest.map (·.newId)).Nodup := by
        rw [hkeys_ids, hsame, ← hkeys_ids]
        rw [List.map_cons] at hids
        exact hids.sublist ((List.Sublist.refl _).append (List.sublist_cons_self _ _))
      obtain ⟨r1, r2, added, r3⟩ := ih _ h1 h2
      exact ⟨r1, r2, added, by rw [r3, hsame]⟩
    · have h1 : ((createLeadFromSignal toLowerCase run.clock run.newId run.data run.source
          run.type db).leads.map (·.companyName)).Nodup := by
        rw [hkeys_names, hnew, List.map_append, ← hkeys_names]
        refine List.Nodup.append hnames (List.nodup_singleton _) ?_
        intro name hname hname'
        obtain ⟨lead, hlead, rfl⟩ := List.mem_map.1 hname
        have : lead.companyName = companyNameOf run.data := by simpa using hname'
        exact hfresh lead hlead this
      have h2 : ((createLeadFromSignal toLowerCase run.clock run.newId run.data run.source
          run.type db).leads.map (·.id) ++ rest.map (·.newId)).Nodup := by
        rw [hkeys_ids, hnew, List.map_append, ← hkeys_ids, List.append_assoc]
        simpa using hids
      obtain ⟨r1, r2, added, r3⟩ := ih _ h1 h2
      exact ⟨r1, r2, _ , by rw [r3, hnew, List.append_assoc]⟩

/-- C30: starting from a store in which no two leads have the same companyName (nor the
same `_id`), and with new `_id`s that are fresh and distinct, processing any sequence of
candidates one after another with `createLeadFromSignal` leaves a store in which no two
leads have the same companyName, and every lead stored before is still stored, at its
place and under its `_id` and companyName. -/
theorem reconciliation_keeps_names_unique (toLowerCase : String → String)
    (runs : List Reconciliation) (db : Database)
    (hnames : (db.leads.map (·.companyName)).Nodup)
    (hids : (db.leads.map (·.id) ++ runs.map (·.newId)).Nodup) :
    ((reconcileAll toLowerCase runs db).leads.map (·.companyName)).Nodup ∧
    (∃ added, (reconcileAll toLowerCase runs db).leads.map (fun lead => (lead.id, lead.companyName))
      = db.leads.map (fun lead => (lead.id, lead.companyName)) ++ added) ∧
    ∀ lead ∈ db.leads, ∃ kept ∈ (reconcileAll toLowerCase runs db).leads,
      kept.id = lead.id ∧ kept.companyName = lead.companyName := by
  obtain ⟨h1, -, added, h3⟩ := reconcileAll_keys toLowerCase runs db hnames hids
  refine ⟨h1, ⟨added, h3⟩, ?_⟩
  intro lead hlead
  have hmem : (lead.id, lead.companyName) ∈ leadKeys (reconcileAll toLowerCase runs db) := by
    rw [h3]
    exact List.mem_append_left _ (List.mem_map.2 ⟨lead, hlead, rfl⟩)
  obtain ⟨kept, hkept, e⟩ := List.mem_map.1 hmem
  exact ⟨kept, hkept, (Prod.mk.inj e).1, (Prod.mk.inj e).2⟩

/-- Witness of C30: a store with the lead "Acme" and two candidates, one for "Acme" and
one for a new company. -/
theorem reconciliation_keeps_names_unique_witness :
    ((reconcileAll asciiLowerCase exampleRuns
      ⟨[exampleLead 1 "new"], [exampleSource], []⟩).leads.map (·.companyName)).Nodup :=
  (reconciliation_keeps_names_unique asciiLowerCase exampleRuns
    ⟨[exampleLead 1 "new"], [exampleSource], []⟩ (by decide) (by decide)).1

end DataIntel
